import Mathlib

/-!
Verification model of the Crypto-Wallet-Backend repository.

The repository is a Node/Express custodial wallet backend.  This file gives a
shallow embedding of its credential and key-custody core:

* `src/utils/encryption.js` — AES-256-CBC encryption/decryption of secrets
  (`encryptPrivateKey`, `decryptPrivateKey`).  The cipher named by the source,
  `aes-256-cbc` with PKCS#7 padding, is modelled concretely and executably:
  AES-256 is implemented byte-for-byte after FIPS-197 (bytes are `Nat` values
  `< 256`), CBC chaining and the padding check follow OpenSSL's behaviour
  (padding is verified on decryption; there is no authentication tag).
* JavaScript strings are modelled as lists of Nat character codes; `Buffer.from(s,
  'hex')`'s lax hex parsing (stop at the first invalid pair) and
  `String.prototype.split` are modelled directly.
* `src/controllers/userController.js` — the request handlers
  (`registerUser`, `loginUser`, `createAdditionalWallet`, `setDefaultWallet`,
  `addAddressBookEntry`, `recoverWalletFromPhrase`) as pure functions from a
  store (the single relevant user document, mongoose being a document store
  with whole-field `save`) and the request to a response and a new store.
  External primitives that the handlers call — `crypto.pbkdf2`
  (`generateEncryptionKey`), `bcrypt.compare`, `ethers.isAddress`'s
  EIP-55 checksum, `new PublicKey(..)` validation — are kept as explicit
  function parameters collected in `Env`; randomness (salts, ivs, generated
  key pairs) is passed in as arguments, one per `crypto.randomBytes` /
  key-generation call in the source.
* `src/unnamed/part_005` — the batch address-book insertion handler.
* The Solana secret-key round trip of claim C3 additionally needs
  `Buffer.prototype.toString()` (WHATWG UTF-8 decoding with replacement
  characters) and `Number(..)` on the short segments produced by
  `split(',')`; both are modelled below.
-/

/-! ## Bytes, hex, and JS string helpers -/

/-- All entries of a byte list are in range. -/
def bytesOk (l : List Nat) : Bool := l.all (· < 256)

/-- Bytewise xor of two equal-length byte lists. -/
def xorBytes (a b : List Nat) : List Nat := List.zipWith (· ^^^ ·) a b

/-- Value of a hex digit character code (0-9, a-f, A-F), `none` otherwise. -/
def hexDigitVal (c : Nat) : Option Nat :=
  if 48 ≤ c ∧ c ≤ 57 then some (c - 48)
  else if 97 ≤ c ∧ c ≤ 102 then some (c - 87)
  else if 65 ≤ c ∧ c ≤ 70 then some (c - 55)
  else none

/-- Node's `Buffer.from(s, 'hex')`: decode hex pairs, stopping silently at the
first pair that is not two hex digits (also dropping a lone trailing digit). -/
def hexDecodeLax : List Nat → List Nat
  | c1 :: c2 :: rest =>
    match hexDigitVal c1, hexDigitVal c2 with
    | some h, some lo => (16 * h + lo) :: hexDecodeLax rest
    | _, _ => []
  | _ => []

/-- Lowercase hex digit character code for a value `< 16`. -/
def hexDigitChar (n : Nat) : Nat := if n < 10 then 48 + n else 87 + n

/-- Node's `buf.toString('hex')`: lowercase hex, two digits per byte. -/
def hexEncode : List Nat → List Nat
  | [] => []
  | b :: bs => hexDigitChar (b / 16) :: hexDigitChar (b % 16) :: hexEncode bs

/-- Helper for `jsSplit`: accumulate the current segment (reversed). -/
def jsSplitGo (sep : Nat) (cur : List Nat) : List Nat → List (List Nat)
  | [] => [cur.reverse]
  | c :: cs =>
    if c = sep then cur.reverse :: jsSplitGo sep [] cs
    else jsSplitGo sep (c :: cur) cs

/-- JavaScript `s.split(sep)` for a one-character separator: always returns
at least one (possibly empty) segment. -/
def jsSplit (sep : Nat) (s : List Nat) : List (List Nat) := jsSplitGo sep [] s

/-- A Lean string literal as a list of character codes (JS string model). -/
def strLit (s : String) : List Nat := s.toList.map Char.toNat

/-! ## AES-256 (FIPS-197), bytes as `Nat < 256` -/

/-- The AES S-box (FIPS-197 figure 7). -/
def sboxT : List Nat :=
  [99, 124, 119, 123, 242, 107, 111, 197, 48, 1, 103, 43, 254, 215, 171, 118,
   202, 130, 201, 125, 250, 89, 71, 240, 173, 212, 162, 175, 156, 164, 114, 192,
   183, 253, 147, 38, 54, 63, 247, 204, 52, 165, 229, 241, 113, 216, 49, 21,
   4, 199, 35, 195, 24, 150, 5, 154, 7, 18, 128, 226, 235, 39, 178, 117,
   9, 131, 44, 26, 27, 110, 90, 160, 82, 59, 214, 179, 41, 227, 47, 132,
   83, 209, 0, 237, 32, 252, 177, 91, 106, 203, 190, 57, 74, 76, 88, 207,
   208, 239, 170, 251, 67, 77, 51, 133, 69, 249, 2, 127, 80, 60, 159, 168,
   81, 163, 64, 143, 146, 157, 56, 245, 188, 182, 218, 33, 16, 255, 243, 210,
   205, 12, 19, 236, 95, 151, 68, 23, 196, 167, 126, 61, 100, 93, 25, 115,
   96, 129, 79, 220, 34, 42, 144, 136, 70, 238, 184, 20, 222, 94, 11, 219,
   224, 50, 58, 10, 73, 6, 36, 92, 194, 211, 172, 98, 145, 149, 228, 121,
   231, 200, 55, 109, 141, 213, 78, 169, 108, 86, 244, 234, 101, 122, 174, 8,
   186, 120, 37, 46, 28, 166, 180, 198, 232, 221, 116, 31, 75, 189, 139, 138,
   112, 62, 181, 102, 72, 3, 246, 14, 97, 53, 87, 185, 134, 193, 29, 158,
   225, 248, 152, 17, 105, 217, 142, 148, 155, 30, 135, 233, 206, 85, 40, 223,
   140, 161, 137, 13, 191, 230, 66, 104, 65, 153, 45, 15, 176, 84, 187, 22]

/-- The AES inverse S-box (FIPS-197 figure 14). -/
def invSboxT : List Nat :=
  [82, 9, 106, 213, 48, 54, 165, 56, 191, 64, 163, 158, 129, 243, 215, 251,
   124, 227, 57, 130, 155, 47, 255, 135, 52, 142, 67, 68, 196, 222, 233, 203,
   84, 123, 148, 50, 166, 194, 35, 61, 238, 76, 149, 11, 66, 250, 195, 78,
   8, 46, 161, 102, 40, 217, 36, 178, 118, 91, 162, 73, 109, 139, 209, 37,
   114, 248, 246, 100, 134, 104, 152, 22, 212, 164, 92, 204, 93, 101, 182, 146,
   108, 112, 72, 80, 253, 237, 185, 218, 94, 21, 70, 87, 167, 141, 157, 132,
   144, 216, 171, 0, 140, 188, 211, 10, 247, 228, 88, 5, 184, 179, 69, 6,
   208, 44, 30, 143, 202, 63, 15, 2, 193, 175, 189, 3, 1, 19, 138, 107,
   58, 145, 17, 65, 79, 103, 220, 234, 151, 242, 207, 206, 240, 180, 230, 115,
   150, 172, 116, 34, 231, 173, 53, 133, 226, 249, 55, 232, 28, 117, 223, 110,
   71, 241, 26, 113, 29, 41, 197, 137, 111, 183, 98, 14, 170, 24, 190, 27,
   252, 86, 62, 75, 198, 210, 121, 32, 154, 219, 192, 254, 120, 205, 90, 244,
   31, 221, 168, 51, 136, 7, 199, 49, 177, 18, 16, 89, 39, 128, 236, 95,
   96, 81, 127, 169, 25, 181, 74, 13, 45, 229, 122, 159, 147, 201, 156, 239,
   160, 224, 59, 77, 174, 42, 245, 176, 200, 235, 187, 60, 131, 83, 153, 97,
   23, 43, 4, 126, 186, 119, 214, 38, 225, 105, 20, 99, 85, 33, 12, 125]

/-- S-box lookup on a byte. -/
def subB (x : Nat) : Nat := sboxT.getD x 0

/-- Inverse S-box lookup on a byte. -/
def invSubB (x : Nat) : Nat := invSboxT.getD x 0

/-- Multiplication by `x` in GF(2^8) with the AES polynomial 0x11b. -/
def xtime (x : Nat) : Nat := if x < 128 then 2 * x else (2 * x) ^^^ 283

/-- GF(2^8) multiplication by the constant 2. -/
def g2 (x : Nat) : Nat := xtime x

/-- GF(2^8) multiplication by the constant 3. -/
def g3 (x : Nat) : Nat := xtime x ^^^ x

/-- GF(2^8) multiplication by the constant 9. -/
def g9 (x : Nat) : Nat := xtime (xtime (xtime x)) ^^^ x

/-- GF(2^8) multiplication by the constant 11. -/
def g11 (x : Nat) : Nat := xtime (xtime (xtime x)) ^^^ xtime x ^^^ x

/-- GF(2^8) multiplication by the constant 13. -/
def g13 (x : Nat) : Nat := xtime (xtime (xtime x)) ^^^ xtime (xtime x) ^^^ x

/-- GF(2^8) multiplication by the constant 14. -/
def g14 (x : Nat) : Nat := xtime (xtime (xtime x)) ^^^ xtime (xtime x) ^^^ xtime x

/-- SubBytes on a 16-byte state. -/
def subBytes (s : List Nat) : List Nat := s.map subB

/-- InvSubBytes on a 16-byte state. -/
def invSubBytes (s : List Nat) : List Nat := s.map invSubB

/-- ShiftRows on a 16-byte state in column-major (input) byte order. -/
def shiftRows : List Nat → List Nat
  | [a0, a1, a2, a3, a4, a5, a6, a7, a8, a9, a10, a11, a12, a13, a14, a15] =>
    [a0, a5, a10, a15, a4, a9, a14, a3, a8, a13, a2, a7, a12, a1, a6, a11]
  | s => s

/-- InvShiftRows on a 16-byte state. -/
def invShiftRows : List Nat → List Nat
  | [a0, a1, a2, a3, a4, a5, a6, a7, a8, a9, a10, a11, a12, a13, a14, a15] =>
    [a0, a13, a10, a7, a4, a1, a14, a11, a8, a5, a2, a15, a12, a9, a6, a3]
  | s => s

/-- MixColumns on one column. -/
def mixCol4 (a b c d : Nat) : List Nat :=
  [g2 a ^^^ g3 b ^^^ c ^^^ d,
   a ^^^ g2 b ^^^ g3 c ^^^ d,
   a ^^^ b ^^^ g2 c ^^^ g3 d,
   g3 a ^^^ b ^^^ c ^^^ g2 d]

/-- InvMixColumns on one column. -/
def invMixCol4 (a b c d : Nat) : List Nat :=
  [g14 a ^^^ g11 b ^^^ g13 c ^^^ g9 d,
   g9 a ^^^ g14 b ^^^ g11 c ^^^ g13 d,
   g13 a ^^^ g9 b ^^^ g14 c ^^^ g11 d,
   g11 a ^^^ g13 b ^^^ g9 c ^^^ g14 d]

/-- MixColumns on a 16-byte state. -/
def mixColumns : List Nat → List Nat
  | [a0, a1, a2, a3, b0, b1, b2, b3, c0, c1, c2, c3, d0, d1, d2, d3] =>
    mixCol4 a0 a1 a2 a3 ++ mixCol4 b0 b1 b2 b3 ++ mixCol4 c0 c1 c2 c3 ++ mixCol4 d0 d1 d2 d3
  | s => s

/-- InvMixColumns on a 16-byte state. -/
def invMixColumns : List Nat → List Nat
  | [a0, a1, a2, a3, b0, b1, b2, b3, c0, c1, c2, c3, d0, d1, d2, d3] =>
    invMixCol4 a0 a1 a2 a3 ++ invMixCol4 b0 b1 b2 b3 ++
      invMixCol4 c0 c1 c2 c3 ++ invMixCol4 d0 d1 d2 d3
  | s => s

/-- AddRoundKey: bytewise xor of state and round key. -/
def addRoundKey (k s : List Nat) : List Nat := xorBytes k s

/-- Rotate a 4-byte key-schedule word left by one byte. -/
def rotWordW : List Nat → List Nat
  | [a, b, c, d] => [b, c, d, a]
  | w => w

/-- SubWord on a key-schedule word. -/
def subWordW (w : List Nat) : List Nat := w.map subB

/-- Xor of two key-schedule words. -/
def xorW (a b : List Nat) : List Nat := xorBytes a b

/-- Round-constant byte for word index `i/8` of the AES-256 key schedule. -/
def rconB (j : Nat) : Nat := 2 ^ (j - 1) % 256

/-- The first `8 + n` words of the AES-256 key schedule for a 32-byte key. -/
def keyWords (key : List Nat) : Nat → List (List Nat)
  | 0 => (List.range 8).map (fun i => (key.drop (4 * i)).take 4)
  | n + 1 =>
    let ws := keyWords key n
    let i := 8 + n
    let prev := ws.getD (i - 1) []
    let temp :=
      if i % 8 = 0 then xorW (subWordW (rotWordW prev)) [rconB (i / 8), 0, 0, 0]
      else if i % 8 = 4 then subWordW prev
      else prev
    ws ++ [xorW (ws.getD (i - 8) []) temp]

/-- The fifteen 16-byte round keys of AES-256 for a 32-byte key. -/
def roundKeys (key : List Nat) : List (List Nat) :=
  let ws := keyWords key 52
  (List.range 15).map (fun r =>
    ws.getD (4 * r) [] ++ ws.getD (4 * r + 1) [] ++ ws.getD (4 * r + 2) [] ++
      ws.getD (4 * r + 3) [])

/-- Middle and final encryption rounds, keys in application order. -/
def encRounds : List (List Nat) → List Nat → List Nat
  | [], s => s
  | [k], s => addRoundKey k (shiftRows (subBytes s))
  | k :: k2 :: ks, s => encRounds (k2 :: ks) (addRoundKey k (mixColumns (shiftRows (subBytes s))))

/-- AES block encryption: initial AddRoundKey, then `encRounds`. -/
def encryptBlock (ks : List (List Nat)) (s : List Nat) : List Nat :=
  match ks with
  | [] => s
  | k0 :: rest => encRounds rest (addRoundKey k0 s)

/-- Inverse of `encRounds` (same key order; this unfolds to the FIPS-197
InvCipher step sequence). -/
def decRounds : List (List Nat) → List Nat → List Nat
  | [], s => s
  | [k], s => invSubBytes (invShiftRows (addRoundKey k s))
  | k :: k2 :: ks, s =>
    invSubBytes (invShiftRows (invMixColumns (addRoundKey k (decRounds (k2 :: ks) s))))

/-- AES block decryption, inverse of `encryptBlock`. -/
def decryptBlock (ks : List (List Nat)) (s : List Nat) : List Nat :=
  match ks with
  | [] => s
  | k0 :: rest => addRoundKey k0 (decRounds rest s)

/-! ## CBC mode with PKCS#7 padding (OpenSSL `aes-256-cbc` semantics) -/

/-- Fuel-driven block splitter (structural recursion so that it evaluates
inside the kernel); `toBlocks` supplies enough fuel. -/
def toBlocksF : Nat → List Nat → List (List Nat)
  | 0, _ => []
  | _, [] => []
  | fuel + 1, b :: rest => ((b :: rest).take 16) :: toBlocksF fuel ((b :: rest).drop 16)

/-- Split a byte list into 16-byte blocks (the last block keeps whatever
remains when the length is not a multiple of 16). -/
def toBlocks (l : List Nat) : List (List Nat) := toBlocksF l.length l

/-- CBC encryption of a block list with chaining value `prev`. -/
def cbcEncBlocks (ks : List (List Nat)) (prev : List Nat) : List (List Nat) → List (List Nat)
  | [] => []
  | b :: bs =>
    let c := encryptBlock ks (xorBytes prev b)
    c :: cbcEncBlocks ks c bs

/-- CBC decryption of a block list with chaining value `prev`. -/
def cbcDecBlocks (ks : List (List Nat)) (prev : List Nat) : List (List Nat) → List (List Nat)
  | [] => []
  | c :: cs => xorBytes prev (decryptBlock ks c) :: cbcDecBlocks ks c cs

/-- PKCS#7 padding to a multiple of 16 bytes (always adds 1..16 bytes). -/
def pad16 (l : List Nat) : List Nat :=
  let p := 16 - l.length % 16
  l ++ List.replicate p p

/-- PKCS#7 unpadding as checked by OpenSSL on decryption: the last byte `p`
must be in 1..16 and the last `p` bytes must all equal `p`. -/
def unpad16 (l : List Nat) : Option (List Nat) :=
  match l.getLast? with
  | none => none
  | some p =>
    if 1 ≤ p ∧ p ≤ 16 ∧ p ≤ l.length ∧ (l.drop (l.length - p)).all (· = p) then
      some (l.take (l.length - p))
    else none

/-- `aes-256-cbc` encryption of a byte string (pad, then CBC). -/
def aesCbcEncrypt (key iv pt : List Nat) : List Nat :=
  (cbcEncBlocks (roundKeys key) iv (toBlocks (pad16 pt))).flatten

/-- `aes-256-cbc` decryption of a byte string: the ciphertext must be a
nonempty multiple of 16 bytes and the padding must verify, else the OpenSSL
`final()` call throws (modelled as `none`). -/
def aesCbcDecrypt (key iv ct : List Nat) : Option (List Nat) :=
  if ct.length % 16 = 0 ∧ ct ≠ [] then
    unpad16 ((cbcDecBlocks (roundKeys key) iv (toBlocks ct)).flatten)
  else none

/-! ## `src/utils/encryption.js` -/

/-- `encryptPrivateKey(privateKey, encryptionKey)` from `src/utils/encryption.js`
(the same helper is duplicated inside `src/controllers/userController.js`).
`privateKey` is the UTF-8 byte sequence of the JS string argument,
`encryptionKey` the hex-string key, and `iv` the 16 bytes drawn from
`crypto.randomBytes(16)` by this call.  Returns the blob
`hex(iv) ++ ":" ++ hex(ciphertext)` as a JS string (char-code list), or
`none` when `createCipheriv` would throw (key not 32 bytes after hex
decoding). -/
def encryptPrivateKey (privateKey encryptionKey iv : List Nat) : Option (List Nat) :=
  let keyBytes := hexDecodeLax encryptionKey
  if keyBytes.length = 32 ∧ iv.length = 16 then
    some (hexEncode iv ++ [58] ++ hexEncode (aesCbcEncrypt keyBytes iv privateKey))
  else none

/-- `decryptPrivateKey(encryptedData, encryptionKey)` from
`src/utils/encryption.js`: split on ':', hex-decode the first segment as iv
and the second as ciphertext (any further segments are ignored, exactly as
`parts[0]`/`parts[1]` in the source), then CBC-decrypt.  `none` models every
way the JS function throws: fewer than two segments (`parts[1]` is
`undefined`), an iv that does not lax-hex-decode to 16 bytes, a key that
does not decode to 32 bytes, a ciphertext that is not a nonempty multiple of
the block size, or a failing padding check. -/
def decryptPrivateKey (encryptedData encryptionKey : List Nat) : Option (List Nat) :=
  match jsSplit 58 encryptedData with
  | p0 :: p1 :: _ =>
    let iv := hexDecodeLax p0
    let keyBytes := hexDecodeLax encryptionKey
    if iv.length = 16 ∧ keyBytes.length = 32 then
      aesCbcDecrypt keyBytes iv (hexDecodeLax p1)
    else none
  | _ => none

/-- Apply a 4-ary byte function to a 4-element list (helper for stating
column-level lemmas about `mixCol4`/`invMixCol4`). -/
def app4 (f : Nat → Nat → Nat → Nat → List Nat) : List Nat → List Nat
  | [a, b, c, d] => f a b c d
  | l => l

/-! ## UTF-8 (WHATWG, replacement on error) and the Solana secret-key parse -/

/-- Fuel-driven core of the UTF-8 decoder.  Valid sequences decode to their
code point (overlongs, surrogates and out-of-range lead/continuation bytes
are rejected); an invalid byte produces one U+FFFD replacement character
and decoding resumes at the next byte. -/
def utf8DecodeF : Nat → List Nat → List Nat
  | 0, _ => []
  | _, [] => []
  | fuel + 1, b :: rest =>
    if b < 0x80 then b :: utf8DecodeF fuel rest
    else if 0xC2 ≤ b ∧ b ≤ 0xDF then
      match rest with
      | b2 :: rest2 =>
        if 0x80 ≤ b2 ∧ b2 ≤ 0xBF then
          ((b - 0xC0) * 64 + (b2 - 0x80)) :: utf8DecodeF fuel rest2
        else 0xFFFD :: utf8DecodeF fuel rest
      | [] => [0xFFFD]
    else if 0xE0 ≤ b ∧ b ≤ 0xEF then
      match rest with
      | b2 :: b3 :: rest3 =>
        if ((b = 0xE0 ∧ 0xA0 ≤ b2 ∧ b2 ≤ 0xBF) ∨ (b = 0xED ∧ 0x80 ≤ b2 ∧ b2 ≤ 0x9F) ∨
              (b ≠ 0xE0 ∧ b ≠ 0xED ∧ 0x80 ≤ b2 ∧ b2 ≤ 0xBF)) ∧ 0x80 ≤ b3 ∧ b3 ≤ 0xBF then
          ((b - 0xE0) * 4096 + (b2 - 0x80) * 64 + (b3 - 0x80)) :: utf8DecodeF fuel rest3
        else 0xFFFD :: utf8DecodeF fuel rest
      | _ => 0xFFFD :: utf8DecodeF fuel rest
    else if 0xF0 ≤ b ∧ b ≤ 0xF4 then
      match rest with
      | b2 :: b3 :: b4 :: rest4 =>
        if ((b = 0xF0 ∧ 0x90 ≤ b2 ∧ b2 ≤ 0xBF) ∨ (b = 0xF4 ∧ 0x80 ≤ b2 ∧ b2 ≤ 0x8F) ∨
              (b ≠ 0xF0 ∧ b ≠ 0xF4 ∧ 0x80 ≤ b2 ∧ b2 ≤ 0xBF)) ∧
            0x80 ≤ b3 ∧ b3 ≤ 0xBF ∧ 0x80 ≤ b4 ∧ b4 ≤ 0xBF then
          ((b - 0xF0) * 0x40000 + (b2 - 0x80) * 4096 + (b3 - 0x80) * 64 + (b4 - 0x80)) ::
            utf8DecodeF fuel rest4
        else 0xFFFD :: utf8DecodeF fuel rest
      | _ => 0xFFFD :: utf8DecodeF fuel rest
    else 0xFFFD :: utf8DecodeF fuel rest

/-- `Buffer.prototype.toString()` (UTF-8 decode, WHATWG behaviour) on a byte
list, producing the code points of the resulting JS string (the fuel of
`utf8DecodeF` only guarantees structural recursion; every step consumes at
least one byte, so `bs.length` is always enough). -/
def utf8DecodeCP (bs : List Nat) : List Nat := utf8DecodeF bs.length bs

/-- UTF-8 encoding of a list of code points (what `cipher.update(s, 'utf8')`
feeds to the cipher for a JS string `s`). -/
def utf8Encode : List Nat → List Nat
  | [] => []
  | c :: cs =>
    if c < 0x80 then c :: utf8Encode cs
    else if c < 0x800 then (0xC0 + c / 64) :: (0x80 + c % 64) :: utf8Encode cs
    else if c < 0x10000 then
      (0xE0 + c / 4096) :: (0x80 + c / 64 % 64) :: (0x80 + c % 64) :: utf8Encode cs
    else
      (0xF0 + c / 0x40000) :: (0x80 + c / 4096 % 64) :: (0x80 + c / 64 % 64) ::
        (0x80 + c % 64) :: utf8Encode cs

/-- A code point that `utf8DecodeCP` can produce: in range and not a
surrogate. -/
def validCP (c : Nat) : Prop := c < 0x110000 ∧ ¬ (0xD800 ≤ c ∧ c ≤ 0xDFFF)

/-- JavaScript `Number(segment)` for the segment strings produced by
`split(',')`, as used by `transferSOL`/`signMessage` (`none` is NaN).  The
empty string is 0; a run of decimal digits is its value; everything else is
mapped to NaN.  (JS additionally trims whitespace and accepts hex/float
forms; the theorems below only evaluate this on the empty and
single-character segments that arise there, where the two semantics agree
after the `Uint8Array.from` NaN-to-0 coercion.) -/
def jsNumOfSegment (s : List Nat) : Option Nat :=
  if s = [] then some 0
  else if s.all (fun c => 48 ≤ c && c ≤ 57) then
    some (s.foldl (fun acc c => acc * 10 + (c - 48)) 0)
  else none

/-- `Uint8Array.from(privateKeyString.split(',').map(Number))` from
`transferSOL` (src/unnamed/part_004) and `signMessage`
(src/controllers/userController.js): split the decrypted string on ','
(code 44), parse each segment with `Number`, and coerce each result to a
uint8 (NaN becomes 0, integers are taken mod 256). -/
def solParseSecret (s : List Nat) : List Nat :=
  (jsSplit 44 s).map (fun seg =>
    match jsNumOfSegment seg with
    | some v => v % 256
    | none => 0)

/-- The public key of `Keypair.fromSecretKey(bytes)`: defined only when the
array has exactly 64 entries, in which case the public key is bytes 32..63.
(The real call additionally sign-verifies the pair and throws when the two
halves are inconsistent; this model over-approximates by always succeeding
on 64 bytes, which only strengthens the negative theorem C3 below.)  A
wallet's stored base58 `address` is identified with these 32 public-key
bytes (base58 encoding is injective). -/
def solRebuildPub (s : List Nat) : Option (List Nat) :=
  let parsed := solParseSecret s
  if parsed.length = 64 then some (parsed.drop 32) else none

/-! ## The user document and the request handlers of
`src/controllers/userController.js` and `src/unnamed/part_005`

JS strings are lists of character codes.  The mongoose layer is modelled as
a document store: `findOne`/`findById` look a user up (documents are keyed
by `username`, which also stands in for the JWT user id), and `save`
replaces the stored document wholesale — each handler performs at most one
`save`.  Randomness (`crypto.randomBytes`, generated key pairs, bcrypt
hashes) and the external primitives (`crypto.pbkdf2` alias
`generateEncryptionKey`, `bcrypt.compare`, the EIP-55 checksum inside
`ethers.isAddress`, `new PublicKey` validity) are explicit parameters. -/

/-- One wallet subdocument, as built by the handlers (the `createdAt` date
field is omitted: no claim mentions time). -/
structure Wallet where
  blockchain : List Nat
  address : List Nat
  privateKey : List Nat
  isDefault : Bool
  label : List Nat
deriving DecidableEq, Repr, Inhabited

/-- One address-book entry (creation date omitted as for `Wallet`). -/
structure ABEntry where
  label : List Nat
  address : List Nat
  blockchain : List Nat
  notes : List Nat
deriving DecidableEq, Repr, Inhabited

/-- The user document. -/
structure UserDoc where
  username : List Nat
  password : List Nat
  salt : List Nat
  recoveryPhrase : List Nat
  wallets : List Wallet
  addressBook : List ABEntry
deriving DecidableEq, Repr, Inhabited

/-- An HTTP response shape: status code and the `message` field of the JSON
body. -/
structure Resp where
  status : Nat
  message : List Nat
deriving DecidableEq, Repr, Inhabited

/-- The external primitives used by the handlers. -/
structure Env where
  derive : List Nat → List Nat → List Nat
  bcryptCheck : List Nat → List Nat → Bool
  ethChecksum : List Nat → List Nat
  solValid : List Nat → Bool

/-- `User.findOne({username})` / `User.findById(id)` over the store. -/
def findOne (store : List UserDoc) (username : List Nat) : Option UserDoc :=
  store.find? (fun u => u.username == username)

/-- `user.save()`: replace the stored document with the same key. -/
def saveUser (store : List UserDoc) (u : UserDoc) : List UserDoc :=
  store.map (fun v => if v.username == u.username then u else v)

/-- JS `String.prototype.toLowerCase` on ASCII letters. -/
def lowerStr (s : List Nat) : List Nat :=
  s.map (fun c => if 65 ≤ c ∧ c ≤ 90 then c + 32 else c)

/-- `registerUser` (src/controllers/userController.js lines 68-133).
Randomness parameters, in the order the source draws them: `salt`
(randomBytes(16) hex), `hashedPassword` (bcrypt.hash), `mnemonic` (generated
phrase), the Ethereum wallet derived from the phrase, the freestanding
Solana keypair (`solSecretKey` is its raw 64-byte secret key, stored as the
UTF-8 decoding string per `Buffer.from(..).toString()`), and one iv per
`encryptPrivateKey` call. -/
def registerUser (env : Env) (store : List UserDoc) (username password : List Nat)
    (salt hashedPassword mnemonic ethAddress ethPrivateKey solAddress : List Nat)
    (solSecretKey : List Nat) (ivEth ivSol ivPhrase : List Nat) : Resp × List UserDoc :=
  match findOne store username with
  | some _ => ({ status := 400, message := strLit "Username already exists" }, store)
  | none =>
    let encryptionKey := env.derive password salt
    match encryptPrivateKey ethPrivateKey encryptionKey ivEth,
        encryptPrivateKey (utf8Encode (utf8DecodeCP solSecretKey)) encryptionKey ivSol,
        encryptPrivateKey mnemonic encryptionKey ivPhrase with
    | some encEth, some encSol, some encPhrase =>
      let newUser : UserDoc :=
        { username := username
          password := hashedPassword
          salt := salt
          recoveryPhrase := encPhrase
          wallets :=
            [{ blockchain := strLit "ethereum", address := ethAddress, privateKey := encEth,
               isDefault := true, label := strLit "Default ETH Wallet" },
             { blockchain := strLit "solana", address := solAddress, privateKey := encSol,
               isDefault := true, label := strLit "Default SOL Wallet" }]
          addressBook := [] }
      ({ status := 201, message := strLit "User registered successfully" }, store ++ [newUser])
    | _, _, _ => ({ status := 500, message := strLit "Server error" }, store)

/-- `loginUser` (src/controllers/userController.js lines 135-176): note the
distinct failure shapes for an unknown user (404, "User not found") and a
wrong password (400, "Invalid credentials"). -/
def loginUser (env : Env) (store : List UserDoc) (username password : List Nat) :
    Resp × List UserDoc :=
  match findOne store username with
  | none => ({ status := 404, message := strLit "User not found" }, store)
  | some user =>
    if env.bcryptCheck password user.password then
      ({ status := 200, message := strLit "Login successful" }, store)
    else ({ status := 400, message := strLit "Invalid credentials" }, store)

/-- `createAdditionalWallet` (src/controllers/userController.js lines
196-248).  The freshly generated wallet of each branch is a parameter
(`ethAddress`/`ethPrivateKey` for the Ethereum branch, `solAddress`/
`solSecretKey` for the Solana branch), as is the iv of the one
`encryptPrivateKey` call.  The supplied `password` is never compared with
the stored login hash; it only feeds `generateEncryptionKey`.  The new
wallet is always stored with `isDefault: false`. -/
def createAdditionalWallet (env : Env) (store : List UserDoc) (userId : List Nat)
    (blockchain label password : List Nat) (ethAddress ethPrivateKey : List Nat)
    (solAddress solSecretKey : List Nat) (iv : List Nat) : Resp × List UserDoc :=
  match findOne store userId with
  | none => ({ status := 404, message := strLit "User not found" }, store)
  | some user =>
    let encryptionKey := env.derive password user.salt
    if lowerStr blockchain = strLit "ethereum" then
      match encryptPrivateKey ethPrivateKey encryptionKey iv with
      | some enc =>
        let count := (user.wallets.filter (fun w => w.blockchain == strLit "ethereum")).length
        let newWallet : Wallet :=
          { blockchain := strLit "ethereum", address := ethAddress, privateKey := enc,
            isDefault := false,
            label := if label ≠ [] then label
              else strLit "ETH Wallet " ++ strLit (toString (count + 1)) }
        ({ status := 201, message := strLit "Wallet created successfully" },
          saveUser store { user with wallets := user.wallets ++ [newWallet] })
      | none => ({ status := 500, message := strLit "Server error" }, store)
    else if lowerStr blockchain = strLit "solana" then
      match encryptPrivateKey (utf8Encode (utf8DecodeCP solSecretKey)) encryptionKey iv with
      | some enc =>
        let count := (user.wallets.filter (fun w => w.blockchain == strLit "solana")).length
        let newWallet : Wallet :=
          { blockchain := strLit "solana", address := solAddress, privateKey := enc,
            isDefault := false,
            label := if label ≠ [] then label
              else strLit "SOL Wallet " ++ strLit (toString (count + 1)) }
        ({ status := 201, message := strLit "Wallet created successfully" },
          saveUser store { user with wallets := user.wallets ++ [newWallet] })
      | none => ({ status := 500, message := strLit "Server error" }, store)
    else ({ status := 400, message := strLit "Unsupported blockchain" }, store)

/-- `user.wallets[walletIndex].isDefault = true`. -/
def setDefaultAt : List Wallet → Nat → List Wallet
  | [], _ => []
  | w :: ws, 0 => { w with isDefault := true } :: ws
  | w :: ws, n + 1 => w :: setDefaultAt ws n

/-- `setDefaultWallet` (src/controllers/userController.js lines 250-291):
look the wallet up by (address, blockchain); on a miss answer 404 and leave
the store untouched; on a hit clear `isDefault` on every wallet of that
blockchain, set it on the match, and save once. -/
def setDefaultWallet (store : List UserDoc) (userId walletAddress blockchain : List Nat) :
    Resp × List UserDoc :=
  match findOne store userId with
  | none => ({ status := 404, message := strLit "User not found" }, store)
  | some user =>
    match user.wallets.findIdx? (fun w =>
        w.address == walletAddress && w.blockchain == blockchain) with
    | none => ({ status := 404, message := strLit "Wallet not found" }, store)
    | some walletIndex =>
      let cleared := user.wallets.map (fun w =>
        if w.blockchain == blockchain then { w with isDefault := false } else w)
      ({ status := 200, message := strLit "Default wallet updated successfully" },
        saveUser store { user with wallets := setDefaultAt cleared walletIndex })

/-- `ethers.isAddress` (ethers v6 `getAddress`): `0x` plus 40 hex digits,
and when the hex digits mix upper and lower case the EIP-55 checksum
(`checksum`, an external primitive) must reproduce the input exactly. -/
def ethIsAddress (checksum : List Nat → List Nat) (s : List Nat) : Bool :=
  match s with
  | 48 :: 120 :: rest =>
    rest.length = 40 && rest.all (fun c => (hexDigitVal c).isSome) &&
      (!((s.any (fun c => 65 ≤ c && c ≤ 70)) && s.any (fun c => 97 ≤ c && c ≤ 102)) ||
        checksum s == s)
  | _ => false

/-- `addAddressBookEntry` (src/controllers/userController.js lines 512-571):
chain-specific format validation (unknown chains are invalid), exact-string
duplicate check on (address, blockchain), then a single save. -/
def addAddressBookEntry (env : Env) (store : List UserDoc)
    (userId label address blockchain notes : List Nat) : Resp × List UserDoc :=
  match findOne store userId with
  | none => ({ status := 404, message := strLit "User not found" }, store)
  | some user =>
    let isValid :=
      if blockchain = strLit "ethereum" then ethIsAddress env.ethChecksum address
      else if blockchain = strLit "solana" then env.solValid address
      else false
    if !isValid then
      ({ status := 400, message := strLit "Invalid " ++ blockchain ++ strLit " address format" },
        store)
    else
      match user.addressBook.find? (fun e =>
          e.address == address && e.blockchain == blockchain) with
      | some _ =>
        ({ status := 400, message := strLit "Address already exists in address book" }, store)
      | none =>
        ({ status := 201, message := strLit "Address added to address book" },
          saveUser store { user with addressBook := user.addressBook ++
            [{ label := label, address := address, blockchain := blockchain, notes := notes }] })

/-- One step of the batch validation loop of `addBatchAddressBookEntries`
(src/unnamed/part_005 lines 104-180): given the accumulated
(validEntries, invalidEntries-with-reasons), process one raw entry. -/
def batchStep (env : Env) (book : List ABEntry)
    (acc : List ABEntry × List (ABEntry × List Nat)) (entry : ABEntry) :
    List ABEntry × List (ABEntry × List Nat) :=
  let (validEntries, invalidEntries) := acc
  if entry.label = [] ∨ entry.address = [] ∨ entry.blockchain = [] then
    (validEntries, invalidEntries ++ [(entry, strLit "Missing required fields")])
  else if ¬ (lowerStr entry.blockchain = strLit "ethereum" ∨
      lowerStr entry.blockchain = strLit "solana") then
    (validEntries, invalidEntries ++ [(entry, strLit "Invalid blockchain")])
  else if !(if lowerStr entry.blockchain = strLit "ethereum" then
      ethIsAddress env.ethChecksum entry.address else env.solValid entry.address) then
    (validEntries, invalidEntries ++
      [(entry, strLit "Invalid " ++ entry.blockchain ++ strLit " address format")])
  else if (book.find? (fun e =>
      e.address == entry.address && e.blockchain == entry.blockchain)).isSome then
    (validEntries, invalidEntries ++
      [(entry, strLit "Address already exists in address book")])
  else if (validEntries.find? (fun e =>
      e.address == entry.address && e.blockchain == entry.blockchain)).isSome then
    (validEntries, invalidEntries ++ [(entry, strLit "Duplicate address in batch")])
  else
    (validEntries ++
      [ABEntry.mk entry.label entry.address (lowerStr entry.blockchain) entry.notes],
      invalidEntries)

/-- `addBatchAddressBookEntries` (src/unnamed/part_005 lines 86-197):
validate and de-duplicate every entry first, then push all surviving
entries and save once.  Returns the response, the number added, the
rejected entries with their reasons, and the new store. -/
def addBatchAddressBookEntries (env : Env) (store : List UserDoc) (userId : List Nat)
    (entries : List ABEntry) : Resp × Nat × List (ABEntry × List Nat) × List UserDoc :=
  if entries = [] then
    ({ status := 400, message := strLit "Invalid entries format" }, 0, [], store)
  else
    match findOne store userId with
    | none => ({ status := 404, message := strLit "User not found" }, 0, [], store)
    | some user =>
      let (validEntries, invalidEntries) :=
        entries.foldl (batchStep env user.addressBook) ([], [])
      let store2 :=
        if validEntries ≠ [] then
          saveUser store { user with addressBook := user.addressBook ++ validEntries }
        else store
      ({ status := 200, message := strLit "Batch processing completed" },
        validEntries.length, invalidEntries, store2)

/-- The `Promise.all(user.wallets.map(..))` of `recoverWalletFromPhrase`:
decrypt every wallet key under the old key and re-encrypt under the new key
(`ivW i` is the iv drawn by the i-th re-encryption); any single failure
fails the whole batch before anything is written. -/
def reencryptWallets (oldKey newKey : List Nat) (ivW : Nat → List Nat) :
    List Wallet → Nat → Option (List Wallet)
  | [], _ => some []
  | w :: ws, i =>
    match decryptPrivateKey w.privateKey oldKey with
    | none => none
    | some plain =>
      match encryptPrivateKey plain newKey (ivW i) with
      | none => none
      | some enc =>
        match reencryptWallets oldKey newKey ivW ws (i + 1) with
        | none => none
        | some rest => some ({ w with privateKey := enc } :: rest)

/-- `recoverWalletFromPhrase` (src/controllers/userController.js lines
626-686).  Randomness parameters: `newSalt` (randomBytes(16) hex),
`newHashedPassword` (bcrypt.hash of the new password), `ivPhrase` and
`ivW` for the re-encryption ivs.  With `newPassword = none` it only reveals
the phrase; with a new password it rotates: every decryption happens before
the single `user.save()`, and any thrown decryption error is caught and
answered with 500 without touching the store. -/
def recoverWalletFromPhrase (env : Env) (store : List UserDoc)
    (username password : List Nat) (newPassword : Option (List Nat))
    (newSalt newHashedPassword ivPhrase : List Nat) (ivW : Nat → List Nat) :
    Resp × List UserDoc :=
  match findOne store username with
  | none => ({ status := 404, message := strLit "User not found" }, store)
  | some user =>
    if !env.bcryptCheck password user.password then
      ({ status := 401, message := strLit "Invalid credentials" }, store)
    else
      let encryptionKey := env.derive password user.salt
      match decryptPrivateKey user.recoveryPhrase encryptionKey with
      | none => ({ status := 500, message := strLit "Recovery failed" }, store)
      | some mnemonic =>
        match newPassword with
        | none =>
          ({ status := 200, message := strLit "Recovery phrase retrieved successfully" }, store)
        | some np =>
          let newEncryptionKey := env.derive np newSalt
          match encryptPrivateKey mnemonic newEncryptionKey ivPhrase with
          | none => ({ status := 500, message := strLit "Recovery failed" }, store)
          | some newEncMnemonic =>
            match reencryptWallets encryptionKey newEncryptionKey ivW user.wallets 0 with
            | none => ({ status := 500, message := strLit "Recovery failed" }, store)
            | some newWallets =>
              ({ status := 200,
                 message := strLit "Wallet recovered and password updated successfully" },
                saveUser store { user with
                  password := newHashedPassword
                  salt := newSalt
                  recoveryPhrase := newEncMnemonic
                  wallets := newWallets })

/-! ## Transition system for the wallet-registry invariant (claim C2) -/

/-- One registry-affecting call, with all its request and randomness
parameters. -/
inductive WOp where
  | register (username password salt hashedPassword mnemonic ethAddress ethPrivateKey
      solAddress solSecretKey ivEth ivSol ivPhrase : List Nat)
  | addWallet (userId blockchain label password ethAddress ethPrivateKey solAddress
      solSecretKey iv : List Nat)
  | setDefault (userId walletAddress blockchain : List Nat)

/-- Apply one call to the store (responses are dropped). -/
def applyOp (env : Env) (store : List UserDoc) : WOp → List UserDoc
  | .register username password salt hashedPassword mnemonic ethAddress ethPrivateKey
      solAddress solSecretKey ivEth ivSol ivPhrase =>
    (registerUser env store username password salt hashedPassword mnemonic ethAddress
      ethPrivateKey solAddress solSecretKey ivEth ivSol ivPhrase).2
  | .addWallet userId blockchain label password ethAddress ethPrivateKey solAddress
      solSecretKey iv =>
    (createAdditionalWallet env store userId blockchain label password ethAddress
      ethPrivateKey solAddress solSecretKey iv).2
  | .setDefault userId walletAddress blockchain =>
    (setDefaultWallet store userId walletAddress blockchain).2

/-- Run a sequence of calls from the empty store. -/
def runOps (env : Env) (ops : List WOp) : List UserDoc :=
  ops.foldl (applyOp env) []

/-- Number of wallets of a chain in a document. -/
def chainCount (u : UserDoc) (chain : List Nat) : Nat :=
  (u.wallets.filter (fun w => w.blockchain == chain)).length

/-- Number of default wallets of a chain in a document. -/
def defaultCount (u : UserDoc) (chain : List Nat) : Nat :=
  (u.wallets.filter (fun w => w.blockchain == chain && w.isDefault)).length

/-- The per-(user, chain) default invariant of the spec: exactly one default
when the chain has wallets, none otherwise. -/
def defaultInvariant (u : UserDoc) : Prop :=
  ∀ chain : List Nat, defaultCount u chain = if chainCount u chain ≥ 1 then 1 else 0

/-! ## Concrete scenario constants used by the C1 theorems -/

/-- Concrete stand-in for the old derived key (C1 scenario). -/
def c1OldKey : List Nat := strLit "404142434445464748494a4b4c4d4e4f505152535455565758595a5b5c5d5e5f"

/-- Concrete stand-in for the new derived key (C1 scenario). -/
def c1NewKey : List Nat := strLit "606162636465666768696a6b6c6d6e6f707172737475767778797a7b7c7d7e7f"

/-- Concrete environment for the C1 scenario: the KDF parameter maps the two
passwords involved to two distinct 32-byte keys (injective on the inputs
used), and bcrypt comparison is modelled by tagging. -/
def c1Env : Env :=
  { derive := fun p _ => if p = strLit "p1" then c1OldKey else c1NewKey
    bcryptCheck := fun p h => h == strLit "hash-" ++ p
    ethChecksum := fun s => s
    solValid := fun _ => true }

/-- A fixed 16-byte iv for the C1 scenario's initial ciphertexts. -/
def c1IvA : List Nat := List.replicate 16 5

/-- The adversarial re-encryption iv of the C1 counterexample: with this iv
the wallet ciphertext produced under the new key also passes the CBC
padding check under the old key. -/
def c1BadIv : List Nat := 159 :: List.replicate 15 0

/-- The stored user of the C1 scenario: password hash for "p1", one
Ethereum wallet whose key and recovery phrase are encrypted under the old
derived key. -/
def c1User : UserDoc :=
  { username := strLit "alice"
    password := strLit "hash-p1"
    salt := strLit "s0"
    recoveryPhrase := (encryptPrivateKey (strLit "mn") c1OldKey c1IvA).getD []
    wallets := [Wallet.mk (strLit "ethereum") (strLit "0xA")
      ((encryptPrivateKey (strLit "0xabcdef") c1OldKey c1IvA).getD []) true (strLit "L")]
    addressBook := [] }

/-- The wallet list produced by the C1 witness rotation. -/
def c1WS2 : List Wallet :=
  [Wallet.mk (strLit "ethereum") (strLit "0xA")
    ((encryptPrivateKey (strLit "0xabcdef") c1NewKey c1IvA).getD []) true (strLit "L")]

/-! ## Concrete scenario constants used by the C10 theorems -/

/-- Key derived from the user's real password in the C10 scenario. -/
def c10RealKey : List Nat :=
  strLit "808182838485868788898a8b8c8d8e8f909192939495969798999a9b9c9d9e9f"

/-- Key derived from the attacker-supplied password in the C10 scenario. -/
def c10OtherKey : List Nat :=
  strLit "a0a1a2a3a4a5a6a7a8a9aaabacadaeafb0b1b2b3b4b5b6b7b8b9babbbcbdbebf"

/-- Environment for the C10 scenario (KDF injective on the two passwords
used). -/
def c10Env : Env :=
  { derive := fun p _ => if p = strLit "pw" then c10RealKey else c10OtherKey
    bcryptCheck := fun p h => h == strLit "hash-" ++ p
    ethChecksum := fun s => s
    solValid := fun _ => true }

/-- Stored user of the C10 scenario (real password "pw"). -/
def c10User : UserDoc :=
  { username := strLit "bob", password := strLit "hash-pw", salt := strLit "s0",
    recoveryPhrase := [], wallets := [], addressBook := [] }

/-- Adversarial iv of the C10 counterexample: the ciphertext produced under
the wrong password's key also passes the padding check under the real
password's key. -/
def c10BadIv : List Nat := [174, 2] ++ List.replicate 14 0

/-- Scenario for the address-book claims: a user owning one lower-case
Ethereum address-book entry.  The checksum and Solana-validity primitives
are immaterial stand-ins (the counterexample never reaches them). -/
def c9Env : Env :=
  { derive := fun _ _ => [], bcryptCheck := fun _ _ => true,
    ethChecksum := fun s => s, solValid := fun _ => false }

def c9AddrLower : List Nat := strLit "0xabcdefabcdefabcdefabcdefabcdefabcdefabcd"

def c9AddrUpper : List Nat := strLit "0xABCDEFABCDEFABCDEFABCDEFABCDEFABCDEFABCD"

def c9User : UserDoc :=
  { username := strLit "carol", password := strLit "h", salt := strLit "s",
    recoveryPhrase := [], wallets := [],
    addressBook := [ABEntry.mk (strLit "a") c9AddrLower (strLit "ethereum") []] }

/-- A batch entry whose `blockchain` field carries a capital letter. -/
def c9BatchEntry : ABEntry :=
  ABEntry.mk (strLit "x") (strLit "0x1234512345123451234512345123451234512345")
    (strLit "Ethereum") []

/-- The strengthened reachable-state invariant: a registered user always
owns at least one Ethereum and one Solana wallet, and satisfies the
per-chain default invariant. -/
def GoodDoc (u : UserDoc) : Prop :=
  1 ≤ chainCount u (strLit "ethereum") ∧ 1 ≤ chainCount u (strLit "solana") ∧
    defaultInvariant u

/-- Environment for the C2 witness scenario (never consulted by
`setDefaultWallet`). -/
def c2Env : Env :=
  { derive := fun _ _ => [], bcryptCheck := fun _ _ => true,
    ethChecksum := fun s => s, solValid := fun _ => false }

/-- A user owning a single default Ethereum wallet. -/
def c2User : UserDoc :=
  { username := strLit "dave", password := strLit "h", salt := strLit "s",
    recoveryPhrase := [],
    wallets := [Wallet.mk (strLit "ethereum") (strLit "0xE") [] true (strLit "w")],
    addressBook := [] }

/-! ## DEFS-END (further model definitions are inserted above this line) -/

/-! ## Byte-level lemmas for the AES primitives -/

set_option maxRecDepth 100000

theorem xor_lt_128 {a b : Nat} (ha : a < 128) (hb : b < 128) : a ^^^ b < 128 := by
  have h : a ^^^ b < 2 ^ 7 :=
    Nat.xor_lt_two_pow (lt_of_lt_of_le ha (by norm_num)) (lt_of_lt_of_le hb (by norm_num))
  exact lt_of_lt_of_le h (by norm_num)

theorem xor_lt_256 {a b : Nat} (ha : a < 256) (hb : b < 256) : a ^^^ b < 256 := by
  have h : a ^^^ b < 2 ^ 8 :=
    Nat.xor_lt_two_pow (lt_of_lt_of_le ha (by norm_num)) (lt_of_lt_of_le hb (by norm_num))
  exact lt_of_lt_of_le h (by norm_num)

theorem shiftLeft_one_xor (x y : Nat) : (x ^^^ y) <<< 1 = x <<< 1 ^^^ y <<< 1 := by
  apply Nat.eq_of_testBit_eq
  intro i
  simp only [Nat.testBit_shiftLeft, Nat.testBit_xor]
  cases h : decide (1 ≤ i) <;> simp

theorem two_mul_xor (x y : Nat) : 2 * (x ^^^ y) = 2 * x ^^^ 2 * y := by
  have h : ∀ a : Nat, 2 * a = a <<< 1 := by
    intro a
    rw [Nat.shiftLeft_eq]
    ring
  rw [h, h, h, shiftLeft_one_xor]

theorem d128 : ∀ a < 128, 128 ^^^ a = 128 + a := by decide

theorem xor_interchange (a b c d : Nat) : (a ^^^ b) ^^^ (c ^^^ d) = (a ^^^ c) ^^^ (b ^^^ d) := by
  rw [Nat.xor_assoc, ← Nat.xor_assoc b c d, Nat.xor_comm b c, Nat.xor_assoc c b d,
    ← Nat.xor_assoc]

instance : Std.Associative (fun a b : Nat => a ^^^ b) := ⟨Nat.xor_assoc⟩

instance : Std.Commutative (fun a b : Nat => a ^^^ b) := ⟨Nat.xor_comm⟩

theorem invSubB_subB : ∀ x < 256, invSubB (subB x) = x := by decide

theorem subB_lt : ∀ x < 256, subB x < 256 := by decide

theorem xtime_lt : ∀ x < 256, xtime x < 256 := by decide

theorem xtime_ge_branch {x y : Nat} (hx : 128 ≤ x) (hx2 : x < 256) (hy : y < 128) :
    128 ≤ x ^^^ y := by
  have hx' : x - 128 < 128 := by omega
  have hxe : x = 128 ^^^ (x - 128) := by
    rw [d128 _ hx']
    omega
  have h1 : x ^^^ y = 128 ^^^ ((x - 128) ^^^ y) := by
    conv_lhs => rw [hxe]
    rw [Nat.xor_assoc]
  rw [h1, d128 _ (xor_lt_128 hx' hy)]
  omega

theorem xor_lt_128_of_both_ge {x y : Nat} (hx : 128 ≤ x) (hx2 : x < 256) (hy : 128 ≤ y)
    (hy2 : y < 256) : x ^^^ y < 128 := by
  have hx' : x - 128 < 128 := by omega
  have hy' : y - 128 < 128 := by omega
  have hxe : x = 128 ^^^ (x - 128) := by
    rw [d128 _ hx']
    omega
  have hye : y = 128 ^^^ (y - 128) := by
    rw [d128 _ hy']
    omega
  have h1 : x ^^^ y = (x - 128) ^^^ (y - 128) := by
    conv_lhs => rw [hxe, hye]
    rw [xor_interchange, Nat.xor_self, Nat.zero_xor]
  rw [h1]
  exact xor_lt_128 hx' hy'

theorem xtime_xor {x y : Nat} (hx : x < 256) (hy : y < 256) :
    xtime (x ^^^ y) = xtime x ^^^ xtime y := by
  rcases Nat.lt_or_ge x 128 with hx1 | hx1 <;> rcases Nat.lt_or_ge y 128 with hy1 | hy1
  · have hxy : x ^^^ y < 128 := xor_lt_128 hx1 hy1
    simp only [xtime, if_pos hx1, if_pos hy1, if_pos hxy]
    exact two_mul_xor x y
  · have hxy : ¬ x ^^^ y < 128 := by
      have := xtime_ge_branch hy1 hy hx1
      rw [Nat.xor_comm] at this
      omega
    simp only [xtime, if_pos hx1, if_neg (by omega : ¬ y < 128), if_neg hxy, two_mul_xor]
    ac_rfl
  · have hxy : ¬ x ^^^ y < 128 := by
      have := xtime_ge_branch hx1 hx hy1
      omega
    simp only [xtime, if_neg (by omega : ¬ x < 128), if_pos hy1, if_neg hxy, two_mul_xor]
    ac_rfl
  · have hxy : x ^^^ y < 128 := xor_lt_128_of_both_ge hx1 hx hy1 hy
    simp only [xtime, if_neg (by omega : ¬ x < 128), if_neg (by omega : ¬ y < 128),
      if_pos hxy, two_mul_xor]
    rw [xor_interchange, Nat.xor_self, Nat.xor_zero]

theorem g2_lt {x : Nat} (h : x < 256) : g2 x < 256 := xtime_lt x h

theorem g3_lt {x : Nat} (h : x < 256) : g3 x < 256 := xor_lt_256 (xtime_lt x h) h

theorem g9_lt {x : Nat} (h : x < 256) : g9 x < 256 :=
  xor_lt_256 (xtime_lt _ (xtime_lt _ (xtime_lt _ h))) h

theorem g11_lt {x : Nat} (h : x < 256) : g11 x < 256 :=
  xor_lt_256 (xor_lt_256 (xtime_lt _ (xtime_lt _ (xtime_lt _ h))) (xtime_lt _ h)) h

theorem g13_lt {x : Nat} (h : x < 256) : g13 x < 256 :=
  xor_lt_256 (xor_lt_256 (xtime_lt _ (xtime_lt _ (xtime_lt _ h))) (xtime_lt _ (xtime_lt _ h))) h

theorem g14_lt {x : Nat} (h : x < 256) : g14 x < 256 :=
  xor_lt_256 (xor_lt_256 (xtime_lt _ (xtime_lt _ (xtime_lt _ h))) (xtime_lt _ (xtime_lt _ h)))
    (xtime_lt _ h)

theorem g2_xor {x y : Nat} (hx : x < 256) (hy : y < 256) :
    g2 (x ^^^ y) = g2 x ^^^ g2 y := xtime_xor hx hy

theorem g3_xor {x y : Nat} (hx : x < 256) (hy : y < 256) :
    g3 (x ^^^ y) = g3 x ^^^ g3 y := by
  unfold g3
  rw [xtime_xor hx hy]
  ac_rfl

theorem g9_xor {x y : Nat} (hx : x < 256) (hy : y < 256) :
    g9 (x ^^^ y) = g9 x ^^^ g9 y := by
  unfold g9
  rw [xtime_xor hx hy, xtime_xor (xtime_lt x hx) (xtime_lt y hy),
    xtime_xor (xtime_lt _ (xtime_lt x hx)) (xtime_lt _ (xtime_lt y hy))]
  ac_rfl

theorem g11_xor {x y : Nat} (hx : x < 256) (hy : y < 256) :
    g11 (x ^^^ y) = g11 x ^^^ g11 y := by
  unfold g11
  rw [xtime_xor hx hy, xtime_xor (xtime_lt x hx) (xtime_lt y hy),
    xtime_xor (xtime_lt _ (xtime_lt x hx)) (xtime_lt _ (xtime_lt y hy))]
  ac_rfl

theorem g13_xor {x y : Nat} (hx : x < 256) (hy : y < 256) :
    g13 (x ^^^ y) = g13 x ^^^ g13 y := by
  unfold g13
  rw [xtime_xor hx hy, xtime_xor (xtime_lt x hx) (xtime_lt y hy),
    xtime_xor (xtime_lt _ (xtime_lt x hx)) (xtime_lt _ (xtime_lt y hy))]
  ac_rfl

theorem g14_xor {x y : Nat} (hx : x < 256) (hy : y < 256) :
    g14 (x ^^^ y) = g14 x ^^^ g14 y := by
  unfold g14
  rw [xtime_xor hx hy, xtime_xor (xtime_lt x hx) (xtime_lt y hy),
    xtime_xor (xtime_lt _ (xtime_lt x hx)) (xtime_lt _ (xtime_lt y hy))]
  ac_rfl

theorem mixCol4_xor {a b c d a1 b1 c1 d1 : Nat} (ha : a < 256) (hb : b < 256) (hc : c < 256)
    (hd : d < 256) (ha1 : a1 < 256) (hb1 : b1 < 256) (hc1 : c1 < 256) (hd1 : d1 < 256) :
    mixCol4 (a ^^^ a1) (b ^^^ b1) (c ^^^ c1) (d ^^^ d1) =
      xorBytes (mixCol4 a b c d) (mixCol4 a1 b1 c1 d1) := by
  simp only [mixCol4, xorBytes, List.zipWith, List.cons.injEq, and_true]
  refine ⟨?_, ?_, ?_, ?_⟩
  · rw [g2_xor ha ha1, g3_xor hb hb1]
    ac_rfl
  · rw [g2_xor hb hb1, g3_xor hc hc1]
    ac_rfl
  · rw [g2_xor hc hc1, g3_xor hd hd1]
    ac_rfl
  · rw [g3_xor ha ha1, g2_xor hd hd1]
    ac_rfl

theorem invMixCol4_xor {a b c d a1 b1 c1 d1 : Nat} (ha : a < 256) (hb : b < 256) (hc : c < 256)
    (hd : d < 256) (ha1 : a1 < 256) (hb1 : b1 < 256) (hc1 : c1 < 256) (hd1 : d1 < 256) :
    invMixCol4 (a ^^^ a1) (b ^^^ b1) (c ^^^ c1) (d ^^^ d1) =
      xorBytes (invMixCol4 a b c d) (invMixCol4 a1 b1 c1 d1) := by
  simp only [invMixCol4, xorBytes, List.zipWith, List.cons.injEq, and_true]
  refine ⟨?_, ?_, ?_, ?_⟩
  · rw [g14_xor ha ha1, g11_xor hb hb1, g13_xor hc hc1, g9_xor hd hd1]
    ac_rfl
  · rw [g9_xor ha ha1, g14_xor hb hb1, g11_xor hc hc1, g13_xor hd hd1]
    ac_rfl
  · rw [g13_xor ha ha1, g9_xor hb hb1, g14_xor hc hc1, g11_xor hd hd1]
    ac_rfl
  · rw [g11_xor ha ha1, g13_xor hb hb1, g9_xor hc hc1, g14_xor hd hd1]
    ac_rfl

theorem invMix_basis0 : ∀ a < 256, app4 invMixCol4 (mixCol4 a 0 0 0) = [a, 0, 0, 0] := by decide

theorem invMix_basis1 : ∀ b < 256, app4 invMixCol4 (mixCol4 0 b 0 0) = [0, b, 0, 0] := by decide

theorem invMix_basis2 : ∀ c < 256, app4 invMixCol4 (mixCol4 0 0 c 0) = [0, 0, c, 0] := by decide

theorem invMix_basis3 : ∀ d < 256, app4 invMixCol4 (mixCol4 0 0 0 d) = [0, 0, 0, d] := by decide

theorem exists_four {l : List Nat} (h : l.length = 4) : ∃ a b c d, l = [a, b, c, d] := by
  rcases l with _ | ⟨a, l⟩
  · simp at h
  rcases l with _ | ⟨b, l⟩
  · simp at h
  rcases l with _ | ⟨c, l⟩
  · simp at h
  rcases l with _ | ⟨d, l⟩
  · simp at h
  rcases l with _ | ⟨e, l⟩
  · exact ⟨a, b, c, d, rfl⟩
  · simp at h

theorem xorBytes_length (a b : List Nat) : (xorBytes a b).length = min a.length b.length :=
  List.length_zipWith ..

theorem xorBytes_lt {a b : List Nat} (ha : ∀ z ∈ a, z < 256) (hb : ∀ z ∈ b, z < 256) :
    ∀ z ∈ xorBytes a b, z < 256 := by
  induction a generalizing b with
  | nil => simp [xorBytes]
  | cons x xs ih =>
    cases b with
    | nil => simp [xorBytes]
    | cons y ys =>
      intro z hz
      simp only [xorBytes, List.zipWith_cons_cons, List.mem_cons] at hz
      rcases hz with hz | hz
      · subst hz
        exact xor_lt_256 (ha x (by simp)) (hb y (by simp))
      · exact ih (fun u hu => ha u (by simp [hu])) (fun u hu => hb u (by simp [hu])) z hz

theorem xorBytes_cancel {k t : List Nat} (h : k.length = t.length) :
    xorBytes k (xorBytes k t) = t := by
  induction k generalizing t with
  | nil =>
    cases t with
    | nil => rfl
    | cons y ys => simp at h
  | cons x xs ih =>
    cases t with
    | nil => simp at h
    | cons y ys =>
      simp only [xorBytes, List.zipWith_cons_cons, List.cons.injEq]
      refine ⟨Nat.xor_cancel_left x y, ?_⟩
      have := @ih ys (by simpa using h)
      simpa [xorBytes] using this

theorem mixCol4_all_lt {a b c d : Nat} (ha : a < 256) (hb : b < 256) (hc : c < 256)
    (hd : d < 256) : ∀ z ∈ mixCol4 a b c d, z < 256 := by
  intro z hz
  simp only [mixCol4, List.mem_cons, List.not_mem_nil, or_false] at hz
  rcases hz with h | h | h | h <;> subst h
  · exact xor_lt_256 (xor_lt_256 (xor_lt_256 (g2_lt ha) (g3_lt hb)) hc) hd
  · exact xor_lt_256 (xor_lt_256 (xor_lt_256 ha (g2_lt hb)) (g3_lt hc)) hd
  · exact xor_lt_256 (xor_lt_256 (xor_lt_256 ha hb) (g2_lt hc)) (g3_lt hd)
  · exact xor_lt_256 (xor_lt_256 (xor_lt_256 (g3_lt ha) hb) hc) (g2_lt hd)

theorem app4_invMix_xor {u v : List Nat} (hu : u.length = 4) (hv : v.length = 4)
    (hu2 : ∀ z ∈ u, z < 256) (hv2 : ∀ z ∈ v, z < 256) :
    app4 invMixCol4 (xorBytes u v) = xorBytes (app4 invMixCol4 u) (app4 invMixCol4 v) := by
  obtain ⟨u0, u1, u2, u3, rfl⟩ := exists_four hu
  obtain ⟨v0, v1, v2, v3, rfl⟩ := exists_four hv
  have h := invMixCol4_xor (hu2 u0 (by simp)) (hu2 u1 (by simp)) (hu2 u2 (by simp))
    (hu2 u3 (by simp)) (hv2 v0 (by simp)) (hv2 v1 (by simp)) (hv2 v2 (by simp))
    (hv2 v3 (by simp))
  simpa [app4, xorBytes] using h

theorem invMix_mixCol4 {a b c d : Nat} (ha : a < 256) (hb : b < 256) (hc : c < 256)
    (hd : d < 256) : app4 invMixCol4 (mixCol4 a b c d) = [a, b, c, d] := by
  have h0 : (0 : Nat) < 256 := by norm_num
  have e1 : mixCol4 a b c d = xorBytes (mixCol4 a 0 0 0) (mixCol4 0 b c d) := by
    simpa using mixCol4_xor ha h0 h0 h0 h0 hb hc hd
  have e2 : mixCol4 0 b c d = xorBytes (mixCol4 0 b 0 0) (mixCol4 0 0 c d) := by
    simpa using mixCol4_xor h0 hb h0 h0 h0 h0 hc hd
  have e3 : mixCol4 0 0 c d = xorBytes (mixCol4 0 0 c 0) (mixCol4 0 0 0 d) := by
    simpa using mixCol4_xor h0 h0 hc h0 h0 h0 h0 hd
  have l1 : (mixCol4 a 0 0 0).length = 4 := rfl
  have l2 : (mixCol4 0 b 0 0).length = 4 := rfl
  have l3 : (mixCol4 0 0 c 0).length = 4 := rfl
  have l4 : (mixCol4 0 0 0 d).length = 4 := rfl
  have v1 := mixCol4_all_lt ha h0 h0 h0
  have v2 := mixCol4_all_lt h0 hb h0 h0
  have v3 := mixCol4_all_lt h0 h0 hc h0
  have v4 := mixCol4_all_lt h0 h0 h0 hd
  have l34 : (xorBytes (mixCol4 0 0 c 0) (mixCol4 0 0 0 d)).length = 4 := by
    rw [xorBytes_length, l3, l4]
    simp
  have v34 := xorBytes_lt v3 v4
  have l234 : (xorBytes (mixCol4 0 b 0 0) (xorBytes (mixCol4 0 0 c 0) (mixCol4 0 0 0 d))).length
      = 4 := by
    rw [xorBytes_length, l2, l34]
    simp
  have v234 := xorBytes_lt v2 v34
  rw [e1, e2, e3]
  rw [app4_invMix_xor l1 l234 v1 v234, app4_invMix_xor l2 l34 v2 v34,
    app4_invMix_xor l3 l4 v3 v4]
  rw [invMix_basis0 a ha, invMix_basis1 b hb, invMix_basis2 c hc, invMix_basis3 d hd]
  simp [xorBytes]

theorem exists_sixteen {l : List Nat} (h : l.length = 16) :
    ∃ a0 a1 a2 a3 a4 a5 a6 a7 a8 a9 a10 a11 a12 a13 a14 a15,
      l = [a0, a1, a2, a3, a4, a5, a6, a7, a8, a9, a10, a11, a12, a13, a14, a15] := by
  rcases l with _ | ⟨a0, l⟩
  · simp at h
  rcases l with _ | ⟨a1, l⟩
  · simp at h
  rcases l with _ | ⟨a2, l⟩
  · simp at h
  rcases l with _ | ⟨a3, l⟩
  · simp at h
  rcases l with _ | ⟨a4, l⟩
  · simp at h
  rcases l with _ | ⟨a5, l⟩
  · simp at h
  rcases l with _ | ⟨a6, l⟩
  · simp at h
  rcases l with _ | ⟨a7, l⟩
  · simp at h
  rcases l with _ | ⟨a8, l⟩
  · simp at h
  rcases l with _ | ⟨a9, l⟩
  · simp at h
  rcases l with _ | ⟨a10, l⟩
  · simp at h
  rcases l with _ | ⟨a11, l⟩
  · simp at h
  rcases l with _ | ⟨a12, l⟩
  · simp at h
  rcases l with _ | ⟨a13, l⟩
  · simp at h
  rcases l with _ | ⟨a14, l⟩
  · simp at h
  rcases l with _ | ⟨a15, l⟩
  · simp at h
  rcases l with _ | ⟨a16, l⟩
  · exact ⟨a0, a1, a2, a3, a4, a5, a6, a7, a8, a9, a10, a11, a12, a13, a14, a15, rfl⟩
  · simp at h

theorem invShiftRows_shiftRows {s : List Nat} (h : s.length = 16) :
    invShiftRows (shiftRows s) = s := by
  obtain ⟨a0, a1, a2, a3, a4, a5, a6, a7, a8, a9, a10, a11, a12, a13, a14, a15, rfl⟩ :=
    exists_sixteen h
  rfl

theorem shiftRows_length {s : List Nat} (h : s.length = 16) : (shiftRows s).length = 16 := by
  obtain ⟨a0, a1, a2, a3, a4, a5, a6, a7, a8, a9, a10, a11, a12, a13, a14, a15, rfl⟩ :=
    exists_sixteen h
  rfl

theorem shiftRows_lt {s : List Nat} (h : s.length = 16) (hv : ∀ z ∈ s, z < 256) :
    ∀ z ∈ shiftRows s, z < 256 := by
  obtain ⟨a0, a1, a2, a3, a4, a5, a6, a7, a8, a9, a10, a11, a12, a13, a14, a15, rfl⟩ :=
    exists_sixteen h
  intro z hz
  simp only [shiftRows, List.mem_cons, List.not_mem_nil, or_false] at hz
  rcases hz with h | h | h | h | h | h | h | h | h | h | h | h | h | h | h | h <;> subst h <;>
    exact hv _ (by simp)

theorem subBytes_length (s : List Nat) : (subBytes s).length = s.length := List.length_map ..

theorem subBytes_lt {s : List Nat} (hv : ∀ z ∈ s, z < 256) : ∀ z ∈ subBytes s, z < 256 := by
  intro z hz
  simp only [subBytes, List.mem_map] at hz
  obtain ⟨x, hx, rfl⟩ := hz
  exact subB_lt x (hv x hx)

theorem invSubBytes_subBytes {s : List Nat} (hv : ∀ z ∈ s, z < 256) :
    invSubBytes (subBytes s) = s := by
  induction s with
  | nil => rfl
  | cons x xs ih =>
    simp only [subBytes, invSubBytes, List.map_cons, List.cons.injEq] at *
    exact ⟨invSubB_subB x (hv x (by simp)), ih (fun z hz => hv z (by simp [hz]))⟩

theorem mixColumns_expand (a0 a1 a2 a3 a4 a5 a6 a7 a8 a9 a10 a11 a12 a13 a14 a15 : Nat) :
    mixColumns [a0, a1, a2, a3, a4, a5, a6, a7, a8, a9, a10, a11, a12, a13, a14, a15] =
      mixCol4 a0 a1 a2 a3 ++ mixCol4 a4 a5 a6 a7 ++ mixCol4 a8 a9 a10 a11 ++
        mixCol4 a12 a13 a14 a15 := rfl

theorem mixColumns_length {s : List Nat} (h : s.length = 16) : (mixColumns s).length = 16 := by
  obtain ⟨a0, a1, a2, a3, a4, a5, a6, a7, a8, a9, a10, a11, a12, a13, a14, a15, rfl⟩ :=
    exists_sixteen h
  rfl

theorem mixColumns_lt {s : List Nat} (h : s.length = 16) (hv : ∀ z ∈ s, z < 256) :
    ∀ z ∈ mixColumns s, z < 256 := by
  obtain ⟨a0, a1, a2, a3, a4, a5, a6, a7, a8, a9, a10, a11, a12, a13, a14, a15, rfl⟩ :=
    exists_sixteen h
  intro z hz
  rw [mixColumns_expand] at hz
  simp only [List.mem_append] at hz
  rcases hz with ((hz | hz) | hz) | hz
  · exact mixCol4_all_lt (hv _ (by simp)) (hv _ (by simp)) (hv _ (by simp)) (hv _ (by simp)) z hz
  · exact mixCol4_all_lt (hv _ (by simp)) (hv _ (by simp)) (hv _ (by simp)) (hv _ (by simp)) z hz
  · exact mixCol4_all_lt (hv _ (by simp)) (hv _ (by simp)) (hv _ (by simp)) (hv _ (by simp)) z hz
  · exact mixCol4_all_lt (hv _ (by simp)) (hv _ (by simp)) (hv _ (by simp)) (hv _ (by simp)) z hz

theorem invMixColumns_mixColumns {s : List Nat} (h : s.length = 16) (hv : ∀ z ∈ s, z < 256) :
    invMixColumns (mixColumns s) = s := by
  obtain ⟨a0, a1, a2, a3, a4, a5, a6, a7, a8, a9, a10, a11, a12, a13, a14, a15, rfl⟩ :=
    exists_sixteen h
  have key : invMixColumns (mixColumns
      [a0, a1, a2, a3, a4, a5, a6, a7, a8, a9, a10, a11, a12, a13, a14, a15]) =
      app4 invMixCol4 (mixCol4 a0 a1 a2 a3) ++ app4 invMixCol4 (mixCol4 a4 a5 a6 a7) ++
        app4 invMixCol4 (mixCol4 a8 a9 a10 a11) ++ app4 invMixCol4 (mixCol4 a12 a13 a14 a15) :=
    rfl
  rw [key, invMix_mixCol4 (hv _ (by simp)) (hv _ (by simp)) (hv _ (by simp)) (hv _ (by simp)),
    invMix_mixCol4 (hv _ (by simp)) (hv _ (by simp)) (hv _ (by simp)) (hv _ (by simp)),
    invMix_mixCol4 (hv _ (by simp)) (hv _ (by simp)) (hv _ (by simp)) (hv _ (by simp)),
    invMix_mixCol4 (hv _ (by simp)) (hv _ (by simp)) (hv _ (by simp)) (hv _ (by simp))]
  rfl

theorem addRoundKey_cancel {k t : List Nat} (h : k.length = t.length) :
    addRoundKey k (addRoundKey k t) = t := xorBytes_cancel h

theorem addRoundKey_length {k t : List Nat} (hk : k.length = 16) (ht : t.length = 16) :
    (addRoundKey k t).length = 16 := by
  simp [addRoundKey, xorBytes_length, hk, ht]

theorem addRoundKey_lt {k t : List Nat} (hk : ∀ z ∈ k, z < 256) (ht : ∀ z ∈ t, z < 256) :
    ∀ z ∈ addRoundKey k t, z < 256 := xorBytes_lt hk ht

/-- Shape invariant for a state or round key: 16 bytes, all in range. -/
def goodBlock (s : List Nat) : Prop := s.length = 16 ∧ ∀ z ∈ s, z < 256

theorem goodBlock_addRoundKey {k t : List Nat} (hk : goodBlock k) (ht : goodBlock t) :
    goodBlock (addRoundKey k t) :=
  ⟨addRoundKey_length hk.1 ht.1, addRoundKey_lt hk.2 ht.2⟩

theorem goodBlock_subBytes {s : List Nat} (hs : goodBlock s) : goodBlock (subBytes s) :=
  ⟨by rw [subBytes_length, hs.1], subBytes_lt hs.2⟩

theorem goodBlock_shiftRows {s : List Nat} (hs : goodBlock s) : goodBlock (shiftRows s) :=
  ⟨shiftRows_length hs.1, shiftRows_lt hs.1 hs.2⟩

theorem goodBlock_mixColumns {s : List Nat} (hs : goodBlock s) : goodBlock (mixColumns s) :=
  ⟨mixColumns_length hs.1, mixColumns_lt hs.1 hs.2⟩

theorem encRounds_good {ks : List (List Nat)} (hk : ∀ k ∈ ks, goodBlock k) :
    ∀ {s : List Nat}, goodBlock s → goodBlock (encRounds ks s) := by
  induction ks with
  | nil => intro s hs; exact hs
  | cons k ks ih =>
    intro s hs
    have hkk : goodBlock k := hk k (by simp)
    have hks : ∀ j ∈ ks, goodBlock j := fun j hj => hk j (by simp [hj])
    cases ks with
    | nil =>
      exact goodBlock_addRoundKey hkk (goodBlock_shiftRows (goodBlock_subBytes hs))
    | cons k2 ks2 =>
      exact ih hks
        (goodBlock_addRoundKey hkk (goodBlock_mixColumns (goodBlock_shiftRows
          (goodBlock_subBytes hs))))

theorem decRounds_encRounds {ks : List (List Nat)} (hk : ∀ k ∈ ks, goodBlock k) :
    ∀ {s : List Nat}, goodBlock s → decRounds ks (encRounds ks s) = s := by
  induction ks with
  | nil => intro s _; rfl
  | cons k ks ih =>
    intro s hs
    have hkk : goodBlock k := hk k (by simp)
    have hks : ∀ j ∈ ks, goodBlock j := fun j hj => hk j (by simp [hj])
    have hsub : goodBlock (subBytes s) := goodBlock_subBytes hs
    have hshift : goodBlock (shiftRows (subBytes s)) := goodBlock_shiftRows hsub
    cases ks with
    | nil =>
      simp only [encRounds, decRounds]
      rw [addRoundKey_cancel (by rw [hkk.1, hshift.1]),
        invShiftRows_shiftRows (by rw [subBytes_length, hs.1]),
        invSubBytes_subBytes hs.2]
    | cons k2 ks2 =>
      have hmix : goodBlock (mixColumns (shiftRows (subBytes s))) := goodBlock_mixColumns hshift
      have hin : goodBlock (addRoundKey k (mixColumns (shiftRows (subBytes s)))) :=
        goodBlock_addRoundKey hkk hmix
      simp only [encRounds, decRounds]
      rw [ih hks hin,
        addRoundKey_cancel (by rw [hkk.1, hmix.1]),
        invMixColumns_mixColumns hshift.1 hshift.2,
        invShiftRows_shiftRows (by rw [subBytes_length, hs.1]),
        invSubBytes_subBytes hs.2]

theorem decryptBlock_encryptBlock {ks : List (List Nat)} (hk : ∀ k ∈ ks, goodBlock k)
    {s : List Nat} (hs : goodBlock s) : decryptBlock ks (encryptBlock ks s) = s := by
  cases ks with
  | nil => rfl
  | cons k0 rest =>
    have hk0 : goodBlock k0 := hk k0 (by simp)
    have hrest : ∀ j ∈ rest, goodBlock j := fun j hj => hk j (by simp [hj])
    have h1 : goodBlock (addRoundKey k0 s) := goodBlock_addRoundKey hk0 hs
    simp only [encryptBlock, decryptBlock]
    rw [decRounds_encRounds hrest h1, addRoundKey_cancel (by rw [hk0.1, hs.1])]

theorem encryptBlock_good {ks : List (List Nat)} (hk : ∀ k ∈ ks, goodBlock k) {s : List Nat}
    (hs : goodBlock s) : goodBlock (encryptBlock ks s) := by
  cases ks with
  | nil => exact hs
  | cons k0 rest =>
    have hk0 : goodBlock k0 := hk k0 (by simp)
    have hrest : ∀ j ∈ rest, goodBlock j := fun j hj => hk j (by simp [hj])
    exact encRounds_good hrest (goodBlock_addRoundKey hk0 hs)

/-- Shape invariant for a key-schedule word: 4 bytes, all in range. -/
def goodWord (w : List Nat) : Prop := w.length = 4 ∧ ∀ z ∈ w, z < 256

theorem getD_mem_words {l : List (List Nat)} {i : Nat} (h : i < l.length) : l.getD i [] ∈ l := by
  rw [List.getD_eq_getElem l [] h]
  exact List.getElem_mem h

theorem goodWord_rotWordW {w : List Nat} (hw : goodWord w) : goodWord (rotWordW w) := by
  obtain ⟨a, b, c, d, rfl⟩ := exists_four hw.1
  refine ⟨rfl, ?_⟩
  intro z hz
  simp only [rotWordW, List.mem_cons, List.not_mem_nil, or_false] at hz
  have hv := hw.2
  rcases hz with h | h | h | h <;> subst h <;> exact hv _ (by simp)

theorem goodWord_subWordW {w : List Nat} (hw : goodWord w) : goodWord (subWordW w) := by
  refine ⟨by simp [subWordW, hw.1], ?_⟩
  intro z hz
  simp only [subWordW, List.mem_map] at hz
  obtain ⟨x, hx, rfl⟩ := hz
  exact subB_lt x (hw.2 x hx)

theorem goodWord_xorW {a b : List Nat} (ha : goodWord a) (hb : goodWord b) :
    goodWord (xorW a b) := by
  refine ⟨?_, xorBytes_lt ha.2 hb.2⟩
  simp [xorW, xorBytes_length, ha.1, hb.1]

theorem rconB_lt (j : Nat) : rconB j < 256 := Nat.mod_lt _ (by norm_num)

theorem goodWord_rcon (j : Nat) : goodWord [rconB j, 0, 0, 0] := by
  refine ⟨rfl, ?_⟩
  intro z hz
  simp only [List.mem_cons, List.not_mem_nil, or_false] at hz
  rcases hz with h | h | h | h <;> subst h
  · exact rconB_lt j
  all_goals norm_num

theorem keyWords_good {key : List Nat} (hk32 : key.length = 32) (hkv : ∀ z ∈ key, z < 256) :
    ∀ n, (keyWords key n).length = 8 + n ∧ ∀ w ∈ keyWords key n, goodWord w := by
  intro n
  induction n with
  | zero =>
    constructor
    · simp [keyWords]
    · intro w hw
      simp only [keyWords, List.mem_map, List.mem_range] at hw
      obtain ⟨i, hi, rfl⟩ := hw
      constructor
      · simp only [List.length_take, List.length_drop, hk32]
        omega
      · intro z hz
        exact hkv z (List.mem_of_mem_drop (List.mem_of_mem_take hz))
  | succ n ih =>
    obtain ⟨ihlen, ihgood⟩ := ih
    have hprev : ((keyWords key n).getD (8 + n - 1) []) ∈ keyWords key n :=
      getD_mem_words (by omega)
    have hold : ((keyWords key n).getD (8 + n - 8) []) ∈ keyWords key n :=
      getD_mem_words (by omega)
    have hprevg : goodWord ((keyWords key n).getD (8 + n - 1) []) := ihgood _ hprev
    have holdg : goodWord ((keyWords key n).getD (8 + n - 8) []) := ihgood _ hold
    have htemp : goodWord (if (8 + n) % 8 = 0 then
        xorW (subWordW (rotWordW ((keyWords key n).getD (8 + n - 1) [])))
          [rconB ((8 + n) / 8), 0, 0, 0]
        else if (8 + n) % 8 = 4 then subWordW ((keyWords key n).getD (8 + n - 1) [])
        else (keyWords key n).getD (8 + n - 1) []) := by
      split
      · exact goodWord_xorW (goodWord_subWordW (goodWord_rotWordW hprevg)) (goodWord_rcon _)
      · split
        · exact goodWord_subWordW hprevg
        · exact hprevg
    constructor
    · simp only [keyWords, List.length_append, List.length_cons, List.length_nil, ihlen]
      omega
    · intro w hw
      simp only [keyWords, List.mem_append, List.mem_cons, List.not_mem_nil, or_false] at hw
      rcases hw with hw | hw
      · exact ihgood w hw
      · subst hw
        exact goodWord_xorW holdg htemp

theorem roundKeys_good {key : List Nat} (hk32 : key.length = 32) (hkv : ∀ z ∈ key, z < 256) :
    ∀ k ∈ roundKeys key, goodBlock k := by
  intro k hk
  simp only [roundKeys, List.mem_map, List.mem_range] at hk
  obtain ⟨r, hr, rfl⟩ := hk
  obtain ⟨hlen, hgood⟩ := keyWords_good hk32 hkv 52
  have h0 : goodWord ((keyWords key 52).getD (4 * r) []) :=
    hgood _ (getD_mem_words (by omega))
  have h1 : goodWord ((keyWords key 52).getD (4 * r + 1) []) :=
    hgood _ (getD_mem_words (by omega))
  have h2 : goodWord ((keyWords key 52).getD (4 * r + 2) []) :=
    hgood _ (getD_mem_words (by omega))
  have h3 : goodWord ((keyWords key 52).getD (4 * r + 3) []) :=
    hgood _ (getD_mem_words (by omega))
  constructor
  · simp only [List.length_append, h0.1, h1.1, h2.1, h3.1]
  · intro z hz
    simp only [List.mem_append] at hz
    rcases hz with ((hz | hz) | hz) | hz
    · exact h0.2 z hz
    · exact h1.2 z hz
    · exact h2.2 z hz
    · exact h3.2 z hz

theorem cbcEncBlocks_good {ks : List (List Nat)} (hk : ∀ k ∈ ks, goodBlock k) :
    ∀ {bs : List (List Nat)} {prev : List Nat}, goodBlock prev → (∀ b ∈ bs, goodBlock b) →
      ∀ c ∈ cbcEncBlocks ks prev bs, goodBlock c := by
  intro bs
  induction bs with
  | nil => intro prev _ _ c hc; simp [cbcEncBlocks] at hc
  | cons b bs ih =>
    intro prev hprev hbs c hc
    have hb : goodBlock b := hbs b (by simp)
    have hcb : goodBlock (encryptBlock ks (xorBytes prev b)) :=
      encryptBlock_good hk ⟨by rw [xorBytes_length, hprev.1, hb.1]; simp, xorBytes_lt hprev.2 hb.2⟩
    simp only [cbcEncBlocks, List.mem_cons] at hc
    rcases hc with hc | hc
    · subst hc; exact hcb
    · exact ih hcb (fun u hu => hbs u (by simp [hu])) c hc

theorem cbcDecBlocks_cbcEncBlocks {ks : List (List Nat)} (hk : ∀ k ∈ ks, goodBlock k) :
    ∀ {bs : List (List Nat)} {prev : List Nat}, goodBlock prev → (∀ b ∈ bs, goodBlock b) →
      cbcDecBlocks ks prev (cbcEncBlocks ks prev bs) = bs := by
  intro bs
  induction bs with
  | nil => intro prev _ _; rfl
  | cons b bs ih =>
    intro prev hprev hbs
    have hb : goodBlock b := hbs b (by simp)
    have hxb : goodBlock (xorBytes prev b) :=
      ⟨by rw [xorBytes_length, hprev.1, hb.1]; simp, xorBytes_lt hprev.2 hb.2⟩
    have hcb : goodBlock (encryptBlock ks (xorBytes prev b)) := encryptBlock_good hk hxb
    simp only [cbcEncBlocks, cbcDecBlocks, List.cons.injEq]
    constructor
    · rw [decryptBlock_encryptBlock hk hxb, xorBytes_cancel (by rw [hprev.1, hb.1])]
    · exact ih hcb (fun u hu => hbs u (by simp [hu]))

theorem toBlocksF_nil (f : Nat) : toBlocksF f [] = [] := by cases f <;> rfl

theorem toBlocksF_congr :
    ∀ f1 f2 (l : List Nat), l.length ≤ f1 → l.length ≤ f2 → toBlocksF f1 l = toBlocksF f2 l := by
  intro f1
  induction f1 with
  | zero =>
    intro f2 l h1 h2
    have : l = [] := List.length_eq_zero.mp (by omega)
    subst this
    rw [toBlocksF_nil, toBlocksF_nil]
  | succ f1 ih =>
    intro f2 l h1 h2
    cases l with
    | nil => rw [toBlocksF_nil, toBlocksF_nil]
    | cons b rest =>
      cases f2 with
      | zero => simp at h2
      | succ f2 =>
        simp only [toBlocksF, List.cons.injEq, true_and]
        apply ih
        · simp only [List.length_drop, List.length_cons] at *
          omega
        · simp only [List.length_drop, List.length_cons] at *
          omega

theorem toBlocks_cons_eq {l : List Nat} (h : l ≠ []) :
    toBlocks l = l.take 16 :: toBlocks (l.drop 16) := by
  cases l with
  | nil => exact absurd rfl h
  | cons b rest =>
    simp only [toBlocks, List.length_cons, toBlocksF, List.cons.injEq, true_and]
    apply toBlocksF_congr
    · simp only [List.length_drop, List.length_cons]
      omega
    · simp only [List.length_drop, List.length_cons]
      omega

theorem toBlocks_append16 {a rest : List Nat} (ha : a.length = 16) :
    toBlocks (a ++ rest) = a :: toBlocks rest := by
  have hne : a ++ rest ≠ [] := by
    intro hcon
    have := congrArg List.length hcon
    simp [ha] at this
  rw [toBlocks_cons_eq hne]
  have h1 : (a ++ rest).take 16 = a := by
    conv_lhs => rw [← ha]
    exact List.take_left a rest
  have h2 : (a ++ rest).drop 16 = rest := by
    conv_lhs => rw [← ha]
    exact List.drop_left a rest
  rw [h1, h2]

theorem toBlocks_flatten {bs : List (List Nat)} (h : ∀ b ∈ bs, b.length = 16) :
    toBlocks bs.flatten = bs := by
  induction bs with
  | nil => rfl
  | cons b bs ih =>
    rw [List.flatten_cons, toBlocks_append16 (h b (by simp)), ih (fun u hu => h u (by simp [hu]))]

theorem flatten_toBlocksF :
    ∀ f (l : List Nat), l.length ≤ f → l.length % 16 = 0 → (toBlocksF f l).flatten = l := by
  intro f
  induction f with
  | zero =>
    intro l h1 h2
    have : l = [] := List.length_eq_zero.mp (by omega)
    subst this
    rfl
  | succ f ih =>
    intro l h1 h2
    cases l with
    | nil => rfl
    | cons b rest =>
      simp only [toBlocksF, List.flatten_cons]
      rw [ih]
      · exact List.take_append_drop 16 (b :: rest)
      · simp only [List.length_drop, List.length_cons] at *
        omega
      · simp only [List.length_drop, List.length_cons] at *
        omega

theorem flatten_toBlocks {l : List Nat} (h : l.length % 16 = 0) : (toBlocks l).flatten = l :=
  flatten_toBlocksF l.length l (le_refl _) h

theorem toBlocksF_good :
    ∀ f (l : List Nat), l.length ≤ f → l.length % 16 = 0 → (∀ z ∈ l, z < 256) →
      ∀ b ∈ toBlocksF f l, goodBlock b := by
  intro f
  induction f with
  | zero =>
    intro l h1 h2 h3 b hb
    have : l = [] := List.length_eq_zero.mp (by omega)
    subst this
    rw [toBlocksF_nil] at hb
    simp at hb
  | succ f ih =>
    intro l h1 h2 h3 b hb
    cases l with
    | nil =>
      rw [toBlocksF_nil] at hb
      simp at hb
    | cons x rest =>
      simp only [toBlocksF, List.mem_cons] at hb
      rcases hb with hb | hb
      · subst hb
        constructor
        · simp only [List.length_take, List.length_cons]
          simp only [List.length_cons] at h2
          omega
        · intro z hz
          exact h3 z (List.mem_of_mem_take hz)
      · apply ih _ _ _ _ b hb
        · simp only [List.length_drop, List.length_cons] at *
          omega
        · simp only [List.length_drop, List.length_cons] at *
          omega
        · intro z hz
          exact h3 z (List.mem_of_mem_drop hz)

theorem toBlocks_good {l : List Nat} (h : l.length % 16 = 0) (hv : ∀ z ∈ l, z < 256) :
    ∀ b ∈ toBlocks l, goodBlock b :=
  toBlocksF_good l.length l (le_refl _) h hv

theorem pad16_length_mod (l : List Nat) : (pad16 l).length % 16 = 0 := by
  simp only [pad16, List.length_append, List.length_replicate]
  omega

theorem pad16_ne_nil (l : List Nat) : pad16 l ≠ [] := by
  intro h
  have := congrArg List.length h
  simp only [pad16, List.length_append, List.length_replicate, List.length_nil] at this
  omega

theorem pad16_lt {l : List Nat} (hv : ∀ z ∈ l, z < 256) : ∀ z ∈ pad16 l, z < 256 := by
  intro z hz
  simp only [pad16, List.mem_append] at hz
  rcases hz with hz | hz
  · exact hv z hz
  · have := List.eq_of_mem_replicate hz
    omega

theorem getLast?_replicate_pos {p a : Nat} (h : 0 < p) :
    (List.replicate p a).getLast? = some a := by
  rw [← List.head?_reverse, List.reverse_replicate]
  cases p with
  | zero => omega
  | succ q => simp [List.replicate_succ]

theorem unpad16_pad16 (l : List Nat) : unpad16 (pad16 l) = some l := by
  have hp1 : 1 ≤ 16 - l.length % 16 := by omega
  have hp16 : 16 - l.length % 16 ≤ 16 := by omega
  have hlast : (pad16 l).getLast? = some (16 - l.length % 16) := by
    simp only [pad16]
    rw [List.getLast?_append_of_ne_nil, getLast?_replicate_pos (by omega)]
    intro hcon
    have := congrArg List.length hcon
    simp only [List.length_replicate, List.length_nil] at this
    omega
  have hlen : (pad16 l).length = l.length + (16 - l.length % 16) := by
    simp [pad16]
  rw [unpad16, hlast]
  have hdr : (pad16 l).drop ((pad16 l).length - (16 - l.length % 16)) =
      List.replicate (16 - l.length % 16) (16 - l.length % 16) := by
    rw [hlen]
    simp only [pad16]
    have : l.length + (16 - l.length % 16) - (16 - l.length % 16) = l.length := by omega
    rw [this]
    exact List.drop_left l _
  have htk : (pad16 l).take ((pad16 l).length - (16 - l.length % 16)) = l := by
    rw [hlen]
    simp only [pad16]
    have : l.length + (16 - l.length % 16) - (16 - l.length % 16) = l.length := by omega
    rw [this]
    exact List.take_left l _
  dsimp only
  rw [if_pos]
  · rw [htk]
  · refine ⟨hp1, hp16, by omega, ?_⟩
    rw [hdr]
    simp [List.all_eq_true]

theorem cbcEncBlocks_length (ks : List (List Nat)) :
    ∀ (bs : List (List Nat)) (prev : List Nat), (cbcEncBlocks ks prev bs).length = bs.length := by
  intro bs
  induction bs with
  | nil => intro prev; rfl
  | cons b bs ih =>
    intro prev
    simp only [cbcEncBlocks, List.length_cons, ih]

theorem flatten_mod16 {bs : List (List Nat)} (h : ∀ b ∈ bs, b.length = 16) :
    bs.flatten.length % 16 = 0 := by
  induction bs with
  | nil => rfl
  | cons b bs ih =>
    simp only [List.flatten_cons, List.length_append, h b (by simp)]
    have := ih (fun u hu => h u (by simp [hu]))
    omega

theorem flatten_lt {bs : List (List Nat)} (h : ∀ b ∈ bs, ∀ z ∈ b, z < 256) :
    ∀ z ∈ bs.flatten, z < 256 := by
  intro z hz
  rw [List.mem_flatten] at hz
  obtain ⟨b, hb, hzb⟩ := hz
  exact h b hb z hzb

theorem aesCbcDecrypt_aesCbcEncrypt {key iv pt : List Nat} (hkey : key.length = 32)
    (hkv : ∀ z ∈ key, z < 256) (hiv : goodBlock iv) (hpt : ∀ z ∈ pt, z < 256) :
    aesCbcDecrypt key iv (aesCbcEncrypt key iv pt) = some pt := by
  have hks := roundKeys_good hkey hkv
  have hpadmod := pad16_length_mod pt
  have hpadlt := pad16_lt hpt
  have hblocks : ∀ b ∈ toBlocks (pad16 pt), goodBlock b := toBlocks_good hpadmod hpadlt
  have hgoods : ∀ c ∈ cbcEncBlocks (roundKeys key) iv (toBlocks (pad16 pt)), goodBlock c :=
    cbcEncBlocks_good hks hiv hblocks
  have hct16 : ∀ c ∈ cbcEncBlocks (roundKeys key) iv (toBlocks (pad16 pt)), c.length = 16 :=
    fun c hc => (hgoods c hc).1
  have hctmod : (aesCbcEncrypt key iv pt).length % 16 = 0 := flatten_mod16 hct16
  have hbne : toBlocks (pad16 pt) ≠ [] := by
    intro hcon
    have := flatten_toBlocks hpadmod
    rw [hcon] at this
    exact pad16_ne_nil pt this.symm
  have hctne : aesCbcEncrypt key iv pt ≠ [] := by
    unfold aesCbcEncrypt
    cases henc : cbcEncBlocks (roundKeys key) iv (toBlocks (pad16 pt)) with
    | nil =>
      have := cbcEncBlocks_length (roundKeys key) (toBlocks (pad16 pt)) iv
      rw [henc] at this
      exact absurd (List.length_eq_zero.mp this.symm) hbne
    | cons c cs =>
      have hc16 : c.length = 16 := by
        apply hct16
        rw [henc]
        simp
      intro hcon
      have := congrArg List.length hcon
      simp only [List.flatten_cons, List.length_append, hc16, List.length_nil] at this
      omega
  unfold aesCbcDecrypt
  rw [if_pos ⟨hctmod, hctne⟩]
  unfold aesCbcEncrypt
  rw [toBlocks_flatten hct16, cbcDecBlocks_cbcEncBlocks hks hiv hblocks,
    flatten_toBlocks hpadmod, unpad16_pad16]

theorem hexDigitVal_hexDigitChar : ∀ n < 16, hexDigitVal (hexDigitChar n) = some n := by decide

theorem hexDigitChar_ne_colon : ∀ n < 16, hexDigitChar n ≠ 58 := by decide

theorem hexDigitVal_lt {c v : Nat} (h : hexDigitVal c = some v) : v < 16 := by
  unfold hexDigitVal at h
  split at h
  · simp only [Option.some.injEq] at h
    omega
  · split at h
    · simp only [Option.some.injEq] at h
      omega
    · split at h
      · simp only [Option.some.injEq] at h
        omega
      · simp at h

theorem hexDecodeLax_lt : ∀ (s : List Nat), ∀ z ∈ hexDecodeLax s, z < 256
  | [] => by simp [hexDecodeLax]
  | [c] => by simp [hexDecodeLax]
  | c1 :: c2 :: rest => by
    intro z hz
    rw [hexDecodeLax] at hz
    cases hh : hexDigitVal c1 with
    | none =>
      rw [hh] at hz
      simp at hz
    | some hv =>
      cases hlo : hexDigitVal c2 with
      | none =>
        rw [hh, hlo] at hz
        simp at hz
      | some lo =>
        rw [hh, hlo] at hz
        simp only [List.mem_cons] at hz
        rcases hz with hz | hz
        · subst hz
          have h1 := hexDigitVal_lt hh
          have h2 := hexDigitVal_lt hlo
          omega
        · exact hexDecodeLax_lt rest z hz

theorem hexDecodeLax_hexEncode : ∀ (bs : List Nat), (∀ z ∈ bs, z < 256) →
    hexDecodeLax (hexEncode bs) = bs
  | [], _ => rfl
  | b :: bs, hv => by
    have hdiv : b / 16 < 16 := by
      have := hv b (by simp)
      omega
    have hmod : b % 16 < 16 := by omega
    simp only [hexEncode]
    rw [hexDecodeLax, hexDigitVal_hexDigitChar _ hdiv, hexDigitVal_hexDigitChar _ hmod]
    have hrec := hexDecodeLax_hexEncode bs (fun z hz => hv z (by simp [hz]))
    simp only [hrec, List.cons.injEq, and_true]
    omega

theorem hexEncode_ne_colon : ∀ (bs : List Nat), (∀ z ∈ bs, z < 256) →
    ∀ c ∈ hexEncode bs, c ≠ 58
  | [], _ => by simp [hexEncode]
  | b :: bs, hv => by
    intro c hc
    have hb := hv b (by simp)
    simp only [hexEncode, List.mem_cons] at hc
    rcases hc with hc | hc | hc
    · subst hc
      exact hexDigitChar_ne_colon _ (by omega)
    · subst hc
      exact hexDigitChar_ne_colon _ (by omega)
    · exact hexEncode_ne_colon bs (fun z hz => hv z (by simp [hz])) c hc

theorem hexDecodeLax_length_le : ∀ (s : List Nat), (hexDecodeLax s).length ≤ s.length
  | [] => by simp [hexDecodeLax]
  | [c] => by simp [hexDecodeLax]
  | c1 :: c2 :: rest => by
    rw [hexDecodeLax]
    cases hh : hexDigitVal c1 with
    | none => simp
    | some hv =>
      cases hlo : hexDigitVal c2 with
      | none => simp
      | some lo =>
        have := hexDecodeLax_length_le rest
        simp only [List.length_cons]
        omega

theorem jsSplitGo_no_sep {sep : Nat} : ∀ (s cur : List Nat), (∀ c ∈ s, c ≠ sep) →
    jsSplitGo sep cur s = [cur.reverse ++ s] := by
  intro s
  induction s with
  | nil => intro cur _; simp [jsSplitGo]
  | cons c cs ih =>
    intro cur h
    have hc : c ≠ sep := h c (by simp)
    simp only [jsSplitGo, if_neg hc]
    rw [ih (c :: cur) (fun u hu => h u (by simp [hu]))]
    simp

theorem jsSplitGo_sep_append {sep : Nat} : ∀ (a cur b : List Nat), (∀ c ∈ a, c ≠ sep) →
    jsSplitGo sep cur (a ++ sep :: b) = (cur.reverse ++ a) :: jsSplitGo sep [] b := by
  intro a
  induction a with
  | nil => intro cur b _; simp [jsSplitGo]
  | cons x xs ih =>
    intro cur b h
    have hx : x ≠ sep := h x (by simp)
    simp only [List.cons_append, jsSplitGo, if_neg hx, List.append_eq]
    rw [ih (x :: cur) b (fun u hu => h u (by simp [hu]))]
    simp

theorem jsSplit_two {sep : Nat} {a b : List Nat} (ha : ∀ c ∈ a, c ≠ sep)
    (hb : ∀ c ∈ b, c ≠ sep) : jsSplit sep (a ++ sep :: b) = [a, b] := by
  unfold jsSplit
  rw [jsSplitGo_sep_append a [] b ha, jsSplitGo_no_sep b [] hb]
  simp

/-- The full `decrypt ∘ encrypt` round trip of `src/utils/encryption.js` at the
byte level: for every plaintext, every hex key that decodes to 32 bytes, and
every 16-byte iv, the encrypted blob has the shape `hex(iv) ':' hex(ct)` and
decrypts back to the plaintext under the same key. -/
theorem decryptPrivateKey_encryptPrivateKey {pt key iv : List Nat}
    (hkey : (hexDecodeLax key).length = 32) (hiv : iv.length = 16)
    (hivv : ∀ z ∈ iv, z < 256) (hpt : ∀ z ∈ pt, z < 256) :
    encryptPrivateKey pt key iv =
        some (hexEncode iv ++ 58 :: hexEncode (aesCbcEncrypt (hexDecodeLax key) iv pt)) ∧
      decryptPrivateKey
        (hexEncode iv ++ 58 :: hexEncode (aesCbcEncrypt (hexDecodeLax key) iv pt)) key =
        some pt := by
  have hkv : ∀ z ∈ hexDecodeLax key, z < 256 := hexDecodeLax_lt key
  have hks := roundKeys_good hkey hkv
  have hgoods : ∀ c ∈ cbcEncBlocks (roundKeys (hexDecodeLax key)) iv (toBlocks (pad16 pt)),
      goodBlock c :=
    cbcEncBlocks_good hks ⟨hiv, hivv⟩ (toBlocks_good (pad16_length_mod pt) (pad16_lt hpt))
  have hctlt : ∀ z ∈ aesCbcEncrypt (hexDecodeLax key) iv pt, z < 256 :=
    flatten_lt (fun b hb => (hgoods b hb).2)
  constructor
  · unfold encryptPrivateKey
    rw [if_pos ⟨hkey, hiv⟩]
    simp
  · unfold decryptPrivateKey
    rw [show hexEncode iv ++ 58 :: hexEncode (aesCbcEncrypt (hexDecodeLax key) iv pt) =
        hexEncode iv ++ (58 :: hexEncode (aesCbcEncrypt (hexDecodeLax key) iv pt)) from rfl,
      jsSplit_two (hexEncode_ne_colon iv hivv) (hexEncode_ne_colon _ hctlt)]
    dsimp only
    rw [hexDecodeLax_hexEncode iv hivv, hexDecodeLax_hexEncode _ hctlt]
    rw [if_pos ⟨hiv, hkey⟩]
    exact aesCbcDecrypt_aesCbcEncrypt hkey hkv ⟨hiv, hivv⟩ hpt

theorem bytesOk_spec {l : List Nat} (h : bytesOk l = true) : ∀ z ∈ l, z < 256 := by
  intro z hz
  have := List.all_eq_true.mp h z hz
  simpa using this

/-! ## Claim theorems -/

/-- C4: round-trip law of `src/utils/encryption.js`: for every plaintext
(as its UTF-8 byte sequence), every key that hex-decodes to 32 bytes, and
the fresh 16-byte iv drawn by the `encrypt` call, the blob has exactly the
shape `hex(iv) ':' hex(ciphertext)` and `decrypt(encrypt(P, K), K) = P`. -/
theorem c4_secretcipher_roundtrip (pt key iv : List Nat)
    (hkey : (hexDecodeLax key).length = 32) (hiv : iv.length = 16)
    (hivv : bytesOk iv = true) (hpt : bytesOk pt = true) :
    encryptPrivateKey pt key iv =
        some (hexEncode iv ++ 58 :: hexEncode (aesCbcEncrypt (hexDecodeLax key) iv pt)) ∧
      decryptPrivateKey
        (hexEncode iv ++ 58 :: hexEncode (aesCbcEncrypt (hexDecodeLax key) iv pt)) key =
        some pt :=
  decryptPrivateKey_encryptPrivateKey hkey hiv (bytesOk_spec hivv) (bytesOk_spec hpt)

/-- C4 witness: the round trip instantiated at a concrete plaintext, key
and iv. -/
theorem c4_secretcipher_roundtrip_witness :
    encryptPrivateKey [104, 105] (strLit
        "000102030405060708090a0b0c0d0e0f101112131415161718191a1b1c1d1e1f")
        (List.replicate 16 7) =
        some (hexEncode (List.replicate 16 7) ++ 58 :: hexEncode (aesCbcEncrypt
          (hexDecodeLax (strLit
            "000102030405060708090a0b0c0d0e0f101112131415161718191a1b1c1d1e1f"))
          (List.replicate 16 7) [104, 105])) ∧
      decryptPrivateKey (hexEncode (List.replicate 16 7) ++ 58 :: hexEncode (aesCbcEncrypt
          (hexDecodeLax (strLit
            "000102030405060708090a0b0c0d0e0f101112131415161718191a1b1c1d1e1f"))
          (List.replicate 16 7) [104, 105]))
        (strLit "000102030405060708090a0b0c0d0e0f101112131415161718191a1b1c1d1e1f") =
        some [104, 105] :=
  c4_secretcipher_roundtrip [104, 105]
    (strLit "000102030405060708090a0b0c0d0e0f101112131415161718191a1b1c1d1e1f")
    (List.replicate 16 7) (by decide) (by decide) (by decide) (by decide)

/-- C5 counterexample: the tamper/malformed law fails on the code at
concrete inputs.  (1) Decrypting under a different 32-byte key than the one
used to encrypt does not throw: for this plaintext, key pair and iv it
returns a silently wrong plaintext (the CBC padding check happens to pass).
(2) A malformed blob carrying an extra non-hex segment after the ciphertext
is not rejected: the junk is ignored and decryption succeeds. -/
theorem c5_tamper_law_counterexample :
    decryptPrivateKey
        ((encryptPrivateKey (strLit "hello")
          (strLit "000102030405060708090a0b0c0d0e0f101112131415161718191a1b1c1d1e1f")
          (250 :: 3 :: List.replicate 14 0)).getD [])
        (strLit "202122232425262728292a2b2c2d2e2f303132333435363738393a3b3c3d3e3f") =
        some [221, 207, 188, 82, 11, 197, 199, 52, 25, 209, 251, 112, 37, 3, 84] ∧
      ([221, 207, 188, 82, 11, 197, 199, 52, 25, 209, 251, 112, 37, 3, 84] : List Nat) ≠
        strLit "hello" ∧
      strLit "000102030405060708090a0b0c0d0e0f101112131415161718191a1b1c1d1e1f" ≠
        strLit "202122232425262728292a2b2c2d2e2f303132333435363738393a3b3c3d3e3f" ∧
      decryptPrivateKey
        ((encryptPrivateKey (strLit "hello")
          (strLit "000102030405060708090a0b0c0d0e0f101112131415161718191a1b1c1d1e1f")
          (250 :: 3 :: List.replicate 14 0)).getD [] ++ strLit ":zz")
        (strLit "000102030405060708090a0b0c0d0e0f101112131415161718191a1b1c1d1e1f") =
        some (strLit "hello") := by
  refine ⟨by decide, by decide, by decide, by decide⟩

/-- C5 amended: what the decrypt function does guarantee on bad input: a
blob with no ':' separator always fails ("parts[1]" is undefined), and a
blob whose iv segment does not lax-hex-decode to exactly 16 bytes always
fails (`createDecipheriv` rejects the iv).  A wrong key, by contrast, only
fails when the CBC padding check fails, and extra segments are ignored
(see the counterexample). -/
theorem c5_tamper_law_amended :
    (∀ blob key : List Nat, (∀ c ∈ blob, c ≠ 58) → decryptPrivateKey blob key = none) ∧
    (∀ blob key p0 p1 rest, jsSplit 58 blob = p0 :: p1 :: rest →
      (hexDecodeLax p0).length ≠ 16 → decryptPrivateKey blob key = none) := by
  constructor
  · intro blob key h
    unfold decryptPrivateKey
    rw [show jsSplit 58 blob = [blob] by
      simpa [jsSplit] using jsSplitGo_no_sep blob [] h]
  · intro blob key p0 p1 rest hsplit hlen
    unfold decryptPrivateKey
    rw [hsplit]
    dsimp only
    rw [if_neg]
    intro hcon
    exact hlen hcon.1

/-- C5 amended witness: both guarantees at concrete blobs. -/
theorem c5_tamper_law_amended_witness :
    decryptPrivateKey (strLit "zz") (strLit "k") = none ∧
      decryptPrivateKey (strLit "zz:aa")
        (strLit "000102030405060708090a0b0c0d0e0f101112131415161718191a1b1c1d1e1f") = none :=
  ⟨c5_tamper_law_amended.1 (strLit "zz") (strLit "k") (by decide),
   c5_tamper_law_amended.2 (strLit "zz:aa")
     (strLit "000102030405060708090a0b0c0d0e0f101112131415161718191a1b1c1d1e1f")
     (strLit "zz") (strLit "aa") [] (by decide) (by decide)⟩

theorem invSubB_lt : ∀ x < 256, invSubB x < 256 := by decide

theorem invSubBytes_lt {s : List Nat} (hv : ∀ z ∈ s, z < 256) :
    ∀ z ∈ invSubBytes s, z < 256 := by
  intro z hz
  simp only [invSubBytes, List.mem_map] at hz
  obtain ⟨x, hx, rfl⟩ := hz
  exact invSubB_lt x (hv x hx)

theorem invSubBytes_length (s : List Nat) : (invSubBytes s).length = s.length :=
  List.length_map ..

theorem invShiftRows_length {s : List Nat} (h : s.length = 16) :
    (invShiftRows s).length = 16 := by
  obtain ⟨a0, a1, a2, a3, a4, a5, a6, a7, a8, a9, a10, a11, a12, a13, a14, a15, rfl⟩ :=
    exists_sixteen h
  rfl

theorem invShiftRows_lt {s : List Nat} (h : s.length = 16) (hv : ∀ z ∈ s, z < 256) :
    ∀ z ∈ invShiftRows s, z < 256 := by
  obtain ⟨a0, a1, a2, a3, a4, a5, a6, a7, a8, a9, a10, a11, a12, a13, a14, a15, rfl⟩ :=
    exists_sixteen h
  intro z hz
  simp only [invShiftRows, List.mem_cons, List.not_mem_nil, or_false] at hz
  rcases hz with h | h | h | h | h | h | h | h | h | h | h | h | h | h | h | h <;> subst h <;>
    exact hv _ (by simp)

theorem invMixCol4_all_lt {a b c d : Nat} (ha : a < 256) (hb : b < 256) (hc : c < 256)
    (hd : d < 256) : ∀ z ∈ invMixCol4 a b c d, z < 256 := by
  intro z hz
  simp only [invMixCol4, List.mem_cons, List.not_mem_nil, or_false] at hz
  rcases hz with h | h | h | h <;> subst h
  · exact xor_lt_256 (xor_lt_256 (xor_lt_256 (g14_lt ha) (g11_lt hb)) (g13_lt hc)) (g9_lt hd)
  · exact xor_lt_256 (xor_lt_256 (xor_lt_256 (g9_lt ha) (g14_lt hb)) (g11_lt hc)) (g13_lt hd)
  · exact xor_lt_256 (xor_lt_256 (xor_lt_256 (g13_lt ha) (g9_lt hb)) (g14_lt hc)) (g11_lt hd)
  · exact xor_lt_256 (xor_lt_256 (xor_lt_256 (g11_lt ha) (g13_lt hb)) (g9_lt hc)) (g14_lt hd)

theorem invMixColumns_length {s : List Nat} (h : s.length = 16) :
    (invMixColumns s).length = 16 := by
  obtain ⟨a0, a1, a2, a3, a4, a5, a6, a7, a8, a9, a10, a11, a12, a13, a14, a15, rfl⟩ :=
    exists_sixteen h
  rfl

theorem invMixColumns_lt {s : List Nat} (h : s.length = 16) (hv : ∀ z ∈ s, z < 256) :
    ∀ z ∈ invMixColumns s, z < 256 := by
  obtain ⟨a0, a1, a2, a3, a4, a5, a6, a7, a8, a9, a10, a11, a12, a13, a14, a15, rfl⟩ :=
    exists_sixteen h
  have key : invMixColumns [a0, a1, a2, a3, a4, a5, a6, a7, a8, a9, a10, a11, a12, a13, a14,
      a15] = invMixCol4 a0 a1 a2 a3 ++ invMixCol4 a4 a5 a6 a7 ++ invMixCol4 a8 a9 a10 a11 ++
      invMixCol4 a12 a13 a14 a15 := rfl
  rw [key]
  intro z hz
  simp only [List.mem_append] at hz
  rcases hz with ((hz | hz) | hz) | hz
  · exact invMixCol4_all_lt (hv _ (by simp)) (hv _ (by simp)) (hv _ (by simp)) (hv _ (by simp))
      z hz
  · exact invMixCol4_all_lt (hv _ (by simp)) (hv _ (by simp)) (hv _ (by simp)) (hv _ (by simp))
      z hz
  · exact invMixCol4_all_lt (hv _ (by simp)) (hv _ (by simp)) (hv _ (by simp)) (hv _ (by simp))
      z hz
  · exact invMixCol4_all_lt (hv _ (by simp)) (hv _ (by simp)) (hv _ (by simp)) (hv _ (by simp))
      z hz

theorem goodBlock_invSubBytes {s : List Nat} (hs : goodBlock s) : goodBlock (invSubBytes s) :=
  ⟨by rw [invSubBytes_length, hs.1], invSubBytes_lt hs.2⟩

theorem goodBlock_invShiftRows {s : List Nat} (hs : goodBlock s) : goodBlock (invShiftRows s) :=
  ⟨invShiftRows_length hs.1, invShiftRows_lt hs.1 hs.2⟩

theorem goodBlock_invMixColumns {s : List Nat} (hs : goodBlock s) :
    goodBlock (invMixColumns s) :=
  ⟨invMixColumns_length hs.1, invMixColumns_lt hs.1 hs.2⟩

theorem decRounds_good {ks : List (List Nat)} (hk : ∀ k ∈ ks, goodBlock k) :
    ∀ {s : List Nat}, goodBlock s → goodBlock (decRounds ks s) := by
  induction ks with
  | nil => intro s hs; exact hs
  | cons k ks ih =>
    intro s hs
    have hkk : goodBlock k := hk k (by simp)
    have hks : ∀ j ∈ ks, goodBlock j := fun j hj => hk j (by simp [hj])
    cases ks with
    | nil =>
      exact goodBlock_invSubBytes (goodBlock_invShiftRows (goodBlock_addRoundKey hkk hs))
    | cons k2 ks2 =>
      exact goodBlock_invSubBytes (goodBlock_invShiftRows (goodBlock_invMixColumns
        (goodBlock_addRoundKey hkk (ih hks hs))))

theorem decryptBlock_good {ks : List (List Nat)} (hk : ∀ k ∈ ks, goodBlock k) {s : List Nat}
    (hs : goodBlock s) : goodBlock (decryptBlock ks s) := by
  cases ks with
  | nil => exact hs
  | cons k0 rest =>
    have hk0 : goodBlock k0 := hk k0 (by simp)
    have hrest : ∀ j ∈ rest, goodBlock j := fun j hj => hk j (by simp [hj])
    exact goodBlock_addRoundKey hk0 (decRounds_good hrest hs)

theorem cbcDecBlocks_good {ks : List (List Nat)} (hk : ∀ k ∈ ks, goodBlock k) :
    ∀ {cs : List (List Nat)} {prev : List Nat}, goodBlock prev → (∀ c ∈ cs, goodBlock c) →
      ∀ p ∈ cbcDecBlocks ks prev cs, goodBlock p := by
  intro cs
  induction cs with
  | nil => intro prev _ _ p hp; simp [cbcDecBlocks] at hp
  | cons c cs ih =>
    intro prev hprev hcs p hp
    have hc : goodBlock c := hcs c (by simp)
    have hd : goodBlock (decryptBlock ks c) := decryptBlock_good hk hc
    simp only [cbcDecBlocks, List.mem_cons] at hp
    rcases hp with hp | hp
    · subst hp
      exact ⟨by rw [xorBytes_length, hprev.1, hd.1]; simp, xorBytes_lt hprev.2 hd.2⟩
    · exact ih hc (fun u hu => hcs u (by simp [hu])) p hp

theorem unpad16_lt {l r : List Nat} (hv : ∀ z ∈ l, z < 256) (h : unpad16 l = some r) :
    ∀ z ∈ r, z < 256 := by
  unfold unpad16 at h
  split at h
  · exact absurd h (by simp)
  · split at h
    · simp only [Option.some.injEq] at h
      subst h
      intro z hz
      exact hv z (List.mem_of_mem_take hz)
    · exact absurd h (by simp)

theorem aesCbcDecrypt_lt {key iv ct r : List Nat} (hk : ∀ k ∈ roundKeys key, goodBlock k)
    (hiv : goodBlock iv) (hct : ∀ z ∈ ct, z < 256)
    (h : aesCbcDecrypt key iv ct = some r) : ∀ z ∈ r, z < 256 := by
  unfold aesCbcDecrypt at h
  split at h
  · rename_i hcond
    apply unpad16_lt _ h
    apply flatten_lt
    intro b hb
    exact (cbcDecBlocks_good hk hiv (toBlocks_good hcond.1 hct) b hb).2
  · exact absurd h (by simp)

/-- Whatever `decryptPrivateKey` returns is a valid byte string. -/
theorem decryptPrivateKey_lt {blob key r : List Nat}
    (h : decryptPrivateKey blob key = some r) : ∀ z ∈ r, z < 256 := by
  unfold decryptPrivateKey at h
  split at h
  · rename_i p0 p1 rest heq
    dsimp only at h
    split at h
    · rename_i hcond
      exact aesCbcDecrypt_lt (roundKeys_good hcond.2 (hexDecodeLax_lt key))
        ⟨hcond.1, hexDecodeLax_lt p0⟩ (hexDecodeLax_lt p1) h
    · exact absurd h (by simp)
  · exact absurd h (by simp)

theorem encryptPrivateKey_some {pt key iv : List Nat} (hkey : (hexDecodeLax key).length = 32)
    (hiv : iv.length = 16) :
    encryptPrivateKey pt key iv =
      some (hexEncode iv ++ 58 :: hexEncode (aesCbcEncrypt (hexDecodeLax key) iv pt)) := by
  unfold encryptPrivateKey
  rw [if_pos ⟨hkey, hiv⟩]
  simp

theorem reencryptWallets_spec {oldKey newKey : List Nat} {ivW : Nat → List Nat}
    (hnew : (hexDecodeLax newKey).length = 32)
    (hivW : ∀ i, (ivW i).length = 16 ∧ ∀ z ∈ ivW i, z < 256) :
    ∀ (ws : List Wallet) (i : Nat) (ws2 : List Wallet),
      reencryptWallets oldKey newKey ivW ws i = some ws2 →
      ws2.length = ws.length ∧
      ∀ j, j < ws.length →
        (ws2.getD j default).blockchain = (ws.getD j default).blockchain ∧
        (ws2.getD j default).address = (ws.getD j default).address ∧
        (ws2.getD j default).label = (ws.getD j default).label ∧
        (ws2.getD j default).isDefault = (ws.getD j default).isDefault ∧
        ∃ pt, decryptPrivateKey (ws.getD j default).privateKey oldKey = some pt ∧
          decryptPrivateKey (ws2.getD j default).privateKey newKey = some pt := by
  intro ws
  induction ws with
  | nil =>
    intro i ws2 h
    simp only [reencryptWallets, Option.some.injEq] at h
    subst h
    exact ⟨rfl, fun j hj => absurd hj (by simp)⟩
  | cons w ws ih =>
    intro i ws2 h
    rw [reencryptWallets] at h
    cases hd : decryptPrivateKey w.privateKey oldKey with
    | none => simp [hd] at h
    | some plain =>
      simp only [hd] at h
      have hplain : ∀ z ∈ plain, z < 256 := decryptPrivateKey_lt hd
      have henc := @encryptPrivateKey_some plain newKey (ivW i) hnew (hivW i).1
      simp only [henc] at h
      cases hrec : reencryptWallets oldKey newKey ivW ws (i + 1) with
      | none => simp [hrec] at h
      | some rest =>
        simp only [hrec, Option.some.injEq] at h
        subst h
        obtain ⟨ihlen, ihspec⟩ := ih (i + 1) rest hrec
        constructor
        · simp [ihlen]
        · intro j hj
          cases j with
          | zero =>
            refine ⟨rfl, rfl, rfl, rfl, plain, hd, ?_⟩
            exact (decryptPrivateKey_encryptPrivateKey hnew (hivW i).1 (hivW i).2 hplain).2
          | succ j =>
            simp only [List.getD_cons_succ]
            exact ihspec j (by simpa using hj)

theorem rwp_success (env : Env) (store : List UserDoc)
    (username password np newSalt newHashedPassword ivPhrase : List Nat)
    (ivW : Nat → List Nat) (user : UserDoc)
    (hfind : findOne store username = some user)
    (hbc : env.bcryptCheck password user.password = true)
    (hnew : (hexDecodeLax (env.derive np newSalt)).length = 32)
    (hivP : ivPhrase.length = 16 ∧ ∀ z ∈ ivPhrase, z < 256)
    (hivW : ∀ i, (ivW i).length = 16 ∧ ∀ z ∈ ivW i, z < 256) :
    ∀ m ws2, decryptPrivateKey user.recoveryPhrase (env.derive password user.salt) = some m →
      reencryptWallets (env.derive password user.salt) (env.derive np newSalt) ivW
        user.wallets 0 = some ws2 →
      recoverWalletFromPhrase env store username password (some np) newSalt newHashedPassword
        ivPhrase ivW =
        ({ status := 200,
           message := strLit "Wallet recovered and password updated successfully" },
          saveUser store { user with
            password := newHashedPassword
            salt := newSalt
            recoveryPhrase := hexEncode ivPhrase ++ 58 :: hexEncode
              (aesCbcEncrypt (hexDecodeLax (env.derive np newSalt)) ivPhrase m)
            wallets := ws2 }) ∧
      decryptPrivateKey (hexEncode ivPhrase ++ 58 :: hexEncode
          (aesCbcEncrypt (hexDecodeLax (env.derive np newSalt)) ivPhrase m))
        (env.derive np newSalt) = some m ∧
      ws2.length = user.wallets.length ∧
      (∀ j, j < user.wallets.length →
        (ws2.getD j default).blockchain = (user.wallets.getD j default).blockchain ∧
        (ws2.getD j default).address = (user.wallets.getD j default).address ∧
        ∃ pt, decryptPrivateKey (user.wallets.getD j default).privateKey
            (env.derive password user.salt) = some pt ∧
          decryptPrivateKey (ws2.getD j default).privateKey (env.derive np newSalt) =
            some pt) := by
  intro m ws2 hm hre
  have hmv : ∀ z ∈ m, z < 256 := decryptPrivateKey_lt hm
  have henc := @encryptPrivateKey_some m (env.derive np newSalt) ivPhrase hnew hivP.1
  obtain ⟨hlen, hspec⟩ := reencryptWallets_spec hnew hivW user.wallets 0 ws2 hre
  refine ⟨?_, ?_, hlen, ?_⟩
  · simp [recoverWalletFromPhrase, hfind, hbc, hm, henc, hre]
  · exact (decryptPrivateKey_encryptPrivateKey hnew hivP.1 hivP.2 hmv).2
  · intro j hj
    obtain ⟨h1, h2, _, _, pt, hpt1, hpt2⟩ := hspec j hj
    exact ⟨h1, h2, pt, hpt1, hpt2⟩

/-- C1 amended: what `recoverWalletFromPhrase` with a new password does
guarantee.  (1) If the recovery phrase fails to decrypt under the old key
the handler answers 500 and the store is unchanged; (2) if any wallet key
fails to decrypt the handler answers 500 and the store is unchanged; (3) on
success the handler performs one single `save` whose document replaces the
password hash, the salt, the recovery-phrase ciphertext and every wallet
ciphertext together, the new phrase ciphertext decrypts under the new key
to the old phrase, and every re-encrypted wallet keeps its chain and
address and decrypts under the new key to exactly the bytes its old
ciphertext decrypted to under the old key.  (The original claim's further
conjunct — that decryption under the old password then fails — is
unauthenticated-CBC-false; see the counterexample.) -/
theorem c1_rekey_atomicity_amended (env : Env) (store : List UserDoc)
    (username password np newSalt newHashedPassword ivPhrase : List Nat)
    (ivW : Nat → List Nat) (user : UserDoc)
    (hfind : findOne store username = some user)
    (hbc : env.bcryptCheck password user.password = true)
    (hnew : (hexDecodeLax (env.derive np newSalt)).length = 32)
    (hivP : ivPhrase.length = 16 ∧ ∀ z ∈ ivPhrase, z < 256)
    (hivW : ∀ i, (ivW i).length = 16 ∧ ∀ z ∈ ivW i, z < 256) :
    (decryptPrivateKey user.recoveryPhrase (env.derive password user.salt) = none →
      recoverWalletFromPhrase env store username password (some np) newSalt newHashedPassword
        ivPhrase ivW = ({ status := 500, message := strLit "Recovery failed" }, store)) ∧
    (∀ m, decryptPrivateKey user.recoveryPhrase (env.derive password user.salt) = some m →
      reencryptWallets (env.derive password user.salt) (env.derive np newSalt) ivW
        user.wallets 0 = none →
      recoverWalletFromPhrase env store username password (some np) newSalt newHashedPassword
        ivPhrase ivW = ({ status := 500, message := strLit "Recovery failed" }, store)) ∧
    (∀ m ws2, decryptPrivateKey user.recoveryPhrase (env.derive password user.salt) = some m →
      reencryptWallets (env.derive password user.salt) (env.derive np newSalt) ivW
        user.wallets 0 = some ws2 →
      recoverWalletFromPhrase env store username password (some np) newSalt newHashedPassword
        ivPhrase ivW =
        ({ status := 200,
           message := strLit "Wallet recovered and password updated successfully" },
          saveUser store { user with
            password := newHashedPassword
            salt := newSalt
            recoveryPhrase := hexEncode ivPhrase ++ 58 :: hexEncode
              (aesCbcEncrypt (hexDecodeLax (env.derive np newSalt)) ivPhrase m)
            wallets := ws2 }) ∧
      decryptPrivateKey (hexEncode ivPhrase ++ 58 :: hexEncode
          (aesCbcEncrypt (hexDecodeLax (env.derive np newSalt)) ivPhrase m))
        (env.derive np newSalt) = some m ∧
      ws2.length = user.wallets.length ∧
      (∀ j, j < user.wallets.length →
        (ws2.getD j default).blockchain = (user.wallets.getD j default).blockchain ∧
        (ws2.getD j default).address = (user.wallets.getD j default).address ∧
        ∃ pt, decryptPrivateKey (user.wallets.getD j default).privateKey
            (env.derive password user.salt) = some pt ∧
          decryptPrivateKey (ws2.getD j default).privateKey (env.derive np newSalt) =
            some pt)) := by
  refine ⟨?_, ?_, ?_⟩
  · intro hnone
    simp [recoverWalletFromPhrase, hfind, hbc, hnone]
  · intro m hm hrenone
    have henc := @encryptPrivateKey_some m (env.derive np newSalt) ivPhrase hnew hivP.1
    simp [recoverWalletFromPhrase, hfind, hbc, hm, henc, hrenone]
  · exact rwp_success env store username password np newSalt newHashedPassword ivPhrase
      ivW user hfind hbc hnew hivP hivW

theorem c1IvA_ok : c1IvA.length = 16 ∧ ∀ z ∈ c1IvA, z < 256 := ⟨by decide, by decide⟩

/-- C1 witness: the amended re-keying guarantees at a concrete store,
passwords and ivs. -/
theorem c1_rekey_atomicity_amended_witness :
    recoverWalletFromPhrase c1Env [c1User] (strLit "alice") (strLit "p1") (some (strLit "p2"))
        (strLit "ns") (strLit "hash-p2") c1IvA (fun _ => c1IvA) =
      ({ status := 200,
         message := strLit "Wallet recovered and password updated successfully" },
        saveUser [c1User] { c1User with
          password := strLit "hash-p2"
          salt := strLit "ns"
          recoveryPhrase := hexEncode c1IvA ++ 58 :: hexEncode (aesCbcEncrypt
            (hexDecodeLax (c1Env.derive (strLit "p2") (strLit "ns"))) c1IvA (strLit "mn"))
          wallets := c1WS2 }) := by
  have h := (c1_rekey_atomicity_amended c1Env [c1User] (strLit "alice") (strLit "p1")
    (strLit "p2") (strLit "ns") (strLit "hash-p2") c1IvA (fun _ => c1IvA) c1User
    (by decide) (by decide) (by decide) c1IvA_ok (fun i => c1IvA_ok)).2.2
    (strLit "mn") c1WS2 (by decide) (by decide)
  exact h.1

/-- C1 counterexample: after a successful rotation from "p1" to "p2",
decryption of the re-encrypted wallet under the key derived from "p1" does
NOT fail with an error: with the (honestly random but unlucky) iv
`c1BadIv` drawn by the re-encryption, the new ciphertext passes the CBC
padding check under the old key and decryption returns silently wrong
bytes. -/
theorem c1_rekey_atomicity_counterexample :
    (recoverWalletFromPhrase c1Env [c1User] (strLit "alice") (strLit "p1")
        (some (strLit "p2")) (strLit "ns") (strLit "hash-p2") c1IvA
        (fun _ => c1BadIv)).1.status = 200 ∧
      ((recoverWalletFromPhrase c1Env [c1User] (strLit "alice") (strLit "p1")
          (some (strLit "p2")) (strLit "ns") (strLit "hash-p2") c1IvA
          (fun _ => c1BadIv)).2.map (fun u => u.wallets.map
            (fun w => decryptPrivateKey w.privateKey
              (c1Env.derive (strLit "p1") (strLit "ns"))))) =
        [[some [155, 65, 245, 225, 144, 150, 135, 186, 20, 93, 137, 101, 44, 211, 203]]] ∧
      ([155, 65, 245, 225, 144, 150, 135, 186, 20, 93, 137, 101, 44, 211, 203] : List Nat) ≠
        strLit "0xabcdef" := by
  refine ⟨by decide, by decide, by decide⟩

/-- C10 amended: `createAdditionalWallet` indeed never verifies the
supplied password — the outcome is the same for every `bcrypt.compare`
primitive — and for any supplied password `p` the Ethereum branch succeeds
and appends a wallet encrypted under the key derived from `(p, user.salt)`,
whose ciphertext decrypts under exactly that key to the generated private
key.  (The original claim's further conjunct — that the ciphertext is NOT
decryptable under the key of the real password — is
unauthenticated-CBC-false; see the counterexample.) -/
theorem c10_addwallet_no_password_check (env : Env) (store : List UserDoc)
    (userId label password ethAddress ethPrivateKey solAddress solSecretKey iv : List Nat)
    (user : UserDoc) (hfind : findOne store userId = some user)
    (hkey : (hexDecodeLax (env.derive password user.salt)).length = 32)
    (hiv : iv.length = 16 ∧ ∀ z ∈ iv, z < 256)
    (hpt : ∀ z ∈ ethPrivateKey, z < 256) (hlabel : label ≠ []) :
    (∀ bc2, createAdditionalWallet { env with bcryptCheck := bc2 } store userId
        (strLit "ethereum") label password ethAddress ethPrivateKey solAddress solSecretKey
        iv =
      createAdditionalWallet env store userId (strLit "ethereum") label password ethAddress
        ethPrivateKey solAddress solSecretKey iv) ∧
    createAdditionalWallet env store userId (strLit "ethereum") label password ethAddress
        ethPrivateKey solAddress solSecretKey iv =
      ({ status := 201, message := strLit "Wallet created successfully" },
        saveUser store { user with wallets := user.wallets ++
          [Wallet.mk (strLit "ethereum") ethAddress
            (hexEncode iv ++ 58 :: hexEncode (aesCbcEncrypt
              (hexDecodeLax (env.derive password user.salt)) iv ethPrivateKey))
            false label] }) ∧
    decryptPrivateKey
        (hexEncode iv ++ 58 :: hexEncode (aesCbcEncrypt
          (hexDecodeLax (env.derive password user.salt)) iv ethPrivateKey))
        (env.derive password user.salt) = some ethPrivateKey := by
  have heth : lowerStr (strLit "ethereum") = strLit "ethereum" := by decide
  have henc := @encryptPrivateKey_some ethPrivateKey (env.derive password user.salt) iv hkey
    hiv.1
  refine ⟨fun bc2 => rfl, ?_, ?_⟩
  · simp [createAdditionalWallet, hfind, heth, henc, hlabel]
  · exact (decryptPrivateKey_encryptPrivateKey hkey hiv.1 hiv.2 hpt).2

/-- C10 witness: the amended guarantees at a concrete store and password. -/
theorem c10_addwallet_no_password_check_witness :
    createAdditionalWallet c10Env [c10User] (strLit "bob") (strLit "ethereum") (strLit "L")
        (strLit "qq") (strLit "0xB") (strLit "0xEE") (strLit "S") [] c1IvA =
      ({ status := 201, message := strLit "Wallet created successfully" },
        saveUser [c10User] { c10User with wallets := c10User.wallets ++
          [Wallet.mk (strLit "ethereum") (strLit "0xB")
            (hexEncode c1IvA ++ 58 :: hexEncode (aesCbcEncrypt
              (hexDecodeLax (c10Env.derive (strLit "qq") c10User.salt)) c1IvA
              (strLit "0xEE")))
            false (strLit "L")] }) :=
  (c10_addwallet_no_password_check c10Env [c10User] (strLit "bob") (strLit "L") (strLit "qq")
    (strLit "0xB") (strLit "0xEE") (strLit "S") [] c1IvA c10User (by decide) (by decide)
    c1IvA_ok (by decide) (by decide)).2.1

/-- C10 counterexample: the wallet created with the wrong password "qq"
(real password "pw") is nevertheless decryptable under the key derived from
the real password — with the unlucky iv `c10BadIv` the ciphertext passes
the padding check under that key and yields silently wrong bytes. -/
theorem c10_addwallet_no_password_check_counterexample :
    (createAdditionalWallet c10Env [c10User] (strLit "bob") (strLit "ethereum") (strLit "L")
        (strLit "qq") (strLit "0xB") (strLit "0xEE") (strLit "S") [] c10BadIv).1.status =
        201 ∧
      ((createAdditionalWallet c10Env [c10User] (strLit "bob") (strLit "ethereum")
          (strLit "L") (strLit "qq") (strLit "0xB") (strLit "0xEE") (strLit "S") []
          c10BadIv).2.map (fun u => u.wallets.map (fun w =>
            decryptPrivateKey w.privateKey (c10Env.derive (strLit "pw") c10User.salt)))) =
        [[some [133, 172, 223, 234, 188, 244, 42, 75, 240, 41, 81, 23, 234, 184, 178]]] ∧
      ([133, 172, 223, 234, 188, 244, 42, 75, 240, 41, 81, 23, 234, 184, 178] : List Nat) ≠
        strLit "0xEE" := by
  refine ⟨by decide, by decide, by decide⟩

/-- C6 amended: `createAdditionalWallet` appends the new wallet, but stores
it with `isDefault = false` unconditionally — it never forces
`isDefault = true`, not even when the wallet is the first of its chain for
the user (the source literally writes `isDefault: false` in both branches).
See the counterexample for a first-of-chain instance. -/
theorem c6_addwallet_default_amended (env : Env) (store : List UserDoc)
    (userId blockchain label password ethAddress ethPrivateKey solAddress solSecretKey
      iv : List Nat) (user : UserDoc)
    (hfind : findOne store userId = some user)
    (hkey : (hexDecodeLax (env.derive password user.salt)).length = 32)
    (hiv : iv.length = 16) (hlabel : label ≠ []) :
    (lowerStr blockchain = strLit "ethereum" →
      createAdditionalWallet env store userId blockchain label password ethAddress
          ethPrivateKey solAddress solSecretKey iv =
        ({ status := 201, message := strLit "Wallet created successfully" },
          saveUser store { user with wallets := user.wallets ++
            [Wallet.mk (strLit "ethereum") ethAddress
              (hexEncode iv ++ 58 :: hexEncode (aesCbcEncrypt
                (hexDecodeLax (env.derive password user.salt)) iv ethPrivateKey))
              false label] })) ∧
    (lowerStr blockchain = strLit "solana" →
      createAdditionalWallet env store userId blockchain label password ethAddress
          ethPrivateKey solAddress solSecretKey iv =
        ({ status := 201, message := strLit "Wallet created successfully" },
          saveUser store { user with wallets := user.wallets ++
            [Wallet.mk (strLit "solana") solAddress
              (hexEncode iv ++ 58 :: hexEncode (aesCbcEncrypt
                (hexDecodeLax (env.derive password user.salt)) iv
                (utf8Encode (utf8DecodeCP solSecretKey))))
              false label] })) := by
  have hne : strLit "solana" ≠ strLit "ethereum" := by decide
  constructor
  · intro hc
    have henc := @encryptPrivateKey_some ethPrivateKey (env.derive password user.salt) iv
      hkey hiv
    simp [createAdditionalWallet, hfind, hc, henc, hlabel]
  · intro hc
    have henc := @encryptPrivateKey_some (utf8Encode (utf8DecodeCP solSecretKey))
      (env.derive password user.salt) iv hkey hiv
    simp [createAdditionalWallet, hfind, hc, hne, henc, hlabel]

/-- C6 witness: the amended behaviour at a concrete first-of-chain store. -/
theorem c6_addwallet_default_amended_witness :
    createAdditionalWallet c10Env [c10User] (strLit "bob") (strLit "ethereum") (strLit "L")
        (strLit "pw") (strLit "0xB") (strLit "0xEE") (strLit "S") [] c1IvA =
      ({ status := 201, message := strLit "Wallet created successfully" },
        saveUser [c10User] { c10User with wallets := c10User.wallets ++
          [Wallet.mk (strLit "ethereum") (strLit "0xB")
            (hexEncode c1IvA ++ 58 :: hexEncode (aesCbcEncrypt
              (hexDecodeLax (c10Env.derive (strLit "pw") c10User.salt)) c1IvA
              (strLit "0xEE")))
            false (strLit "L")] }) :=
  (c6_addwallet_default_amended c10Env [c10User] (strLit "bob") (strLit "ethereum")
    (strLit "L") (strLit "pw") (strLit "0xB") (strLit "0xEE") (strLit "S") [] c1IvA c10User
    (by decide) (by decide) (by decide) (by decide)).1 (by decide)

/-- C6 counterexample: a user with no Ethereum wallet (first-of-chain
situation) still gets the new wallet stored with `isDefault = false`, not
the claimed forced `true`. -/
theorem c6_addwallet_default_counterexample :
    chainCount c10User (strLit "ethereum") = 0 ∧
      ((createAdditionalWallet c10Env [c10User] (strLit "bob") (strLit "ethereum")
          (strLit "L") (strLit "pw") (strLit "0xB") (strLit "0xEE") (strLit "S") []
          c1IvA).2.map (fun u => u.wallets.map Wallet.isDefault)) = [[false]] := by
  refine ⟨by decide, by decide⟩

/-- C8 amended: the two login failures are distinguishable: an unknown
identity is answered with 404/"User not found", a known identity with a
wrong password with 400/"Invalid credentials" — different status and
different body, so identity existence leaks to the caller. -/
theorem c8_login_failure_shapes_amended (env : Env) (store : List UserDoc)
    (username password : List Nat) :
    (findOne store username = none →
      loginUser env store username password =
        ({ status := 404, message := strLit "User not found" }, store)) ∧
    (∀ user, findOne store username = some user →
      env.bcryptCheck password user.password = false →
      loginUser env store username password =
        ({ status := 400, message := strLit "Invalid credentials" }, store)) ∧
    ({ status := 404, message := strLit "User not found" } : Resp) ≠
      { status := 400, message := strLit "Invalid credentials" } := by
  refine ⟨?_, ?_, by decide⟩
  · intro hnone
    simp [loginUser, hnone]
  · intro user hfind hbc
    simp [loginUser, hfind, hbc]

/-- C8 witness: the distinguishable shapes at a concrete store. -/
theorem c8_login_failure_shapes_amended_witness :
    loginUser c10Env [c10User] (strLit "ghost") (strLit "x") =
        ({ status := 404, message := strLit "User not found" }, [c10User]) ∧
      loginUser c10Env [c10User] (strLit "bob") (strLit "wrong") =
        ({ status := 400, message := strLit "Invalid credentials" }, [c10User]) :=
  ⟨(c8_login_failure_shapes_amended c10Env [c10User] (strLit "ghost") (strLit "x")).1
      (by decide),
   (c8_login_failure_shapes_amended c10Env [c10User] (strLit "bob") (strLit "wrong")).2.1
      c10User (by decide) (by decide)⟩

/-- C8 counterexample: the claim that the two failure results are identical
in shape is false at a concrete store: the unknown-identity run answers
404/"User not found" while the wrong-password run answers 400/"Invalid
credentials". -/
theorem c8_login_failure_shapes_counterexample :
    (loginUser c10Env [c10User] (strLit "ghost") (strLit "x")).1 ≠
      (loginUser c10Env [c10User] (strLit "bob") (strLit "wrong")).1 := by
  decide

theorem saveUser_last_write {store : List UserDoc} {u1 u2 : UserDoc}
    (h : u1.username = u2.username) :
    saveUser (saveUser store u1) u2 = saveUser store u2 := by
  unfold saveUser
  rw [List.map_map]
  apply List.map_congr_left
  intro v _
  by_cases hv : v.username == u1.username
  · simp only [Function.comp_apply, hv, if_pos]
    have : u1.username == u2.username := by
      rw [h]
      simp
    simp only [this, if_pos]
    have hv2 : v.username == u2.username := by
      have h1 := eq_of_beq hv
      rw [h1, h]
      simp
    rw [if_pos hv2]
  · simp only [Function.comp_apply, hv]
    simp

/-- C7 amended: `recoverWalletFromPhrase` uses no concurrency control.  Two
re-keying requests that both read the same stored user (the
read-read-write-write interleaving) BOTH report success — no
`ConflictError` exists anywhere in the handler, whose only failure answers
are 404, 401 and 500 — and because each save replaces the whole document,
the interleaved final state is exactly the second writer's single-save
outcome (last write wins), which is fully consistent under the second
writer's new password: every wallet decrypts under its new key to the old
bytes.  The first writer's password silently stops working. -/
theorem c7_rekey_concurrency_amended (env : Env) (store : List UserDoc)
    (username password npA npB newSaltA newSaltB newHashA newHashB ivPA ivPB : List Nat)
    (ivWA ivWB : Nat → List Nat) (user : UserDoc)
    (hfind : findOne store username = some user)
    (hbc : env.bcryptCheck password user.password = true)
    (hnewA : (hexDecodeLax (env.derive npA newSaltA)).length = 32)
    (hnewB : (hexDecodeLax (env.derive npB newSaltB)).length = 32)
    (hivPA : ivPA.length = 16 ∧ ∀ z ∈ ivPA, z < 256)
    (hivPB : ivPB.length = 16 ∧ ∀ z ∈ ivPB, z < 256)
    (hivWA : ∀ i, (ivWA i).length = 16 ∧ ∀ z ∈ ivWA i, z < 256)
    (hivWB : ∀ i, (ivWB i).length = 16 ∧ ∀ z ∈ ivWB i, z < 256) :
    ∀ m wsA wsB,
      decryptPrivateKey user.recoveryPhrase (env.derive password user.salt) = some m →
      reencryptWallets (env.derive password user.salt) (env.derive npA newSaltA) ivWA
        user.wallets 0 = some wsA →
      reencryptWallets (env.derive password user.salt) (env.derive npB newSaltB) ivWB
        user.wallets 0 = some wsB →
      (recoverWalletFromPhrase env store username password (some npA) newSaltA newHashA
          ivPA ivWA =
        ({ status := 200,
           message := strLit "Wallet recovered and password updated successfully" },
          saveUser store { user with
            password := newHashA
            salt := newSaltA
            recoveryPhrase := hexEncode ivPA ++ 58 :: hexEncode
              (aesCbcEncrypt (hexDecodeLax (env.derive npA newSaltA)) ivPA m)
            wallets := wsA })) ∧
      (recoverWalletFromPhrase env store username password (some npB) newSaltB newHashB
          ivPB ivWB =
        ({ status := 200,
           message := strLit "Wallet recovered and password updated successfully" },
          saveUser store { user with
            password := newHashB
            salt := newSaltB
            recoveryPhrase := hexEncode ivPB ++ 58 :: hexEncode
              (aesCbcEncrypt (hexDecodeLax (env.derive npB newSaltB)) ivPB m)
            wallets := wsB })) ∧
      (saveUser (saveUser store { user with
            password := newHashA
            salt := newSaltA
            recoveryPhrase := hexEncode ivPA ++ 58 :: hexEncode
              (aesCbcEncrypt (hexDecodeLax (env.derive npA newSaltA)) ivPA m)
            wallets := wsA })
          { user with
            password := newHashB
            salt := newSaltB
            recoveryPhrase := hexEncode ivPB ++ 58 :: hexEncode
              (aesCbcEncrypt (hexDecodeLax (env.derive npB newSaltB)) ivPB m)
            wallets := wsB } =
        saveUser store { user with
            password := newHashB
            salt := newSaltB
            recoveryPhrase := hexEncode ivPB ++ 58 :: hexEncode
              (aesCbcEncrypt (hexDecodeLax (env.derive npB newSaltB)) ivPB m)
            wallets := wsB }) ∧
      (∀ j, j < user.wallets.length →
        ∃ pt, decryptPrivateKey (user.wallets.getD j default).privateKey
            (env.derive password user.salt) = some pt ∧
          decryptPrivateKey (wsB.getD j default).privateKey (env.derive npB newSaltB) =
            some pt) := by
  intro m wsA wsB hm hreA hreB
  have hA := rwp_success env store username password npA newSaltA newHashA
    ivPA ivWA user hfind hbc hnewA hivPA hivWA m wsA hm hreA
  have hB := rwp_success env store username password npB newSaltB newHashB
    ivPB ivWB user hfind hbc hnewB hivPB hivWB m wsB hm hreB
  refine ⟨hA.1, hB.1, saveUser_last_write rfl, ?_⟩
  intro j hj
  exact (hB.2.2.2 j hj).2.2

/-- C7 witness: the second of two interleaved re-keyings at a concrete
store, with its concrete single-save outcome. -/
theorem c7_rekey_concurrency_amended_witness :
    recoverWalletFromPhrase c1Env [c1User] (strLit "alice") (strLit "p1") (some (strLit "p3"))
        (strLit "nt") (strLit "hash-p3") c1IvA (fun _ => c1IvA) =
      ({ status := 200,
         message := strLit "Wallet recovered and password updated successfully" },
        saveUser [c1User] { c1User with
          password := strLit "hash-p3"
          salt := strLit "nt"
          recoveryPhrase := hexEncode c1IvA ++ 58 :: hexEncode (aesCbcEncrypt
            (hexDecodeLax (c1Env.derive (strLit "p3") (strLit "nt"))) c1IvA (strLit "mn"))
          wallets := c1WS2 }) := by
  have h := c7_rekey_concurrency_amended c1Env [c1User] (strLit "alice") (strLit "p1")
    (strLit "p2") (strLit "p3") (strLit "ns") (strLit "nt") (strLit "hash-p2")
    (strLit "hash-p3") c1IvA c1IvA (fun _ => c1IvA) (fun _ => c1IvA) c1User
    (by decide) (by decide) (by decide) (by decide) c1IvA_ok c1IvA_ok
    (fun i => c1IvA_ok) (fun i => c1IvA_ok)
    (strLit "mn") c1WS2 c1WS2 (by decide) (by decide) (by decide)
  exact h.2.1

/-- C7 counterexample: two re-keying requests that both read the same
stored user — the interleaving the claim says cannot happen — BOTH answer
200; neither fails with a `ConflictError` (the handler has no such answer
at all). -/
theorem c7_rekey_concurrency_counterexample :
    (recoverWalletFromPhrase c1Env [c1User] (strLit "alice") (strLit "p1")
        (some (strLit "p2")) (strLit "ns") (strLit "hash-p2") c1IvA
        (fun _ => c1IvA)).1.status = 200 ∧
    (recoverWalletFromPhrase c1Env [c1User] (strLit "alice") (strLit "p1")
        (some (strLit "p3")) (strLit "nt") (strLit "hash-p3") c1IvA
        (fun _ => c1IvA)).1.status = 200 := by
  refine ⟨by decide, by decide⟩

/-- C9 amended: what the address book does guarantee.  (1) Unknown chain
identifiers fail closed: `addAddressBookEntry` rejects them with 400 and
writes nothing.  (2) An entry whose (address, blockchain) pair EXACTLY
equals an existing entry's is always rejected with 400 and nothing is
written (whether the reported reason is the duplicate or an invalid
format).  (3) In the batch loop an entry whose lower-cased chain is
unsupported is added to the invalid list and never to the valid list.
(4) When the `blockchain` field is already lower-case "ethereum", a valid
non-book address is accepted on first occurrence and rejected as
"Duplicate address in batch" on an exact second occurrence.  (The claim's
stronger promise — rejection of a differently-CASED copy — is false: both
duplicate checks compare raw strings; see the counterexample.) -/
theorem c9_addressbook_validation_amended (env : Env) (store : List UserDoc)
    (userId label address blockchain notes : List Nat) (user : UserDoc)
    (hfind : findOne store userId = some user) :
    (blockchain ≠ strLit "ethereum" → blockchain ≠ strLit "solana" →
      addAddressBookEntry env store userId label address blockchain notes =
        ({ status := 400,
           message := strLit "Invalid " ++ blockchain ++ strLit " address format" }, store)) ∧
    ((∃ e ∈ user.addressBook, e.address = address ∧ e.blockchain = blockchain) →
      (addAddressBookEntry env store userId label address blockchain notes).1.status = 400 ∧
      (addAddressBookEntry env store userId label address blockchain notes).2 = store) ∧
    (∀ book acc entry,
      ¬ (entry.label = [] ∨ entry.address = [] ∨ entry.blockchain = []) →
      lowerStr entry.blockchain ≠ strLit "ethereum" →
      lowerStr entry.blockchain ≠ strLit "solana" →
      batchStep env book acc entry =
        (acc.1, acc.2 ++ [(entry, strLit "Invalid blockchain")])) ∧
    (∀ book acc entry,
      ¬ (entry.label = [] ∨ entry.address = [] ∨ entry.blockchain = []) →
      lowerStr entry.blockchain = strLit "ethereum" →
      ethIsAddress env.ethChecksum entry.address = true →
      (book.find? (fun e =>
        e.address == entry.address && e.blockchain == entry.blockchain)).isSome = false →
      (((acc.1.find? (fun e =>
          e.address == entry.address && e.blockchain == entry.blockchain)).isSome = true →
        batchStep env book acc entry =
          (acc.1, acc.2 ++ [(entry, strLit "Duplicate address in batch")])) ∧
       ((acc.1.find? (fun e =>
          e.address == entry.address && e.blockchain == entry.blockchain)).isSome = false →
        batchStep env book acc entry =
          (acc.1 ++ [ABEntry.mk entry.label entry.address (lowerStr entry.blockchain)
            entry.notes], acc.2)))) := by
  refine ⟨?_, ?_, ?_, ?_⟩
  · intro h1 h2
    simp [addAddressBookEntry, hfind, h1, h2]
  · intro hdup
    obtain ⟨e, he, hea, heb⟩ := hdup
    have hsome : (user.addressBook.find? (fun e =>
        e.address == address && e.blockchain == blockchain)).isSome := by
      rw [List.find?_isSome]
      exact ⟨e, he, by simp [hea, heb]⟩
    obtain ⟨y, hy⟩ := Option.isSome_iff_exists.mp hsome
    constructor
    · simp [addAddressBookEntry, hfind, hy]
      split <;> first | rfl | (split <;> rfl)
    · simp [addAddressBookEntry, hfind, hy]
      split <;> first | rfl | (split <;> rfl)
  · intro book acc entry h1 h2 h3
    obtain ⟨v, ivn⟩ := acc
    simp [batchStep, h1, h2, h3]
  · intro book acc entry h1 h2 h3 h4
    obtain ⟨v, ivn⟩ := acc
    constructor
    · intro h5
      simp [batchStep, h1, h2, h3, h4, h5]
    · intro h5
      simp [batchStep, h1, h2, h3, h4, h5]

/-- C9 witness: an unsupported chain identifier is rejected fail-closed at
a concrete store. -/
theorem c9_addressbook_validation_amended_witness :
    addAddressBookEntry c9Env [c9User] (strLit "carol") (strLit "l") c9AddrLower
        (strLit "bitcoin") [] =
      ({ status := 400,
         message := strLit "Invalid " ++ strLit "bitcoin" ++ strLit " address format" },
        [c9User]) := by
  exact (c9_addressbook_validation_amended c9Env [c9User] (strLit "carol") (strLit "l")
    c9AddrLower (strLit "bitcoin") [] c9User (by decide)).1 (by decide) (by decide)

/-- C9 counterexample: (a) the upper-cased copy of an Ethereum address
already present in the book (in lower case) is ACCEPTED with 201 — both
duplicate checks compare raw strings; (b) a batch holding the same new
entry twice, its chain written "Ethereum", inserts BOTH copies (the stored
copy's chain is lower-cased but the in-batch duplicate check compares the
raw field), rejecting neither. -/
theorem c9_addressbook_counterexample :
    (addAddressBookEntry c9Env [c9User] (strLit "carol") (strLit "b") c9AddrUpper
        (strLit "ethereum") []).1.status = 201 ∧
    lowerStr c9AddrUpper = c9AddrLower ∧
    (∃ e ∈ c9User.addressBook, e.address = c9AddrLower ∧
      e.blockchain = strLit "ethereum") ∧
    (addBatchAddressBookEntries c9Env [c9User] (strLit "carol")
        [c9BatchEntry, c9BatchEntry]).2.1 = 2 ∧
    (addBatchAddressBookEntries c9Env [c9User] (strLit "carol")
        [c9BatchEntry, c9BatchEntry]).2.2.1 = [] := by
  refine ⟨by decide, by decide, ⟨ABEntry.mk (strLit "a") c9AddrLower (strLit "ethereum") [],
    by decide, by decide, by decide⟩, by decide, by decide⟩

/-! ## Wallet-registry counting lemmas (claim C2) -/

theorem setDefaultAt_length : ∀ (ws : List Wallet) (i : Nat),
    (setDefaultAt ws i).length = ws.length
  | [], _ => rfl
  | _ :: _, 0 => rfl
  | w :: ws, n + 1 => by simp [setDefaultAt, setDefaultAt_length ws n]

theorem getD_map_wallet (f : Wallet → Wallet) :
    ∀ (ws : List Wallet) (j : Nat), j < ws.length →
      (ws.map f).getD j default = f (ws.getD j default)
  | [], j, h => absurd h (by simp)
  | w :: ws, 0, _ => rfl
  | w :: ws, j + 1, h => by
    simpa using getD_map_wallet f ws j (by simpa using h)

theorem setDefaultAt_getD :
    ∀ (ws : List Wallet) (i j : Nat), j < ws.length →
      (setDefaultAt ws i).getD j default =
        if j = i then { ws.getD i default with isDefault := true } else ws.getD j default
  | [], _, j, h => absurd h (by simp)
  | w :: ws, 0, 0, _ => rfl
  | w :: ws, 0, j + 1, h => by simp [setDefaultAt]
  | w :: ws, i + 1, 0, _ => by simp [setDefaultAt]
  | w :: ws, i + 1, j + 1, h => by
    have ih := setDefaultAt_getD ws i j (by simpa using h)
    simp only [setDefaultAt, List.getD_cons_succ, ih]
    by_cases hj : j = i <;> simp [hj]

theorem countP_setDefaultAt_chain (c : List Nat) :
    ∀ (ws : List Wallet) (i : Nat),
      (setDefaultAt ws i).countP (fun w => w.blockchain == c) =
        ws.countP (fun w => w.blockchain == c)
  | [], _ => rfl
  | w :: ws, 0 => by simp [setDefaultAt, List.countP_cons]
  | w :: ws, i + 1 => by
    simp [setDefaultAt, List.countP_cons, countP_setDefaultAt_chain c ws i]

theorem countP_setDefaultAt_default (c : List Nat) :
    ∀ (ws : List Wallet) (i : Nat), i < ws.length →
      (((ws.getD i default).blockchain == c) && (ws.getD i default).isDefault) = false →
      (setDefaultAt ws i).countP (fun w => w.blockchain == c && w.isDefault) =
        ws.countP (fun w => w.blockchain == c && w.isDefault) +
          (if ((ws.getD i default).blockchain == c) = true then 1 else 0)
  | [], i, h, _ => absurd h (by simp)
  | w :: ws, 0, _, hq => by
    cases hwc : (w.blockchain == c) <;>
      simp_all [setDefaultAt, List.countP_cons]
  | w :: ws, i + 1, h, hq => by
    have ih := countP_setDefaultAt_default c ws i (by simpa using h) (by simpa using hq)
    simp only [setDefaultAt, List.countP_cons, List.getD_cons_succ, ih]
    exact Nat.add_right_comm _ _ _

theorem countP_cleared_chain (bc c : List Nat) (ws : List Wallet) :
    ((ws.map (fun w => if w.blockchain == bc then { w with isDefault := false } else w)).countP
      (fun w => w.blockchain == c)) = ws.countP (fun w => w.blockchain == c) := by
  rw [List.countP_map]
  apply List.countP_congr
  intro w _
  by_cases hw : w.blockchain == bc <;> simp [Function.comp, hw]

theorem countP_cleared_default_self (bc : List Nat) (ws : List Wallet) :
    ((ws.map (fun w => if w.blockchain == bc then { w with isDefault := false } else w)).countP
      (fun w => w.blockchain == bc && w.isDefault)) = 0 := by
  rw [List.countP_map, List.countP_eq_zero]
  intro w _
  by_cases hw : w.blockchain == bc <;> simp [Function.comp, hw]

theorem countP_cleared_default_other (bc c : List Nat) (hc : (bc == c) = false)
    (ws : List Wallet) :
    ((ws.map (fun w => if w.blockchain == bc then { w with isDefault := false } else w)).countP
      (fun w => w.blockchain == c && w.isDefault)) =
      ws.countP (fun w => w.blockchain == c && w.isDefault) := by
  rw [List.countP_map]
  apply List.countP_congr
  intro w _
  by_cases hw : w.blockchain == bc
  · have hwb := eq_of_beq hw
    simp [Function.comp, hw, hwb, hc]
  · simp [Function.comp, hw]

theorem findIdx?_wallet_spec (p : Wallet → Bool) :
    ∀ (ws : List Wallet) (i j : Nat), List.findIdx? p ws i = some j →
      i ≤ j ∧ j - i < ws.length ∧ p (ws.getD (j - i) default) = true
  | [], i, j, h => by simp at h
  | w :: ws, i, j, h => by
    rw [List.findIdx?_cons] at h
    by_cases hw : p w = true
    · rw [if_pos hw] at h
      obtain rfl := Option.some.inj h
      exact ⟨Nat.le_refl _, by simp, by simpa using hw⟩
    · rw [if_neg hw] at h
      obtain ⟨h1, h2, h3⟩ := findIdx?_wallet_spec p ws (i + 1) j h
      refine ⟨by omega, by simp; omega, ?_⟩
      have hji : j - i = (j - (i + 1)) + 1 := by omega
      rw [hji]
      simpa using h3

theorem chainCount_countP (u : UserDoc) (c : List Nat) :
    chainCount u c = u.wallets.countP (fun w => w.blockchain == c) :=
  (List.countP_eq_length_filter _ _).symm

theorem defaultCount_countP (u : UserDoc) (c : List Nat) :
    defaultCount u c = u.wallets.countP (fun w => w.blockchain == c && w.isDefault) :=
  (List.countP_eq_length_filter _ _).symm

theorem goodDoc_register (username hashedPassword salt encPhrase ethAddress encEth
    solAddress encSol : List Nat) (book : List ABEntry) :
    GoodDoc { username := username, password := hashedPassword, salt := salt,
              recoveryPhrase := encPhrase,
              wallets := [Wallet.mk (strLit "ethereum") ethAddress encEth true
                  (strLit "Default ETH Wallet"),
                Wallet.mk (strLit "solana") solAddress encSol true
                  (strLit "Default SOL Wallet")],
              addressBook := book } := by
  have hee : (strLit "ethereum" == strLit "ethereum") = true := by decide
  have hse : (strLit "solana" == strLit "ethereum") = false := by decide
  have hes : (strLit "ethereum" == strLit "solana") = false := by decide
  have hss : (strLit "solana" == strLit "solana") = true := by decide
  refine ⟨?_, ?_, ?_⟩
  · simp [chainCount, List.filter, hee, hse]
  · simp [chainCount, List.filter, hes, hss]
  · intro c
    by_cases he : strLit "ethereum" == c
    · by_cases hs : strLit "solana" == c
      · exact absurd ((eq_of_beq he).trans (eq_of_beq hs).symm) (by decide)
      · simp [defaultCount, chainCount, List.filter, he, hs]
    · by_cases hs : strLit "solana" == c
      · simp [defaultCount, chainCount, List.filter, he, hs]
      · simp [defaultCount, chainCount, List.filter, he, hs]

theorem goodDoc_append_nondefault (user : UserDoc) (hg : GoodDoc user) (nw : Wallet)
    (hnd : nw.isDefault = false)
    (hbc : nw.blockchain = strLit "ethereum" ∨ nw.blockchain = strLit "solana") :
    GoodDoc { user with wallets := user.wallets ++ [nw] } := by
  have hcc : ∀ c, chainCount { user with wallets := user.wallets ++ [nw] } c =
      chainCount user c + (if nw.blockchain == c then 1 else 0) := by
    intro c
    simp only [chainCount, List.filter_append, List.length_append]
    congr 1
    by_cases hb : nw.blockchain == c <;> simp [List.filter, hb]
  have hdc : ∀ c, defaultCount { user with wallets := user.wallets ++ [nw] } c =
      defaultCount user c := by
    intro c
    simp only [defaultCount, List.filter_append, List.length_append]
    simp [List.filter, hnd]
  refine ⟨?_, ?_, ?_⟩
  · rw [hcc]
    exact le_trans hg.1 (Nat.le_add_right _ _)
  · rw [hcc]
    exact le_trans hg.2.1 (Nat.le_add_right _ _)
  · intro c
    rw [hdc, hcc]
    by_cases hb : nw.blockchain == c
    · have hc1 : 1 ≤ chainCount user c := by
        have hcb := eq_of_beq hb
        rcases hbc with h | h
        · rw [← hcb, h]
          exact hg.1
        · rw [← hcb, h]
          exact hg.2.1
      have h1 : (if nw.blockchain == c then 1 else 0) = 1 := by simp [hb]
      rw [hg.2.2 c, if_pos hc1, h1, if_pos (by omega)]
    · have h0 : (if nw.blockchain == c then 1 else 0) = 0 := by simp [hb]
      rw [h0, Nat.add_zero, hg.2.2 c]

theorem goodDoc_setDefault (user : UserDoc) (hg : GoodDoc user)
    (walletAddress bc : List Nat) (i : Nat) (hi : i < user.wallets.length)
    (hpi : (((user.wallets.getD i default).address == walletAddress) &&
      ((user.wallets.getD i default).blockchain == bc)) = true) :
    GoodDoc { user with wallets := setDefaultAt (user.wallets.map
      (fun w => if w.blockchain == bc then { w with isDefault := false } else w)) i } := by
  have hbi : ((user.wallets.getD i default).blockchain == bc) = true :=
    ((Bool.and_eq_true _ _).mp hpi).2
  have hilen : i < (user.wallets.map (fun w =>
      if w.blockchain == bc then { w with isDefault := false } else w)).length := by
    simpa using hi
  have hgd : (user.wallets.map (fun w =>
      if w.blockchain == bc then { w with isDefault := false } else w)).getD i default =
      { user.wallets.getD i default with isDefault := false } := by
    rw [getD_map_wallet _ _ i hi, if_pos hbi]
  have hmem : user.wallets.getD i default ∈ user.wallets := by
    rw [List.getD_eq_getElem user.wallets default hi]
    exact List.getElem_mem hi
  have hcc : ∀ c, chainCount { user with wallets := setDefaultAt (user.wallets.map
      (fun w => if w.blockchain == bc then { w with isDefault := false } else w)) i } c =
      chainCount user c := by
    intro c
    rw [chainCount_countP, chainCount_countP]
    show (setDefaultAt _ i).countP _ = _
    rw [countP_setDefaultAt_chain c (user.wallets.map
      (fun w => if w.blockchain == bc then { w with isDefault := false } else w)) i]
    exact countP_cleared_chain bc c user.wallets
  refine ⟨?_, ?_, ?_⟩
  · rw [hcc]
    exact hg.1
  · rw [hcc]
    exact hg.2.1
  · intro c
    have hqf : ((((user.wallets.map (fun w => if w.blockchain == bc then
        { w with isDefault := false } else w)).getD i default).blockchain == c) &&
        ((user.wallets.map (fun w => if w.blockchain == bc then
          { w with isDefault := false } else w)).getD i default).isDefault) = false := by
      rw [hgd]
      exact Bool.and_false _
    have h5 : (((user.wallets.map (fun w => if w.blockchain == bc then
        { w with isDefault := false } else w)).getD i default).blockchain == c) =
        ((user.wallets.getD i default).blockchain == c) := by
      rw [hgd]
    rw [defaultCount_countP]
    show (setDefaultAt _ i).countP _ = _
    rw [countP_setDefaultAt_default c (user.wallets.map
      (fun w => if w.blockchain == bc then { w with isDefault := false } else w)) i
      hilen hqf, h5]
    cases hc : ((user.wallets.getD i default).blockchain == c) with
    | true =>
      have hcbc : bc = c := (eq_of_beq hbi).symm.trans (eq_of_beq hc)
      subst hcbc
      rw [countP_cleared_default_self bc user.wallets, if_pos rfl, hcc]
      have hpos : 1 ≤ chainCount user bc := by
        rw [chainCount_countP]
        exact List.countP_pos_iff.mpr ⟨_, hmem, hbi⟩
      rw [if_pos hpos]
    | false =>
      have hbcc : (bc == c) = false := by
        rw [← eq_of_beq hbi]
        exact hc
      rw [countP_cleared_default_other bc c hbcc user.wallets,
        if_neg (by simp), Nat.add_zero, hcc, ← defaultCount_countP, hg.2.2 c]

theorem mem_saveUser {store : List UserDoc} {u v : UserDoc}
    (h : v ∈ saveUser store u) : v = u ∨ v ∈ store := by
  unfold saveUser at h
  obtain ⟨w, hw, hv⟩ := List.mem_map.mp h
  by_cases hww : w.username == u.username
  · left
    rw [← hv, if_pos hww]
  · right
    rw [← hv, if_neg hww]
    exact hw

theorem applyOp_good (env : Env) (store : List UserDoc) (op : WOp)
    (h : ∀ u ∈ store, GoodDoc u) : ∀ u ∈ applyOp env store op, GoodDoc u := by
  cases op with
  | register username password salt hashedPassword mnemonic ethAddress ethPrivateKey
      solAddress solSecretKey ivEth ivSol ivPhrase =>
    cases hf : findOne store username with
    | some u0 =>
      intro u hu
      exact h u (by simpa [applyOp, registerUser, hf] using hu)
    | none =>
      cases he1 : encryptPrivateKey ethPrivateKey (env.derive password salt) ivEth with
      | none =>
        intro u hu
        exact h u (by simpa [applyOp, registerUser, hf, he1] using hu)
      | some encEth =>
        cases he2 : encryptPrivateKey (utf8Encode (utf8DecodeCP solSecretKey))
            (env.derive password salt) ivSol with
        | none =>
          intro u hu
          exact h u (by simpa [applyOp, registerUser, hf, he1, he2] using hu)
        | some encSol =>
          cases he3 : encryptPrivateKey mnemonic (env.derive password salt) ivPhrase with
          | none =>
            intro u hu
            exact h u (by simpa [applyOp, registerUser, hf, he1, he2, he3] using hu)
          | some encPhrase =>
            intro u hu
            have hu2 := hu
            simp only [applyOp, registerUser, hf, he1, he2, he3, List.mem_append,
              List.mem_singleton] at hu2
            rcases hu2 with h1 | h1
            · exact h u h1
            · subst h1
              exact goodDoc_register username hashedPassword salt encPhrase ethAddress
                encEth solAddress encSol []
  | addWallet userId blockchain label password ethAddress ethPrivateKey solAddress
      solSecretKey iv =>
    cases hf : findOne store userId with
    | none =>
      intro u hu
      exact h u (by simpa [applyOp, createAdditionalWallet, hf] using hu)
    | some user =>
      have hgu : GoodDoc user := h user (List.mem_of_find?_eq_some hf)
      by_cases hbe : lowerStr blockchain = strLit "ethereum"
      · cases he : encryptPrivateKey ethPrivateKey (env.derive password user.salt) iv with
        | none =>
          intro u hu
          exact h u (by simpa [applyOp, createAdditionalWallet, hf, hbe, he] using hu)
        | some enc =>
          intro u hu
          have hu2 := hu
          simp only [applyOp, createAdditionalWallet, hf, hbe, he] at hu2
          rcases mem_saveUser hu2 with h1 | h1
          · subst h1
            exact goodDoc_append_nondefault user hgu _ rfl (Or.inl rfl)
          · exact h u h1
      · by_cases hbs : lowerStr blockchain = strLit "solana"
        · cases he : encryptPrivateKey (utf8Encode (utf8DecodeCP solSecretKey))
              (env.derive password user.salt) iv with
          | none =>
            intro u hu
            exact h u (by simpa [applyOp, createAdditionalWallet, hf, hbe, hbs, he] using hu)
          | some enc =>
            intro u hu
            have hu2 := hu
            simp only [applyOp, createAdditionalWallet, hf, hbe, hbs, he] at hu2
            rcases mem_saveUser hu2 with h1 | h1
            · subst h1
              exact goodDoc_append_nondefault user hgu _ rfl (Or.inr rfl)
            · exact h u h1
        · intro u hu
          exact h u (by simpa [applyOp, createAdditionalWallet, hf, hbe, hbs] using hu)
  | setDefault userId walletAddress blockchain =>
    cases hf : findOne store userId with
    | none =>
      intro u hu
      exact h u (by simpa [applyOp, setDefaultWallet, hf] using hu)
    | some user =>
      have hgu : GoodDoc user := h user (List.mem_of_find?_eq_some hf)
      cases hidx : user.wallets.findIdx? (fun w => w.address == walletAddress &&
          w.blockchain == blockchain) with
      | none =>
        intro u hu
        exact h u (by simpa [applyOp, setDefaultWallet, hf, hidx] using hu)
      | some i =>
        obtain ⟨-, h2, h3⟩ := findIdx?_wallet_spec _ user.wallets 0 i hidx
        intro u hu
        have hu2 := hu
        simp only [applyOp, setDefaultWallet, hf, hidx] at hu2
        rcases mem_saveUser hu2 with h1 | h1
        · subst h1
          exact goodDoc_setDefault user hgu walletAddress blockchain i (by simpa using h2)
            (by simpa using h3)
        · exact h u h1

theorem runOps_good (env : Env) : ∀ (ops : List WOp) (store : List UserDoc),
    (∀ u ∈ store, GoodDoc u) → ∀ u ∈ ops.foldl (applyOp env) store, GoodDoc u
  | [], store, h => by simpa using h
  | op :: ops, store, h => by
    simp only [List.foldl_cons]
    exact runOps_good env ops (applyOp env store op) (applyOp_good env store op h)

/-- C2: `setDefaultWallet` answers 404 and leaves the store untouched when
no wallet of the user matches (address, blockchain); on a match it saves,
in one single update, the wallet list in which every wallet of that chain
is cleared and the match alone is set default; and every state reachable
from the empty store by any sequence of `registerUser`,
`createAdditionalWallet` and `setDefaultWallet` calls satisfies the
per-(user, chain) default invariant: exactly one default wallet whenever
the chain has at least one wallet, none otherwise. -/
theorem c2_default_invariant (env : Env) :
    (∀ store userId walletAddress blockchain user,
      findOne store userId = some user →
      user.wallets.findIdx? (fun w => w.address == walletAddress &&
        w.blockchain == blockchain) = none →
      setDefaultWallet store userId walletAddress blockchain =
        ({ status := 404, message := strLit "Wallet not found" }, store)) ∧
    (∀ store userId walletAddress blockchain user i,
      findOne store userId = some user →
      user.wallets.findIdx? (fun w => w.address == walletAddress &&
        w.blockchain == blockchain) = some i →
      setDefaultWallet store userId walletAddress blockchain =
        ({ status := 200, message := strLit "Default wallet updated successfully" },
          saveUser store { user with
            wallets := setDefaultAt (user.wallets.map
                (fun w => if w.blockchain == blockchain then { w with isDefault := false }
                  else w)) i }) ∧
      (∀ j, j < user.wallets.length →
        (setDefaultAt (user.wallets.map (fun w => if w.blockchain == blockchain then
          { w with isDefault := false } else w)) i).getD j default =
          (if j = i then { user.wallets.getD i default with isDefault := true }
            else if (user.wallets.getD j default).blockchain == blockchain then
              { user.wallets.getD j default with isDefault := false }
            else user.wallets.getD j default))) ∧
    (∀ ops : List WOp, ∀ u ∈ runOps env ops, defaultInvariant u) := by
  refine ⟨?_, ?_, ?_⟩
  · intro store userId walletAddress blockchain user hfind hidx
    simp [setDefaultWallet, hfind, hidx]
  · intro store userId walletAddress blockchain user i hfind hidx
    obtain ⟨-, h2, h3⟩ := findIdx?_wallet_spec _ user.wallets 0 i hidx
    have hi : i < user.wallets.length := by simpa using h2
    have h3' : ((user.wallets.getD i default).address == walletAddress &&
        (user.wallets.getD i default).blockchain == blockchain) = true := by
      simpa using h3
    have hbi := ((Bool.and_eq_true _ _).mp h3').2
    constructor
    · simp [setDefaultWallet, hfind, hidx]
    · intro j hj
      have hjlen : j < (user.wallets.map (fun w => if w.blockchain == blockchain then
          { w with isDefault := false } else w)).length := by
        simpa using hj
      rw [setDefaultAt_getD _ i j hjlen]
      by_cases hji : j = i
      · subst hji
        rw [if_pos rfl, if_pos rfl, getD_map_wallet _ _ j hj]
        have hfj : (fun w => if w.blockchain == blockchain then
            ({ w with isDefault := false } : Wallet) else w) (user.wallets.getD j default) =
            { user.wallets.getD j default with isDefault := false } := if_pos hbi
        exact congrArg (fun x => ({ x with isDefault := true } : Wallet)) hfj
      · rw [if_neg hji, if_neg hji, getD_map_wallet _ _ j hj]
  · intro ops u hu
    exact (runOps_good env ops [] (by simp) u hu).2.2

/-- C2 witness: the miss and invariant guarantees at a concrete store. -/
theorem c2_default_invariant_witness :
    setDefaultWallet [c2User] (strLit "dave") (strLit "0xZZ") (strLit "ethereum") =
      ({ status := 404, message := strLit "Wallet not found" }, [c2User]) := by
  exact (c2_default_invariant c2Env).1 [c2User] (strLit "dave") (strLit "0xZZ")
    (strLit "ethereum") c2User (by decide) (by decide)

/-! ## UTF-8 decode/encode specification and the Solana secret-key parse (claim C3) -/

theorem utf8DecodeF_spec : ∀ (fuel : Nat) (bs : List Nat), bs.length ≤ fuel →
    (utf8DecodeF fuel bs).count 44 = bs.count 44 ∧
    (utf8DecodeF fuel bs).length ≤ bs.length ∧
    (∀ c ∈ utf8DecodeF fuel bs, validCP c)
  | 0, bs, h => by
    have hbs : bs = [] := List.eq_nil_of_length_eq_zero (Nat.le_zero.mp h)
    subst hbs
    exact ⟨rfl, Nat.le_refl _, by intro c hc; simp [utf8DecodeF] at hc⟩
  | fuel + 1, [], _ => ⟨rfl, Nat.le_refl _, by intro c hc; simp [utf8DecodeF] at hc⟩
  | fuel + 1, b :: rest, h => by
    have hr : rest.length ≤ fuel := by simpa using h
    by_cases h1 : b < 0x80
    · have heq : utf8DecodeF (fuel + 1) (b :: rest) = b :: utf8DecodeF fuel rest := by
        simp [utf8DecodeF, h1]
      obtain ⟨ih1, ih2, ih3⟩ := utf8DecodeF_spec fuel rest hr
      rw [heq]
      refine ⟨?_, ?_, ?_⟩
      · rw [List.count_cons, List.count_cons, ih1]
      · simpa using Nat.succ_le_succ ih2
      · intro c hc
        rcases List.mem_cons.mp hc with rfl | hc
        · exact ⟨by omega, by omega⟩
        · exact ih3 c hc
    · by_cases h2 : 0xC2 ≤ b ∧ b ≤ 0xDF
      · match rest, hr with
        | [], _ =>
          have heq : utf8DecodeF (fuel + 1) [b] = [0xFFFD] := by
            simp [utf8DecodeF, h1, h2]
          rw [heq]
          refine ⟨?_, by simp, ?_⟩
          · rw [List.count_cons, List.count_cons, List.count_nil, if_neg (by simp only [beq_iff_eq]; omega),
              if_neg (by simp only [beq_iff_eq]; omega)]
          · intro c hc
            rcases List.mem_singleton.mp hc with rfl
            exact ⟨by omega, by omega⟩
        | b2 :: rest2, hr =>
          have hr2 : rest2.length ≤ fuel := by simp at hr; omega
          by_cases h3 : 0x80 ≤ b2 ∧ b2 ≤ 0xBF
          · have heq : utf8DecodeF (fuel + 1) (b :: b2 :: rest2) =
                ((b - 0xC0) * 64 + (b2 - 0x80)) :: utf8DecodeF fuel rest2 := by
              simp [utf8DecodeF, h1, h2, h3]
            obtain ⟨ih1, ih2, ih3⟩ := utf8DecodeF_spec fuel rest2 hr2
            rw [heq]
            refine ⟨?_, ?_, ?_⟩
            · rw [List.count_cons, List.count_cons, List.count_cons, ih1,
                if_neg (by simp only [beq_iff_eq]; omega), if_neg (by simp only [beq_iff_eq]; omega), if_neg (by simp only [beq_iff_eq]; omega)]
            · simp only [List.length_cons]
              omega
            · intro c hc
              rcases List.mem_cons.mp hc with rfl | hc
              · exact ⟨by omega, by omega⟩
              · exact ih3 c hc
          · have heq : utf8DecodeF (fuel + 1) (b :: b2 :: rest2) =
                0xFFFD :: utf8DecodeF fuel (b2 :: rest2) := by
              simp [utf8DecodeF, h1, h2, h3]
            obtain ⟨ih1, ih2, ih3⟩ := utf8DecodeF_spec fuel (b2 :: rest2) hr
            rw [heq]
            refine ⟨?_, ?_, ?_⟩
            · rw [List.count_cons, List.count_cons, ih1, if_neg (by simp only [beq_iff_eq]; omega),
                if_neg (by simp only [beq_iff_eq]; omega)]
            · simp only [List.length_cons] at ih2 ⊢
              omega
            · intro c hc
              rcases List.mem_cons.mp hc with rfl | hc
              · exact ⟨by omega, by omega⟩
              · exact ih3 c hc
      · by_cases h4 : 0xE0 ≤ b ∧ b ≤ 0xEF
        · match rest, hr with
          | [], _ =>
            have heq : utf8DecodeF (fuel + 1) [b] = 0xFFFD :: utf8DecodeF fuel [] := by
              simp [utf8DecodeF, h1, h2, h4]
            obtain ⟨ih1, ih2, ih3⟩ := utf8DecodeF_spec fuel [] (Nat.zero_le _)
            rw [heq]
            refine ⟨?_, ?_, ?_⟩
            · rw [List.count_cons, List.count_cons, ih1, if_neg (by simp only [beq_iff_eq]; omega),
                if_neg (by simp only [beq_iff_eq]; omega)]
            · simp only [List.length_cons] at ih2 ⊢
              omega
            · intro c hc
              rcases List.mem_cons.mp hc with rfl | hc
              · exact ⟨by omega, by omega⟩
              · exact ih3 c hc
          | [b2], hr =>
            have heq : utf8DecodeF (fuel + 1) [b, b2] = 0xFFFD :: utf8DecodeF fuel [b2] := by
              simp [utf8DecodeF, h1, h2, h4]
            obtain ⟨ih1, ih2, ih3⟩ := utf8DecodeF_spec fuel [b2] (by simpa using hr)
            rw [heq]
            refine ⟨?_, ?_, ?_⟩
            · rw [List.count_cons, List.count_cons, ih1, if_neg (by simp only [beq_iff_eq]; omega),
                if_neg (by simp only [beq_iff_eq]; omega)]
            · simp only [List.length_cons] at ih2 ⊢
              omega
            · intro c hc
              rcases List.mem_cons.mp hc with rfl | hc
              · exact ⟨by omega, by omega⟩
              · exact ih3 c hc
          | b2 :: b3 :: rest3, hr =>
            have hr3 : rest3.length ≤ fuel := by simp at hr; omega
            by_cases h5 : ((b = 0xE0 ∧ 0xA0 ≤ b2 ∧ b2 ≤ 0xBF) ∨
                (b = 0xED ∧ 0x80 ≤ b2 ∧ b2 ≤ 0x9F) ∨
                (b ≠ 0xE0 ∧ b ≠ 0xED ∧ 0x80 ≤ b2 ∧ b2 ≤ 0xBF)) ∧ 0x80 ≤ b3 ∧ b3 ≤ 0xBF
            · have heq : utf8DecodeF (fuel + 1) (b :: b2 :: b3 :: rest3) =
                  ((b - 0xE0) * 4096 + (b2 - 0x80) * 64 + (b3 - 0x80)) ::
                    utf8DecodeF fuel rest3 := by
                simp [utf8DecodeF, h1, h2, h4, h5]
              obtain ⟨ih1, ih2, ih3⟩ := utf8DecodeF_spec fuel rest3 hr3
              rw [heq]
              refine ⟨?_, ?_, ?_⟩
              · rw [List.count_cons, List.count_cons, List.count_cons, List.count_cons, ih1,
                  if_neg (by simp only [beq_iff_eq]; omega), if_neg (by simp only [beq_iff_eq]; omega), if_neg (by simp only [beq_iff_eq]; omega), if_neg (by simp only [beq_iff_eq]; omega)]
              · simp only [List.length_cons]
                omega
              · intro c hc
                rcases List.mem_cons.mp hc with rfl | hc
                · exact ⟨by omega, by omega⟩
                · exact ih3 c hc
            · have heq : utf8DecodeF (fuel + 1) (b :: b2 :: b3 :: rest3) =
                  0xFFFD :: utf8DecodeF fuel (b2 :: b3 :: rest3) := by
                simp only [utf8DecodeF]
                rw [if_neg h1, if_neg h2, if_pos h4]
                rw [if_neg h5]
              obtain ⟨ih1, ih2, ih3⟩ := utf8DecodeF_spec fuel (b2 :: b3 :: rest3) hr
              rw [heq]
              refine ⟨?_, ?_, ?_⟩
              · rw [List.count_cons, List.count_cons, ih1, if_neg (by simp only [beq_iff_eq]; omega),
                  if_neg (by simp only [beq_iff_eq]; omega)]
              · simp only [List.length_cons] at ih2 ⊢
                omega
              · intro c hc
                rcases List.mem_cons.mp hc with rfl | hc
                · exact ⟨by omega, by omega⟩
                · exact ih3 c hc
        · by_cases h6 : 0xF0 ≤ b ∧ b ≤ 0xF4
          · match rest, hr with
            | [], _ =>
              have heq : utf8DecodeF (fuel + 1) [b] = 0xFFFD :: utf8DecodeF fuel [] := by
                simp [utf8DecodeF, h1, h2, h4, h6]
              obtain ⟨ih1, ih2, ih3⟩ := utf8DecodeF_spec fuel [] (Nat.zero_le _)
              rw [heq]
              refine ⟨?_, ?_, ?_⟩
              · rw [List.count_cons, List.count_cons, ih1, if_neg (by simp only [beq_iff_eq]; omega),
                  if_neg (by simp only [beq_iff_eq]; omega)]
              · simp only [List.length_cons] at ih2 ⊢
                omega
              · intro c hc
                rcases List.mem_cons.mp hc with rfl | hc
                · exact ⟨by omega, by omega⟩
                · exact ih3 c hc
            | [b2], hr =>
              have heq : utf8DecodeF (fuel + 1) [b, b2] =
                  0xFFFD :: utf8DecodeF fuel [b2] := by
                simp [utf8DecodeF, h1, h2, h4, h6]
              obtain ⟨ih1, ih2, ih3⟩ := utf8DecodeF_spec fuel [b2] (by simpa using hr)
              rw [heq]
              refine ⟨?_, ?_, ?_⟩
              · rw [List.count_cons, List.count_cons, ih1, if_neg (by simp only [beq_iff_eq]; omega),
                  if_neg (by simp only [beq_iff_eq]; omega)]
              · simp only [List.length_cons] at ih2 ⊢
                omega
              · intro c hc
                rcases List.mem_cons.mp hc with rfl | hc
                · exact ⟨by omega, by omega⟩
                · exact ih3 c hc
            | [b2, b3], hr =>
              have heq : utf8DecodeF (fuel + 1) [b, b2, b3] =
                  0xFFFD :: utf8DecodeF fuel [b2, b3] := by
                simp [utf8DecodeF, h1, h2, h4, h6]
              obtain ⟨ih1, ih2, ih3⟩ := utf8DecodeF_spec fuel [b2, b3] (by simpa using hr)
              rw [heq]
              refine ⟨?_, ?_, ?_⟩
              · rw [List.count_cons, List.count_cons, ih1, if_neg (by simp only [beq_iff_eq]; omega),
                  if_neg (by simp only [beq_iff_eq]; omega)]
              · simp only [List.length_cons] at ih2 ⊢
                omega
              · intro c hc
                rcases List.mem_cons.mp hc with rfl | hc
                · exact ⟨by omega, by omega⟩
                · exact ih3 c hc
            | b2 :: b3 :: b4 :: rest4, hr =>
              have hr4 : rest4.length ≤ fuel := by simp at hr; omega
              by_cases h7 : ((b = 0xF0 ∧ 0x90 ≤ b2 ∧ b2 ≤ 0xBF) ∨
                  (b = 0xF4 ∧ 0x80 ≤ b2 ∧ b2 ≤ 0x8F) ∨
                  (b ≠ 0xF0 ∧ b ≠ 0xF4 ∧ 0x80 ≤ b2 ∧ b2 ≤ 0xBF)) ∧
                  0x80 ≤ b3 ∧ b3 ≤ 0xBF ∧ 0x80 ≤ b4 ∧ b4 ≤ 0xBF
              · have heq : utf8DecodeF (fuel + 1) (b :: b2 :: b3 :: b4 :: rest4) =
                    ((b - 0xF0) * 0x40000 + (b2 - 0x80) * 4096 + (b3 - 0x80) * 64 +
                      (b4 - 0x80)) :: utf8DecodeF fuel rest4 := by
                  simp [utf8DecodeF, h1, h2, h4, h6, h7]
                obtain ⟨ih1, ih2, ih3⟩ := utf8DecodeF_spec fuel rest4 hr4
                rw [heq]
                refine ⟨?_, ?_, ?_⟩
                · rw [List.count_cons, List.count_cons, List.count_cons, List.count_cons,
                    List.count_cons, ih1, if_neg (by simp only [beq_iff_eq]; omega), if_neg (by simp only [beq_iff_eq]; omega),
                    if_neg (by simp only [beq_iff_eq]; omega), if_neg (by simp only [beq_iff_eq]; omega), if_neg (by simp only [beq_iff_eq]; omega)]
                · simp only [List.length_cons]
                  omega
                · intro c hc
                  rcases List.mem_cons.mp hc with rfl | hc
                  · exact ⟨by omega, by omega⟩
                  · exact ih3 c hc
              · have heq : utf8DecodeF (fuel + 1) (b :: b2 :: b3 :: b4 :: rest4) =
                    0xFFFD :: utf8DecodeF fuel (b2 :: b3 :: b4 :: rest4) := by
                  simp only [utf8DecodeF]
                  rw [if_neg h1, if_neg h2, if_neg h4, if_pos h6]
                  rw [if_neg h7]
                obtain ⟨ih1, ih2, ih3⟩ := utf8DecodeF_spec fuel (b2 :: b3 :: b4 :: rest4) hr
                rw [heq]
                refine ⟨?_, ?_, ?_⟩
                · rw [List.count_cons, List.count_cons, ih1, if_neg (by simp only [beq_iff_eq]; omega),
                    if_neg (by simp only [beq_iff_eq]; omega)]
                · simp only [List.length_cons] at ih2 ⊢
                  omega
                · intro c hc
                  rcases List.mem_cons.mp hc with rfl | hc
                  · exact ⟨by omega, by omega⟩
                  · exact ih3 c hc
          · have heq : utf8DecodeF (fuel + 1) (b :: rest) =
                0xFFFD :: utf8DecodeF fuel rest := by
              simp [utf8DecodeF, h1, h2, h4, h6]
            obtain ⟨ih1, ih2, ih3⟩ := utf8DecodeF_spec fuel rest hr
            rw [heq]
            refine ⟨?_, ?_, ?_⟩
            · rw [List.count_cons, List.count_cons, ih1, if_neg (by simp only [beq_iff_eq]; omega),
                if_neg (by simp only [beq_iff_eq]; omega)]
            · simp only [List.length_cons] at ih2 ⊢
              omega
            · intro c hc
              rcases List.mem_cons.mp hc with rfl | hc
              · exact ⟨by omega, by omega⟩
              · exact ih3 c hc

theorem utf8Encode_lt (cs : List Nat) (hv : ∀ c ∈ cs, validCP c) :
    ∀ b ∈ utf8Encode cs, b < 256 := by
  induction cs with
  | nil => intro b hb; simp [utf8Encode] at hb
  | cons c cs ih =>
    have hvc : validCP c := hv c (List.mem_cons_self c cs)
    have hvcs : ∀ x ∈ cs, validCP x := fun x hx => hv x (List.mem_cons_of_mem c hx)
    obtain ⟨hlt, -⟩ := hvc
    intro b hb
    by_cases hc1 : c < 0x80
    · rw [show utf8Encode (c :: cs) = c :: utf8Encode cs from by simp [utf8Encode, hc1]] at hb
      rcases List.mem_cons.mp hb with rfl | hb
      · omega
      · exact ih hvcs b hb
    · by_cases hc2 : c < 0x800
      · rw [show utf8Encode (c :: cs) = (0xC0 + c / 64) :: (0x80 + c % 64) :: utf8Encode cs
          from by simp [utf8Encode, hc1, hc2]] at hb
        rcases List.mem_cons.mp hb with rfl | hb
        · omega
        rcases List.mem_cons.mp hb with rfl | hb
        · omega
        · exact ih hvcs b hb
      · by_cases hc3 : c < 0x10000
        · rw [show utf8Encode (c :: cs) = (0xE0 + c / 4096) :: (0x80 + c / 64 % 64) ::
            (0x80 + c % 64) :: utf8Encode cs from by simp [utf8Encode, hc1, hc2, hc3]] at hb
          rcases List.mem_cons.mp hb with rfl | hb
          · omega
          rcases List.mem_cons.mp hb with rfl | hb
          · omega
          rcases List.mem_cons.mp hb with rfl | hb
          · omega
          · exact ih hvcs b hb
        · rw [show utf8Encode (c :: cs) = (0xF0 + c / 0x40000) :: (0x80 + c / 4096 % 64) ::
            (0x80 + c / 64 % 64) :: (0x80 + c % 64) :: utf8Encode cs
            from by simp [utf8Encode, hc1, hc2, hc3]] at hb
          rcases List.mem_cons.mp hb with rfl | hb
          · omega
          rcases List.mem_cons.mp hb with rfl | hb
          · omega
          rcases List.mem_cons.mp hb with rfl | hb
          · omega
          rcases List.mem_cons.mp hb with rfl | hb
          · omega
          · exact ih hvcs b hb

theorem utf8Encode_decode : ∀ (cs : List Nat), (∀ c ∈ cs, validCP c) →
    ∀ fuel, (utf8Encode cs).length ≤ fuel → utf8DecodeF fuel (utf8Encode cs) = cs
  | [], _, fuel, _ => by cases fuel <;> rfl
  | c :: cs, hv, fuel, hf => by
    have hvc : validCP c := hv c (List.mem_cons_self c cs)
    have hvcs : ∀ x ∈ cs, validCP x := fun x hx => hv x (List.mem_cons_of_mem c hx)
    obtain ⟨hlt, hsur⟩ := hvc
    by_cases hc1 : c < 0x80
    · have henc : utf8Encode (c :: cs) = c :: utf8Encode cs := by simp [utf8Encode, hc1]
      rw [henc] at hf
      cases fuel with
      | zero => simp at hf
      | succ fuel =>
        rw [henc]
        have hstep : utf8DecodeF (fuel + 1) (c :: utf8Encode cs) =
            c :: utf8DecodeF fuel (utf8Encode cs) := by
          simp [utf8DecodeF, hc1]
        rw [hstep, utf8Encode_decode cs hvcs fuel (by simpa using hf)]
    · by_cases hc2 : c < 0x800
      · have henc : utf8Encode (c :: cs) =
            (0xC0 + c / 64) :: (0x80 + c % 64) :: utf8Encode cs := by
          simp [utf8Encode, hc1, hc2]
        rw [henc] at hf
        cases fuel with
        | zero => simp at hf
        | succ fuel =>
          rw [henc]
          have hA : ¬ (0xC0 + c / 64 < 0x80) := by omega
          have hB : 0xC2 ≤ 0xC0 + c / 64 ∧ 0xC0 + c / 64 ≤ 0xDF := by omega
          have hC : 0x80 ≤ 0x80 + c % 64 ∧ 0x80 + c % 64 ≤ 0xBF := by omega
          have hstep : utf8DecodeF (fuel + 1)
              ((0xC0 + c / 64) :: (0x80 + c % 64) :: utf8Encode cs) =
              ((0xC0 + c / 64 - 0xC0) * 64 + (0x80 + c % 64 - 0x80)) ::
                utf8DecodeF fuel (utf8Encode cs) := by
            simp [utf8DecodeF, hA, hB, hC]
          rw [hstep, show (0xC0 + c / 64 - 0xC0) * 64 + (0x80 + c % 64 - 0x80) = c by omega,
            utf8Encode_decode cs hvcs fuel (by simp at hf; omega)]
      · by_cases hc3 : c < 0x10000
        · have henc : utf8Encode (c :: cs) = (0xE0 + c / 4096) :: (0x80 + c / 64 % 64) ::
              (0x80 + c % 64) :: utf8Encode cs := by
            simp [utf8Encode, hc1, hc2, hc3]
          rw [henc] at hf
          cases fuel with
          | zero => simp at hf
          | succ fuel =>
            rw [henc]
            have hA : ¬ (0xE0 + c / 4096 < 0x80) := by omega
            have hB : ¬ (0xC2 ≤ 0xE0 + c / 4096 ∧ 0xE0 + c / 4096 ≤ 0xDF) := by omega
            have hC : 0xE0 ≤ 0xE0 + c / 4096 ∧ 0xE0 + c / 4096 ≤ 0xEF := by omega
            have hD : ((0xE0 + c / 4096 = 0xE0 ∧ 0xA0 ≤ 0x80 + c / 64 % 64 ∧
                  0x80 + c / 64 % 64 ≤ 0xBF) ∨
                (0xE0 + c / 4096 = 0xED ∧ 0x80 ≤ 0x80 + c / 64 % 64 ∧
                  0x80 + c / 64 % 64 ≤ 0x9F) ∨
                (0xE0 + c / 4096 ≠ 0xE0 ∧ 0xE0 + c / 4096 ≠ 0xED ∧
                  0x80 ≤ 0x80 + c / 64 % 64 ∧ 0x80 + c / 64 % 64 ≤ 0xBF)) ∧
                0x80 ≤ 0x80 + c % 64 ∧ 0x80 + c % 64 ≤ 0xBF := by
              omega
            have hstep : utf8DecodeF (fuel + 1) ((0xE0 + c / 4096) ::
                (0x80 + c / 64 % 64) :: (0x80 + c % 64) :: utf8Encode cs) =
                ((0xE0 + c / 4096 - 0xE0) * 4096 + (0x80 + c / 64 % 64 - 0x80) * 64 +
                  (0x80 + c % 64 - 0x80)) :: utf8DecodeF fuel (utf8Encode cs) := by
              simp only [utf8DecodeF]
              rw [if_neg hA, if_neg hB, if_pos hC, if_pos hD]
            rw [hstep, show (0xE0 + c / 4096 - 0xE0) * 4096 +
                (0x80 + c / 64 % 64 - 0x80) * 64 + (0x80 + c % 64 - 0x80) = c by omega,
              utf8Encode_decode cs hvcs fuel (by simp at hf; omega)]
        · have henc : utf8Encode (c :: cs) = (0xF0 + c / 0x40000) ::
              (0x80 + c / 4096 % 64) :: (0x80 + c / 64 % 64) :: (0x80 + c % 64) ::
              utf8Encode cs := by
            simp [utf8Encode, hc1, hc2, hc3]
          rw [henc] at hf
          cases fuel with
          | zero => simp at hf
          | succ fuel =>
            rw [henc]
            have hA : ¬ (0xF0 + c / 0x40000 < 0x80) := by omega
            have hB : ¬ (0xC2 ≤ 0xF0 + c / 0x40000 ∧ 0xF0 + c / 0x40000 ≤ 0xDF) := by omega
            have hC : ¬ (0xE0 ≤ 0xF0 + c / 0x40000 ∧ 0xF0 + c / 0x40000 ≤ 0xEF) := by omega
            have hD : 0xF0 ≤ 0xF0 + c / 0x40000 ∧ 0xF0 + c / 0x40000 ≤ 0xF4 := by omega
            have hE : ((0xF0 + c / 0x40000 = 0xF0 ∧ 0x90 ≤ 0x80 + c / 4096 % 64 ∧
                  0x80 + c / 4096 % 64 ≤ 0xBF) ∨
                (0xF0 + c / 0x40000 = 0xF4 ∧ 0x80 ≤ 0x80 + c / 4096 % 64 ∧
                  0x80 + c / 4096 % 64 ≤ 0x8F) ∨
                (0xF0 + c / 0x40000 ≠ 0xF0 ∧ 0xF0 + c / 0x40000 ≠ 0xF4 ∧
                  0x80 ≤ 0x80 + c / 4096 % 64 ∧ 0x80 + c / 4096 % 64 ≤ 0xBF)) ∧
                0x80 ≤ 0x80 + c / 64 % 64 ∧ 0x80 + c / 64 % 64 ≤ 0xBF ∧
                0x80 ≤ 0x80 + c % 64 ∧ 0x80 + c % 64 ≤ 0xBF := by
              omega
            have hstep : utf8DecodeF (fuel + 1) ((0xF0 + c / 0x40000) ::
                (0x80 + c / 4096 % 64) :: (0x80 + c / 64 % 64) :: (0x80 + c % 64) ::
                utf8Encode cs) =
                ((0xF0 + c / 0x40000 - 0xF0) * 0x40000 + (0x80 + c / 4096 % 64 - 0x80) *
                  4096 + (0x80 + c / 64 % 64 - 0x80) * 64 + (0x80 + c % 64 - 0x80)) ::
                  utf8DecodeF fuel (utf8Encode cs) := by
              simp only [utf8DecodeF]
              rw [if_neg hA, if_neg hB, if_neg hC, if_pos hD, if_pos hE]
            rw [hstep, show (0xF0 + c / 0x40000 - 0xF0) * 0x40000 +
                (0x80 + c / 4096 % 64 - 0x80) * 4096 + (0x80 + c / 64 % 64 - 0x80) * 64 +
                (0x80 + c % 64 - 0x80) = c by omega,
              utf8Encode_decode cs hvcs fuel (by simp at hf; omega)]

theorem utf8DecodeCP_roundtrip (bs : List Nat) :
    utf8DecodeCP (utf8Encode (utf8DecodeCP bs)) = utf8DecodeCP bs :=
  utf8Encode_decode (utf8DecodeCP bs) (utf8DecodeF_spec bs.length bs (Nat.le_refl _)).2.2
    (utf8Encode (utf8DecodeCP bs)).length (Nat.le_refl _)

theorem jsSplitGo_length (sep : Nat) : ∀ (cur s : List Nat),
    (jsSplitGo sep cur s).length = s.count sep + 1
  | cur, [] => by simp [jsSplitGo]
  | cur, c :: cs => by
    by_cases hc : c = sep
    · simp [jsSplitGo, hc, jsSplitGo_length sep [] cs, List.count_cons]
    · simp [jsSplitGo, hc, jsSplitGo_length sep (c :: cur) cs, List.count_cons,
        Ne.symm hc]

theorem jsSplitGo_sum (sep : Nat) : ∀ (cur s : List Nat),
    ((jsSplitGo sep cur s).map List.length).sum + s.count sep = cur.length + s.length
  | cur, [] => by simp [jsSplitGo]
  | cur, c :: cs => by
    by_cases hc : c = sep
    · have ih := jsSplitGo_sum sep [] cs
      simp [jsSplitGo, hc, List.count_cons] at ih ⊢
      omega
    · have ih := jsSplitGo_sum sep (c :: cur) cs
      simp [jsSplitGo, hc, List.count_cons, Ne.symm hc] at ih ⊢
      omega

theorem parseEntry_le_nine : ∀ (seg : List Nat), seg.length ≤ 1 →
    (match jsNumOfSegment seg with | some v => v % 256 | none => 0) ≤ 9
  | [], _ => by simp [jsNumOfSegment]
  | [c], _ => by
    simp only [jsNumOfSegment]
    by_cases hd : 48 ≤ c ∧ c ≤ 57
    · rw [if_neg (by simp), if_pos (by simp [hd.1, hd.2])]
      show List.foldl (fun acc c => acc * 10 + (c - 48)) 0 [c] % 256 ≤ 9
      have hfold : List.foldl (fun acc c => acc * 10 + (c - 48)) 0 [c] = c - 48 := by
        simp [List.foldl]
      rw [hfold, Nat.mod_eq_of_lt (by omega)]
      omega
    · rw [if_neg (by simp), if_neg (by simp; omega)]
      exact Nat.zero_le 9
  | _ :: _ :: _, h => absurd h (by simp)

/-- C3: a registered user's Solana wallet stores (encrypted) the UTF-8
string decoding of the 64 raw secret-key bytes — `registerUser` encrypts
`utf8Encode (utf8DecodeCP solSecretKey)`, and that ciphertext decrypts back
to exactly those bytes, whose string round-trips — whereas `transferSOL`
and `signMessage` re-parse the decrypted string as a comma-separated
decimal list.  For EVERY 64-byte secret key this parse fails to
reconstruct the key: 64 parsed entries need 63 commas, a comma survives
the decode-encode pipeline one-for-one, so at most one character is left
over for all 64 segments, every parsed entry is ≤ 9, and a list with 63
commas cannot consist of entries ≤ 9; consequently the keypair rebuilt by
`Keypair.fromSecretKey` can never have the stored public-key bytes. -/
theorem c3_solana_secret_parse (sk : List Nat) (hlen : sk.length = 64) :
    (∀ key iv, (hexDecodeLax key).length = 32 → iv.length = 16 → (∀ z ∈ iv, z < 256) →
      encryptPrivateKey (utf8Encode (utf8DecodeCP sk)) key iv =
          some (hexEncode iv ++ 58 :: hexEncode (aesCbcEncrypt (hexDecodeLax key) iv
            (utf8Encode (utf8DecodeCP sk)))) ∧
        decryptPrivateKey (hexEncode iv ++ 58 :: hexEncode (aesCbcEncrypt (hexDecodeLax key)
          iv (utf8Encode (utf8DecodeCP sk)))) key = some (utf8Encode (utf8DecodeCP sk))) ∧
    utf8DecodeCP (utf8Encode (utf8DecodeCP sk)) = utf8DecodeCP sk ∧
    solParseSecret (utf8DecodeCP sk) ≠ sk ∧
    (∀ pub, solRebuildPub (utf8DecodeCP sk) = some pub → pub ≠ sk.drop 32) := by
  have hspec := utf8DecodeF_spec sk.length sk (Nat.le_refl _)
  have hcount : (utf8DecodeCP sk).count 44 = sk.count 44 := hspec.1
  have hslen : (utf8DecodeCP sk).length ≤ 64 := hlen ▸ hspec.2.1
  have hplen : (solParseSecret (utf8DecodeCP sk)).length =
      (utf8DecodeCP sk).count 44 + 1 := by
    simp [solParseSecret, jsSplit, jsSplitGo_length]
  have hsum := jsSplitGo_sum 44 [] (utf8DecodeCP sk)
  have key : (utf8DecodeCP sk).count 44 = 63 →
      ∀ x ∈ solParseSecret (utf8DecodeCP sk), x ≤ 9 := by
    intro h63 x hx
    obtain ⟨seg, hseg, hxval⟩ := List.mem_map.mp hx
    have hsum1 : ((jsSplit 44 (utf8DecodeCP sk)).map List.length).sum ≤ 1 := by
      have h0 : ((jsSplitGo 44 [] (utf8DecodeCP sk)).map List.length).sum + 63 =
          (utf8DecodeCP sk).length := by
        rw [← h63]
        simpa using hsum
      show ((jsSplitGo 44 [] (utf8DecodeCP sk)).map List.length).sum ≤ 1
      omega
    have hseglen : seg.length ≤ 1 := by
      have hmem : seg.length ∈ (jsSplit 44 (utf8DecodeCP sk)).map List.length :=
        List.mem_map_of_mem List.length hseg
      exact le_trans (List.single_le_sum (fun y _ => Nat.zero_le y) _ hmem) hsum1
    rw [← hxval]
    exact parseEntry_le_nine seg hseglen
  refine ⟨?_, utf8DecodeCP_roundtrip sk, ?_, ?_⟩
  · intro k iv hk hi hiv
    exact decryptPrivateKey_encryptPrivateKey hk hi hiv
      (utf8Encode_lt (utf8DecodeCP sk) hspec.2.2)
  · intro heq
    have h1 : (solParseSecret (utf8DecodeCP sk)).length = 64 := by rw [heq, hlen]
    have h63 : (utf8DecodeCP sk).count 44 = 63 := by omega
    have h63sk : sk.count 44 = 63 := by omega
    have h44mem : (44 : Nat) ∈ sk := by
      have hpos : 0 < sk.count 44 := by omega
      exact List.count_pos_iff.mp hpos
    have h44le := key h63 44 (by rw [heq]; exact h44mem)
    omega
  · intro pub hpub hdropeq
    have hif := hpub
    simp only [solRebuildPub] at hif
    by_cases hl : (solParseSecret (utf8DecodeCP sk)).length = 64
    · rw [if_pos hl] at hif
      have hpub2 : (solParseSecret (utf8DecodeCP sk)).drop 32 = pub := Option.some.inj hif
      have h63 : (utf8DecodeCP sk).count 44 = 63 := by omega
      have hsplit : sk.count 44 = (sk.take 32).count 44 + (sk.drop 32).count 44 := by
        conv_lhs => rw [← List.take_append_drop 32 sk]
        exact List.count_append _ _ _
      have htake : (sk.take 32).count 44 ≤ 32 := by
        refine le_trans (List.count_le_length _ _) ?_
        simp [List.length_take]
      have hdrop44 : 0 < (sk.drop 32).count 44 := by omega
      have hmem44 : (44 : Nat) ∈ sk.drop 32 := List.count_pos_iff.mp hdrop44
      rw [← hdropeq, ← hpub2] at hmem44
      have hmem44p : (44 : Nat) ∈ solParseSecret (utf8DecodeCP sk) :=
        List.mem_of_mem_drop hmem44
      have := key h63 44 hmem44p
      omega
    · rw [if_neg hl] at hif
      exact absurd hif (by simp)

/-- C3 witness: the secret key 0,1,...,63 is not reconstructed by the
comma-parse of its stored string. -/
theorem c3_solana_secret_parse_witness :
    solParseSecret (utf8DecodeCP (List.range 64)) ≠ List.range 64 := by
  exact (c3_solana_secret_parse (List.range 64) (by simp)).2.2.1
